import Mathlib

/-!
Verification of the crewagent-builder-frontend export pipeline.

This file shallowly embeds the pure core of the repository in Lean 4 and
proves (or refutes) the frozen claims about it.  The embedded functions are
translated from the TypeScript sources:

  - src/lib/workflow-graph-v11.ts      (workflow graph compiler)
  - src/lib/utils.ts                   (agent id slugs, unique ids)
  - src/lib/agents-manifest-v11.ts     (agent manifest builder)
  - src/lib/bmad-manifest-v11.ts       (package manifest builder)
  - the frontmatter codec module       (extract/parse YAML frontmatter)
  - the export assembler module        (buildBmadExportFilesV11)

Modelling conventions:
  - JavaScript dynamic values (TypeScript "unknown") are modelled by the
    inductive type JVal below; JS truthiness is modelled by jsTruthy.
  - External libraries are modelled as oracle parameters: JSON.parse as a
    function String -> Option JVal (none = exception), YAML.parse as
    String -> Except String JVal (error = thrown message), and the Ajv
    schema validator (whose schema files live in a sibling repository,
    not in this one) as a function returning (ok, formatted error list).
    Date.now() is modelled as a Nat parameter.
  - JS string primitives are re-implemented on the character list so that
    proofs can reason about them: jsTrim models String.prototype.trim,
    jsToLower models toLowerCase (ASCII; claims only need ASCII inputs),
    natToDec models the decimal rendering of a non-negative JS number.
  - localeCompare-based sorts are modelled with the code-point
    lexicographic order strLe; Array.prototype.sort is modelled with the
    stable insertion sort sortByLe, matching the engine-guaranteed
    stable sort.
  - JS Map/Set/object are modelled as association lists that keep the
    first-insertion key order, with last-write-wins values; === identity
    of edge records is modelled by their distinct input index.
  - JS numbers appearing as workflow ids are modelled as Int (the code
    only renders, compares and subtracts them).
-/

set_option maxHeartbeats 2000000
set_option maxRecDepth 4000

/-- Dynamic JS/JSON value, used for TypeScript fields typed unknown and
for parsed JSON/YAML documents. -/
inductive JVal where
  | null
  | bool (b : Bool)
  | num (n : Int)
  | str (s : String)
  | arr (elems : List JVal)
  | obj (fields : List (String × JVal))

/-- JS truthiness of a value (undefined is modelled as Option.none at use
sites; NaN does not arise in the Int model). -/
def jsTruthy : JVal → Bool
  | .null => false
  | .bool b => b
  | .num n => n ≠ 0
  | .str s => s ≠ ""
  | .arr _ => true
  | .obj _ => true

/-- Property access o.k on a parsed JSON object: JSON.parse keeps the last
duplicate key, so lookup returns the last binding. -/
def jget (fields : List (String × JVal)) (k : String) : Option JVal :=
  (fields.reverse.find? (fun p => p.1 = k)).map (·.2)

/-- Whitespace as trimmed by JS String.prototype.trim (ASCII fragment). -/
def jsWs (c : Char) : Bool :=
  c = ' ' || c = '\t' || c = '\n' || c = '\r'

/-- Drops leading and trailing whitespace from a character list. -/
def trimChars (cs : List Char) : List Char :=
  ((cs.dropWhile jsWs).reverse.dropWhile jsWs).reverse

/-- Model of JS String.prototype.trim. -/
def jsTrim (s : String) : String :=
  ⟨trimChars s.data⟩

/-- Model of JS toLowerCase (ASCII case mapping). -/
def jsToLower (s : String) : String :=
  ⟨s.data.map Char.toLower⟩

/-- Code-point lexicographic strict order on character lists, the model of
the default localeCompare collation used by the sorts in the sources. -/
def charsLt : List Char → List Char → Bool
  | [], [] => false
  | [], _ :: _ => true
  | _ :: _, [] => false
  | a :: as, b :: bs => if a < b then true else if b < a then false else charsLt as bs

/-- Total order on strings used to model localeCompare-based sorts. -/
def strLe (a b : String) : Bool := !(charsLt b.data a.data)

/-- Inserts x after every already-placed element that compares at or
below it. -/
def insertLe (le : α → α → Bool) (x : α) : List α → List α
  | [] => [x]
  | y :: ys => if le y x then y :: insertLe le x ys else x :: y :: ys

/-- Stable sort modelling Array.prototype.sort (the ECMAScript sort is
required to be stable; insertion from the left preserves the relative
order of equivalent elements exactly as a stable sort does). -/
def sortByLe (le : α → α → Bool) (l : List α) : List α :=
  l.foldl (fun acc x => insertLe le x acc) []

/-- Decimal digit character for d < 10 (values 10 and above do not occur;
the catch-all case is arbitrary). -/
def decChar (d : Nat) : Char :=
  match d with
  | 0 => '0' | 1 => '1' | 2 => '2' | 3 => '3' | 4 => '4'
  | 5 => '5' | 6 => '6' | 7 => '7' | 8 => '8' | _ => '9'

/-- Decimal digit list of a natural number (most significant first); the
reference form used in proofs. -/
def decDigitsSpec (n : Nat) : List Char :=
  if n < 10 then [decChar n]
  else decDigitsSpec (n / 10) ++ [decChar (n % 10)]
termination_by n
decreasing_by exact Nat.div_lt_self (by omega) (by omega)

/-- Fuel-driven digit accumulation (structural recursion, so that the
kernel can evaluate it; the fuel n + 1 always suffices). -/
def natToDecCore : Nat → Nat → List Char → List Char
  | 0, _, acc => acc
  | fuel + 1, n, acc =>
      let d := n % 10
      let q := n / 10
      if q = 0 then decChar d :: acc
      else natToDecCore fuel q (decChar d :: acc)

/-- Decimal rendering of a natural number, the model of JS number-to-string
conversion for the non-negative integers the code renders. -/
def natToDecChars (n : Nat) : List Char := natToDecCore (n + 1) n []

/-- Decimal rendering packaged as a string. -/
def natToDec (n : Nat) : String := ⟨natToDecChars n⟩

/-- Decimal rendering of a JS number modelled as Int. -/
def intToDec (n : Int) : String :=
  if n < 0 then "-" ++ natToDec n.natAbs else natToDec n.natAbs

/-- Character class [A-Za-z0-9]. -/
def isIdStartChar (c : Char) : Bool := c.isAlpha || c.isDigit

/-- Character class [A-Za-z0-9._:-]. -/
def isIdChar (c : Char) : Bool :=
  c.isAlpha || c.isDigit || c = '.' || c = '_' || c = ':' || c = '-'

/-- Model of NODE_ID_PATTERN.test / AGENT_ID_PATTERN.test /
WORKFLOW_ID_PATTERN.test for the shared regex
[A-Za-z0-9][A-Za-z0-9._:-]* anchored at both ends. -/
def idPatternTest (s : String) : Bool :=
  match s.data with
  | [] => false
  | c :: cs => isIdStartChar c && cs.all isIdChar

/-- Set.add semantics on a JS Set modelled as an insertion-ordered list. -/
def sadd (s : List String) (x : String) : List String :=
  if s.contains x then s else s ++ [x]

/-- Helper joining strings with a separator, the model of Array.join. -/
def joinSep (sep : String) : List String → String
  | [] => ""
  | [x] => x
  | x :: y :: rest => x ++ sep ++ joinSep sep (y :: rest)

/-! ## Embedding of src/lib/workflow-graph-v11.ts -/

/-- Builder graph node as consumed by buildWorkflowGraphV11; the fields of
data are inlined (an absent data object makes them all none).  Fields of
TypeScript type unknown are JVal options. -/
structure WGNode where
  id : String
  type? : Option JVal := none
  title? : Option JVal := none
  agentId? : Option JVal := none
  inputs? : Option JVal := none
  outputs? : Option JVal := none

/-- Builder graph edge as consumed by buildWorkflowGraphV11; data fields
are inlined. -/
structure WGEdge where
  id? : Option String := none
  source : String := ""
  target : String := ""
  label? : Option JVal := none
  isDefault? : Option JVal := none
  conditionText? : Option JVal := none

/-- Emitted workflow graph node (WorkflowGraphV11Node). -/
structure OutNode where
  id : String
  type : String
  file : String
  title : Option String := none
  agentId : Option String := none
  inputs : Option (List String) := none
  outputs : Option (List String) := none
deriving DecidableEq, Repr

/-- Emitted workflow graph edge (WorkflowGraphV11Edge); fromId/toId model
the JSON fields from/to. -/
structure OutEdge where
  id : Option String := none
  fromId : String
  toId : String
  label : String
  isDefault : Option Bool := none
  conditionText : Option String := none
deriving DecidableEq, Repr

/-- Emitted workflow graph document (WorkflowGraphV11). -/
structure GraphOut where
  schemaVersion : String
  entryNodeId : String
  nodes : List OutNode
  edges : List OutEdge
deriving DecidableEq, Repr

/-- WorkflowGraphBuildResult. -/
structure GraphResult where
  graph : Option GraphOut
  warnings : List String
  errors : List String
deriving DecidableEq, Repr

/-- isNodeType from the source: value is one of the five node types. -/
def isNodeType : Option JVal → Bool
  | some (.str s) =>
      s = "step" || s = "decision" || s = "merge" || s = "end" || s = "subworkflow"
  | _ => false

/-- parseStringList from the source. -/
def parseStringList : Option JVal → List String
  | some (.arr xs) =>
      (xs.map (fun v => match v with | .str s => jsTrim s | _ => "")).filter (fun v => v ≠ "")
  | _ => []

/-- stableEdgeSortKey from the source. -/
def stableEdgeSortKey (e : WGEdge) (fallbackIndex : Nat) : String :=
  let id := jsTrim (e.id?.getD "")
  if id ≠ "" then id
  else e.source ++ "->" ++ e.target ++ "#" ++ natToDec fallbackIndex

/-- The nodesById map: insertion keeps the first-occurrence key position,
the value is overwritten by later occurrences (JS Map.set); nodes with a
falsy (empty) id are skipped. -/
def insertNode (m : List (String × WGNode)) (n : WGNode) : List (String × WGNode) :=
  if (m.map Prod.fst).contains n.id then
    m.map (fun p => if p.1 = n.id then (n.id, n) else p)
  else m ++ [(n.id, n)]

/-- Builds the nodesById map from the input node list. -/
def nodesById (nodes : List WGNode) : List (String × WGNode) :=
  nodes.foldl (fun m n => if n.id = "" then m else insertNode m n) []

/-- Map lookup (Map.get). -/
def lookupNode (m : List (String × WGNode)) (k : String) : Option WGNode :=
  (m.find? (fun p => p.1 = k)).map (·.2)

/-- Edge validation loop: collects per-edge fatal errors and the surviving
(valid) edges together with their original index. -/
def collectEdges (ids : List String) (edges : List WGEdge) :
    List String × List (WGEdge × Nat) :=
  edges.enum.foldl
    (fun acc p =>
      let idx := p.1
      let e := p.2
      if e.source = "" || e.target = "" then
        (acc.1 ++ ["存在不完整的 edge（缺少 source/target）：index=" ++ natToDec idx], acc.2)
      else if !(ids.contains e.source) then
        (acc.1 ++ ["edge.source 不存在：" ++ e.source ++ "（index=" ++ natToDec idx ++ "）"], acc.2)
      else if !(ids.contains e.target) then
        (acc.1 ++ ["edge.target 不存在：" ++ e.target ++ "（index=" ++ natToDec idx ++ "）"], acc.2)
      else (acc.1, acc.2 ++ [(e, idx)]))
    ([], [])

/-- In-degree of a node over the valid edges (the imperative indegree map
counts exactly the valid edges into each node). -/
def indegree (ve : List (WGEdge × Nat)) (v : String) : Nat :=
  ve.countP (fun r => r.1.target = v)

/-- Outgoing adjacency of a node over the valid edges, in edge order. -/
def outgoing (ve : List (WGEdge × Nat)) (v : String) : List String :=
  (ve.filter (fun r => r.1.source = v)).map (fun r => r.1.target)

/-- Inner loop of the topological traversal: decrement each out-neighbour
and enqueue the ones whose counter reaches exactly zero. -/
def processOuts (outs : List String) (q : List String) (next : String → Int) :
    List String × (String → Int) :=
  outs.foldl
    (fun st t =>
      let v := st.2 t - 1
      let next' := fun x => if x = t then v else st.2 x
      (if v = 0 then st.1 ++ [t] else st.1, next'))
    (q, next)

/-- Kahn traversal returning the number of visited nodes; mirrors the JS
while loop (including its defensive falsy-id break) with explicit fuel.
The loop dequeues each node at most once, so any fuel of at least
(number of nodes + 1) computes the loop exactly. -/
def kahnRun (ve : List (WGEdge × Nat)) : Nat → List String → (String → Int) → Nat → Nat
  | 0, _, _, visited => visited
  | _ + 1, [], _, visited => visited
  | fuel + 1, id :: rest, next, visited =>
      if id = "" then visited
      else
        let st := processOuts (outgoing ve id) rest next
        kahnRun ve fuel st.1 st.2 (visited + 1)

/-- Number of nodes visited by the topological traversal of the source. -/
def kahnVisited (ids : List String) (ve : List (WGEdge × Nat)) : Nat :=
  let q0 := ids.filter (fun id => indegree ve id = 0)
  kahnRun ve (ids.length + 1) q0 (fun v => (indegree ve v : Int)) 0

/-- Maps one node id to its emitted node plus the unknown-type warnings. -/
def mapNodeOut (m : List (String × WGNode)) (id : String) : OutNode × List String :=
  let n := (lookupNode m id).getD { id := id }
  let rawType := n.type?
  let typeOk := isNodeType rawType
  let type := match rawType with
    | some (.str s) => if typeOk then s else "step"
    | _ => "step"
  let ws :=
    if (match rawType with | some v => jsTruthy v | none => false) && !typeOk then
      ["未知 node.type（已回退为 step）：" ++ id ++ ":" ++ jvalToDisplay rawType]
    else []
  let title := match n.title? with | some (.str s) => jsTrim s | _ => ""
  let agentId := match n.agentId? with | some (.str s) => jsTrim s | _ => ""
  let inputs := parseStringList n.inputs?
  let outputs := parseStringList n.outputs?
  ({ id := id
     type := type
     file := "steps/" ++ id ++ ".md"
     title := if title ≠ "" then some title else none
     agentId := if agentId ≠ "" then some agentId else none
     inputs := if inputs ≠ [] then some inputs else none
     outputs := if outputs ≠ [] then some outputs else none }, ws)
  where jvalToDisplay : Option JVal → String
    | some (.str s) => s
    | some (.bool b) => if b then "true" else "false"
    | some (.num n) => intToDec n
    | some .null => "null"
    | some (.arr _) => ""
    | some (.obj _) => "[object Object]"
    | none => "undefined"

/-- Emits the sorted node list together with the type warnings. -/
def buildNodesOut (m : List (String × WGNode)) (ids : List String) :
    List OutNode × List String :=
  (sortByLe strLe ids).foldl
    (fun acc id =>
      let r := mapNodeOut m id
      (acc.1 ++ [r.1], acc.2 ++ r.2))
    ([], [])

/-- Sources of the valid edges in first-occurrence order (the key order of
the edgesBySource map). -/
def sourcesOf (ve : List (WGEdge × Nat)) : List String :=
  ve.foldl (fun acc r => sadd acc r.1.source) []

/-- Outgoing edge group of one source, sorted by the stable sort key. -/
def groupOf (ve : List (WGEdge × Nat)) (s : String) : List (WGEdge × Nat) :=
  sortByLe (fun a b => strLe (stableEdgeSortKey a.1 a.2) (stableEdgeSortKey b.1 b.2))
    (ve.filter (fun r => r.1.source = s))

/-- The trimmed string label of an edge, or empty when label is not a
string (typeof edge.label === "string" check). -/
def rawLabelOf (e : WGEdge) : String :=
  match e.label? with
  | some (.str s) => jsTrim s
  | _ => ""

/-- The trimmed conditionText of an edge, or empty when not a string. -/
def rawConditionTextOf (e : WGEdge) : String :=
  match e.conditionText? with
  | some (.str s) => jsTrim s
  | _ => ""

/-- Strict equality test data.isDefault === true. -/
def isDefaultTrue (e : WGEdge) : Bool :=
  match e.isDefault? with
  | some (.bool true) => true
  | _ => false

/-- Default-edge records of a group (data.isDefault === true). -/
def defaultsOf (g : List (WGEdge × Nat)) : List (WGEdge × Nat) :=
  g.filter (fun r => isDefaultTrue r.1)

/-- Emits one source group: auto-labels, default-branch normalization and
the duplicate-default warning.  Record identity (=== on the edge object)
is modelled by the distinct original index. -/
def emitGroup (ve : List (WGEdge × Nat)) (s : String) : List OutEdge × List String :=
  let group := groupOf ve s
  let multi := group.length > 1
  let defaults := defaultsOf group
  let chosenDefault : Option (WGEdge × Nat) :=
    if multi then (defaults.head?).orElse (fun _ => group.head?) else none
  let ws :=
    if multi && defaults.length > 1 then
      ["同一节点存在多个 default edge（已保留第一个）：" ++ s ++ " -> " ++
        joinSep ", " (defaults.map (fun d =>
          match d.1.id? with
          | some s => s
          | none => stableEdgeSortKey d.1 d.2))]
    else []
  let es := group.enum.map (fun p =>
    let idx := p.1
    let r := p.2
    let rawLabel := rawLabelOf r.1
    let label := if rawLabel ≠ "" then rawLabel
      else if multi then "branch-" ++ natToDec (idx + 1) else "next"
    let conditionText := rawConditionTextOf r.1
    let idT := jsTrim (r.1.id?.getD "")
    let isDef := match chosenDefault with | some c => c.2 = r.2 | none => false
    { id := if idT ≠ "" then some idT else none
      fromId := r.1.source
      toId := r.1.target
      label := label
      isDefault := if multi && isDef then some true else none
      conditionText := if conditionText ≠ "" then some conditionText else none : OutEdge })
  (es, ws)

/-- Emits all edges grouped by sorted source, with the default warnings. -/
def buildEdgesOut (ve : List (WGEdge × Nat)) : List OutEdge × List String :=
  (sortByLe strLe (sourcesOf ve)).foldl
    (fun acc s =>
      let r := emitGroup ve s
      (acc.1 ++ r.1, acc.2 ++ r.2))
    ([], [])

/-- The distinct non-empty node ids in first-occurrence order (the key
set of the nodesById map). -/
def idsOf (nodes : List WGNode) : List String :=
  (nodesById nodes).map Prod.fst

/-- The valid edges (with original index) surviving edge validation. -/
def validEdgesOf (nodes : List WGNode) (edges : List WGEdge) : List (WGEdge × Nat) :=
  (collectEdges (idsOf nodes) edges).2

/-- The per-edge validation errors. -/
def edgeErrorsOf (nodes : List WGNode) (edges : List WGEdge) : List String :=
  (collectEdges (idsOf nodes) edges).1

/-- The entry candidates: zero-in-degree nodes sorted ascending by id. -/
def startNodesOf (nodes : List WGNode) (edges : List WGEdge) : List String :=
  sortByLe strLe ((idsOf nodes).filter (fun id => indegree (validEdgesOf nodes edges) id = 0))

/-- The selected entryNodeId (empty string when no candidate exists). -/
def entryOf (nodes : List WGNode) (edges : List WGEdge) : String :=
  (startNodesOf nodes edges).headD ""

/-- The cycle-detection errors. -/
def cycleErrorsOf (nodes : List WGNode) (edges : List WGEdge) : List String :=
  if !(validEdgesOf nodes edges).isEmpty &&
      kahnVisited (idsOf nodes) (validEdgesOf nodes edges) ≠ (idsOf nodes).length then
    ["检测到循环依赖：请移除环形连线后再生成 workflow.graph.json"]
  else []

/-- The invalid-node-id errors. -/
def invalidIdErrorsOf (nodes : List WGNode) : List String :=
  let invalidIds := (idsOf nodes).filter (fun id => !idPatternTest id)
  if invalidIds ≠ [] then ["存在不合法的 nodeId：" ++ joinSep ", " invalidIds] else []

/-- The entry-determination error. -/
def entryErrorsOf (nodes : List WGNode) (edges : List WGEdge) : List String :=
  if entryOf nodes edges = "" then ["无法确定 entryNodeId：未找到入度为 0 的起点节点"] else []

/-- All fatal errors accumulated before the early-return check, in push
order. -/
def graphErrorsOf (nodes : List WGNode) (edges : List WGEdge) : List String :=
  invalidIdErrorsOf nodes ++ edgeErrorsOf nodes edges ++ cycleErrorsOf nodes edges ++
    entryErrorsOf nodes edges

/-- The duplicate-node and multi-start warnings accumulated before the
early-return check, in push order. -/
def graphWarningsPre (nodes : List WGNode) (edges : List WGEdge) : List String :=
  (if nodes.length - (idsOf nodes).length > 0 then
    ["检测到重复 nodeId（已按最后一次出现覆盖）：" ++
      natToDec (nodes.length - (idsOf nodes).length) ++ " 个"]
  else []) ++
  (if (startNodesOf nodes edges).length > 1 then
    ["检测到多起点：已选择 entryNodeId=" ++ (startNodesOf nodes edges).headD ""]
  else [])

/-- The workflow graph compiler buildWorkflowGraphV11, translated from
src/lib/workflow-graph-v11.ts and split into the named stages above. -/
def buildWorkflowGraphV11 (nodes : List WGNode) (edges : List WGEdge) : GraphResult :=
  if nodes.isEmpty then
    { graph := none, warnings := [],
      errors := ["workflow.graph.json 生成失败：图中没有任何节点（nodes 为空）"] }
  else if graphErrorsOf nodes edges ≠ [] then
    { graph := none, warnings := graphWarningsPre nodes edges
      errors := graphErrorsOf nodes edges }
  else
    let bn := buildNodesOut (nodesById nodes) (idsOf nodes)
    let be := buildEdgesOut (validEdgesOf nodes edges)
    { graph := some
        { schemaVersion := "1.1"
          entryNodeId := entryOf nodes edges
          nodes := bn.1
          edges := be.1 }
      warnings := graphWarningsPre nodes edges ++ bn.2 ++ be.2
      errors := graphErrorsOf nodes edges }

/-! ## Embedding of src/lib/utils.ts -/

/-- isValidAgentId from the source (AGENT_ID_PATTERN is the shared id
regex). -/
def isValidAgentId (s : String) : Bool := idPatternTest s

/-- Character class [a-z0-9._:-] kept by the slug cleaning step. -/
def isSlugChar (c : Char) : Bool :=
  (97 ≤ c.toNat && c.toNat ≤ 122) || c.isDigit || c = '.' || c = '_' || c = ':' || c = '-'

/-- Character class [a-z0-9] of the slug start check. -/
def isSlugStartChar (c : Char) : Bool :=
  (97 ≤ c.toNat && c.toNat ≤ 122) || c.isDigit

/-- Run-replacement worker: inRun records whether the previous character
was part of a bad run already replaced. -/
def replaceRunsGo (bad : Char → Bool) (rep : Char) : Bool → List Char → List Char
  | _, [] => []
  | inRun, c :: rest =>
      if bad c then
        if inRun then replaceRunsGo bad rep true rest
        else rep :: replaceRunsGo bad rep true rest
      else c :: replaceRunsGo bad rep false rest

/-- Replaces every maximal run of bad characters by a single replacement
character (the regex run replacement). -/
def replaceRuns (bad : Char → Bool) (rep : Char) (cs : List Char) : List Char :=
  replaceRunsGo bad rep false cs

/-- Collapses every run of dashes to a single dash (the -+ replacement). -/
def collapseDashes (cs : List Char) : List Char :=
  replaceRuns (fun c => c = '-') '-' cs

/-- Drops dashes from both ends (the leading/trailing -+ strips). -/
def stripDashes (cs : List Char) : List Char :=
  ((cs.dropWhile (fun c => c = '-')).reverse.dropWhile (fun c => c = '-')).reverse

/-- slugifyAgentId from the source. -/
def slugifyAgentId (input : String) : String :=
  let trimmed := jsToLower (jsTrim input)
  let cleaned := stripDashes (collapseDashes (replaceRuns (fun c => !isSlugChar c) '-' trimmed.data))
  if cleaned.isEmpty then "agent"
  else
    let startsOk := match cleaned with
      | c :: _ => isSlugStartChar c
      | [] => false
    if startsOk then ⟨cleaned⟩ else "agent-" ++ (⟨cleaned⟩ : String)

/-- uniqueAgentId from the source; the for loop probes the suffixes -2 ..
-999 and then falls back to a Date.now() timestamp, modelled by the now
parameter.  The existing-id Set is modelled by a list queried through
contains. -/
def uniqueAgentId (now : Nat) (baseName : String) (existingIds : List String) : String :=
  let base := slugifyAgentId baseName
  if !(existingIds.contains base) then base
  else
    match (List.range' 2 998).find? (fun i => !(existingIds.contains (base ++ "-" ++ natToDec i))) with
    | some i => base ++ "-" ++ natToDec i
    | none => base ++ "-" ++ natToDec now

/-! ## Embedding of src/lib/agents-manifest-v11.ts -/

/-- Emitted agent metadata. -/
structure AgentMeta where
  name : String
  title : String
  icon : String
  module? : Option String := none
  description? : Option String := none
  sourceId? : Option String := none

/-- Emitted agent persona (principles are always emitted as an array). -/
structure AgentPersona where
  role : String
  identity : String
  communication_style : String
  principles : List String

/-- Emitted fs tool policy. -/
structure ToolsFs where
  enabled : Bool
  maxReadBytes? : Option Int := none
  maxWriteBytes? : Option Int := none

/-- Emitted mcp tool policy. -/
structure ToolsMcp where
  enabled : Bool
  allowedServers : List String

/-- Emitted tool policy. -/
structure ToolPolicy where
  fs : ToolsFs
  mcp : ToolsMcp

/-- Emitted prompt record. -/
structure PromptOut where
  id : String
  content : String
  description? : Option String := none

/-- Emitted agent record (AgentV11). -/
structure AgentOut where
  id : String
  metadata : AgentMeta
  persona : AgentPersona
  tools : ToolPolicy
  critical_actions : Option (List String) := none
  prompts : Option (List PromptOut) := none
  menu : Option (List JVal) := none
  systemPrompt : Option String := none
  userPromptTemplate : Option String := none
  discussion : Option Bool := none
  webskip : Option Bool := none
  conversational_knowledge : Option (List JVal) := none

/-- Emitted agents manifest (AgentsManifestV11). -/
structure AgentsManifestOut where
  schemaVersion : String
  agents : List AgentOut

/-- AgentsManifestBuildResult. -/
structure AgentsResult where
  manifest : Option AgentsManifestOut
  warnings : List String
  errors : List String

/-- DEFAULT_TOOLS from the source. -/
def defaultToolPolicy : ToolPolicy :=
  { fs := { enabled := true }
    mcp := { enabled := false, allowedServers := [] } }

/-- normalizeString from the source. -/
def normalizeString (value : Option JVal) : String :=
  match value with
  | some (.str s) => jsTrim s
  | _ => ""

/-- normalizeStringArray from the source. -/
def normalizeStringArray (value : Option JVal) : List String :=
  match value with
  | some (.arr xs) =>
      (xs.map (fun v => match v with | .str s => jsTrim s | _ => "")).filter (fun v => v ≠ "")
  | _ => []

/-- normalizeTools from the source. -/
def normalizeTools (raw : Option JVal) : ToolPolicy :=
  match raw with
  | some (.obj toolsFields) =>
      let fsObj := match jget toolsFields "fs" with | some (.obj f) => some f | _ => none
      let mcpObj := match jget toolsFields "mcp" with | some (.obj f) => some f | _ => none
      let fsEnabled := match fsObj.bind (fun f => jget f "enabled") with
        | some (.bool b) => b
        | _ => true
      let maxReadBytes := match fsObj.bind (fun f => jget f "maxReadBytes") with
        | some (.num n) => if 1 ≤ n then some n else none
        | _ => none
      let maxWriteBytes := match fsObj.bind (fun f => jget f "maxWriteBytes") with
        | some (.num n) => if 1 ≤ n then some n else none
        | _ => none
      let mcpEnabled := match mcpObj.bind (fun f => jget f "enabled") with
        | some (.bool b) => b
        | _ => false
      let allowedServers := match mcpObj.bind (fun f => jget f "allowedServers") with
        | some (.arr xs) =>
            xs.filterMap (fun v => match v with
              | .str s => if jsTrim s ≠ "" then some s else none
              | _ => none)
        | _ => []
      { fs := { enabled := fsEnabled, maxReadBytes? := maxReadBytes, maxWriteBytes? := maxWriteBytes }
        mcp := { enabled := mcpEnabled, allowedServers := allowedServers } }
  | _ => defaultToolPolicy

/-- Splits a string at newline characters (String.prototype.split with
separator newline). -/
def splitNl (s : String) : List String :=
  (s.data.splitOn '\n').map (fun cs => (⟨cs⟩ : String))

/-- Legacy-shape agent record built from a name/role pair. -/
def legacyAgentFor (name role id : String) : AgentOut :=
  { id := id
    metadata := { name := name, title := name, icon := "🧩" }
    persona :=
      { role := if role ≠ "" then role else "Agent"
        identity := if role ≠ "" then role else "TBD"
        communication_style := "direct"
        principles := ["TBD"] }
    tools := defaultToolPolicy }

/-- One iteration of the legacy-array branch: state is (agents, seen). -/
def legacyStep (now : Nat) (st : List AgentOut × List String) (item : JVal) :
    List AgentOut × List String :=
  match item with
  | .obj fields =>
      let name := normalizeString (jget fields "name")
      if name = "" then st
      else
        let role := normalizeString (jget fields "role")
        let id := uniqueAgentId now name st.2
        (st.1 ++ [legacyAgentFor name role id], sadd st.2 id)
  | _ => st

/-- The whole legacy-array branch of buildAgentsManifestV11. -/
def legacyAgents (now : Nat) (items : List JVal) : List AgentOut × List String :=
  items.foldl (legacyStep now) ([], [])

/-- Test for the schemaVersion regex 1.1(\.digits)? anchored. -/
def schemaVersionOk (s : String) : Bool :=
  match s.data with
  | '1' :: '.' :: '1' :: rest =>
      match rest with
      | [] => true
      | '.' :: ds => !ds.isEmpty && ds.all Char.isDigit
      | _ => false
  | _ => false

/-- Accumulator of the v1.1-manifest branch. -/
structure AgentsAcc where
  agents : List AgentOut := []
  seen : List String := []
  warnings : List String := []
  errors : List String := []

/-- One iteration of the v1.1-manifest branch over agents[index]. -/
def v11AgentStep (acc : AgentsAcc) (p : Nat × JVal) : AgentsAcc :=
  let index := p.1
  match p.2 with
  | .obj agentFields =>
      let id := normalizeString (jget agentFields "id")
      if id = "" then
        { acc with errors := acc.errors ++ ["agents[" ++ natToDec index ++ "].id 不能为空"] }
      else if !(isValidAgentId id) then
        { acc with errors := acc.errors ++ ["agents[" ++ natToDec index ++ "].id 不合法：" ++ id] }
      else if acc.seen.contains id then
        { acc with errors := acc.errors ++ ["存在重复 agentId：" ++ id] }
      else
        let metadataObj := match jget agentFields "metadata" with
          | some (.obj mf) => mf
          | _ => []
        let name :=
          let a := normalizeString (jget metadataObj "name")
          if a ≠ "" then a else
            let b := normalizeString (jget metadataObj "title")
            if b ≠ "" then b else id
        let title :=
          let a := normalizeString (jget metadataObj "title")
          if a ≠ "" then a else
            let b := normalizeString (jget metadataObj "name")
            if b ≠ "" then b else name
        let icon :=
          let a := normalizeString (jget metadataObj "icon")
          if a ≠ "" then a else "🧩"
        if name = "" then
          { acc with errors := acc.errors ++ ["agents[" ++ natToDec index ++ "].metadata.name 不能为空"] }
        else if title = "" then
          { acc with errors := acc.errors ++ ["agents[" ++ natToDec index ++ "].metadata.title 不能为空"] }
        else
          let personaObj := match jget agentFields "persona" with
            | some (.obj pf) => pf
            | _ => []
          let role :=
            let a := normalizeString (jget personaObj "role")
            if a ≠ "" then a else "Agent"
          let identity :=
            let a := normalizeString (jget personaObj "identity")
            if a ≠ "" then a else if role ≠ "" then role else "TBD"
          let communication_style :=
            let a := normalizeString (jget personaObj "communication_style")
            if a ≠ "" then a else "direct"
          let principles := match jget personaObj "principles" with
            | some (.arr xs) => normalizeStringArray (some (.arr xs))
            | some (.str s) => ((splitNl s).map jsTrim).filter (fun p => p ≠ "")
            | _ => []
          let critical_actions := match jget agentFields "critical_actions" with
            | some (.arr xs) => normalizeStringArray (some (.arr xs))
            | _ => []
          let prompts := match jget agentFields "prompts" with
            | some (.arr xs) =>
                xs.flatMap (fun pv => match pv with
                  | .obj pf =>
                      let pid := normalizeString (jget pf "id")
                      let content := normalizeString (jget pf "content")
                      if pid = "" || content = "" then []
                      else
                        let description := normalizeString (jget pf "description")
                        [{ id := pid, content := content
                           description? := if description ≠ "" then some description else none : PromptOut }]
                  | _ => [])
            | _ => []
          let menuRaw := match jget agentFields "menu" with
            | some (.arr xs) => some xs
            | _ => none
          let menu := match menuRaw with
            | some xs => xs.filter (fun item => match item with
                | .obj itemFields => normalizeString (jget itemFields "description") ≠ ""
                | _ => false)
            | none => []
          let menuWarnings := match menuRaw with
            | some xs =>
                if menu.length ≠ xs.length then
                  ["检测到无效 menu items（已过滤）：agentId=" ++ id]
                else []
            | none => []
          let ckRaw := match jget agentFields "conversational_knowledge" with
            | some (.arr xs) => some xs
            | _ => none
          let conversational_knowledge := match ckRaw with
            | some xs => xs.filter (fun item => match item with
                | .obj _ => true
                | _ => false)
            | none => []
          let ckWarnings := match ckRaw with
            | some xs =>
                if conversational_knowledge.length ≠ xs.length then
                  ["检测到无效 conversational_knowledge items（已过滤）：agentId=" ++ id]
                else []
            | none => []
          let normalizedAgent : AgentOut :=
            { id := id
              metadata :=
                { name := name
                  title := title
                  icon := icon
                  module? :=
                    let v := normalizeString (jget metadataObj "module")
                    if v ≠ "" then some v else none
                  description? :=
                    let v := normalizeString (jget metadataObj "description")
                    if v ≠ "" then some v else none
                  sourceId? :=
                    let v := normalizeString (jget metadataObj "sourceId")
                    if v ≠ "" then some v else none }
              persona :=
                { role := role
                  identity := identity
                  communication_style := communication_style
                  principles := if principles ≠ [] then principles else ["TBD"] }
              tools := normalizeTools (jget agentFields "tools")
              critical_actions := if critical_actions ≠ [] then some critical_actions else none
              prompts := if prompts.isEmpty then none else some prompts
              menu := if menu.isEmpty then none else some menu
              systemPrompt := match jget agentFields "systemPrompt" with
                | some (.str s) => some s
                | _ => none
              userPromptTemplate := match jget agentFields "userPromptTemplate" with
                | some (.str s) => some s
                | _ => none
              discussion := match jget agentFields "discussion" with
                | some (.bool b) => some b
                | _ => none
              webskip := match jget agentFields "webskip" with
                | some (.bool b) => some b
                | _ => none
              conversational_knowledge :=
                if conversational_knowledge.isEmpty then none else some conversational_knowledge }
          { acc with
              agents := acc.agents ++ [normalizedAgent]
              seen := sadd acc.seen id
              warnings := acc.warnings ++ menuWarnings ++ ckWarnings }
  | _ =>
      { acc with errors := acc.errors ++ ["agents[" ++ natToDec index ++ "] 不是有效对象"] }

/-- buildAgentsManifestV11 from the source.  JSON.parse is the jparse
oracle (none = exception); the Ajv schema validator (whose schema file is
synced from a sibling repository) is the ajv oracle returning ok together
with the formatted error list; Date.now() is the now parameter. -/
def buildAgentsManifestV11 (ajv : AgentsManifestOut → Bool × List String)
    (jparse : String → Option JVal) (now : Nat) (agentsJsonRaw : String) : AgentsResult :=
  let trimmed := jsTrim agentsJsonRaw
  if trimmed = "" then
    { manifest := none, warnings := [], errors := ["请先创建至少 1 个 Agent"] }
  else
    match jparse trimmed with
    | none =>
        { manifest := none, warnings := [], errors := ["agentsJson 格式不合法：无法解析 JSON"] }
    | some parsed =>
        let acc : AgentsAcc :=
          match parsed with
          | .arr items =>
              let r := legacyAgents now items
              { agents := r.1, seen := r.2, warnings := [], errors := [] }
          | .obj objFields =>
              let rawSchemaVersion := normalizeString (jget objFields "schemaVersion")
              let svWarnings :=
                if rawSchemaVersion ≠ "" && !(schemaVersionOk rawSchemaVersion) then
                  ["schemaVersion 不合法（已回退为 \"1.1\"）：" ++ rawSchemaVersion]
                else if rawSchemaVersion ≠ "" && rawSchemaVersion ≠ "1.1" then
                  ["schemaVersion != \"1.1\"（已规范化输出为 \"1.1\"）：" ++ rawSchemaVersion]
                else []
              let rawAgents := match jget objFields "agents" with
                | some (.arr xs) => xs
                | _ => []
              rawAgents.enum.foldl v11AgentStep
                { agents := [], seen := [], warnings := svWarnings, errors := [] }
          | _ =>
              { agents := [], seen := [], warnings := []
                errors := ["agentsJson 结构不合法：需要对象或数组"] }
        let errors :=
          if acc.agents.isEmpty then acc.errors ++ ["请先创建至少 1 个 Agent"] else acc.errors
        if errors ≠ [] then { manifest := none, warnings := acc.warnings, errors := errors }
        else
          let manifest : AgentsManifestOut := { schemaVersion := "1.1", agents := acc.agents }
          let validation := ajv manifest
          if !validation.1 then
            { manifest := none, warnings := acc.warnings, errors := validation.2 }
          else
            { manifest := some manifest, warnings := acc.warnings, errors := errors }

/-! ## Embedding of src/lib/bmad-manifest-v11.ts -/

/-- WorkflowListItemForManifest (the id is a JS number, modelled Int). -/
structure WorkflowItem where
  id : Int
  name : String
  isDefault : Option Bool := none
deriving DecidableEq, Repr

/-- Manifest entry block. -/
structure ManifestEntry where
  workflow : String
  graph : String
  agents : String
  assetsDir : Option String := none
deriving DecidableEq, Repr

/-- Manifest workflow index record. -/
structure ManifestWorkflow where
  id : String
  displayName : String
  workflow : String
  graph : String
  tags : List String
deriving DecidableEq, Repr

/-- BmadManifestV11. -/
structure BmadManifest where
  schemaVersion : String
  name : String
  version : String
  createdAt : String
  entry : ManifestEntry
  workflows : List ManifestWorkflow
deriving DecidableEq, Repr

/-- BmadManifestBuildResult. -/
structure ManifestResult where
  manifest : Option BmadManifest
  warnings : List String
  errors : List String
deriving DecidableEq, Repr

/-- buildWorkflowPaths from the source. -/
def buildWorkflowPaths (id : String) : String × String :=
  ("workflows/" ++ id ++ "/workflow.md", "workflows/" ++ id ++ "/workflow.graph.json")

/-- The byId Map construction: first occurrence kept, duplicates produce an
error and are skipped. -/
def dedupWorkflows (ws : List WorkflowItem) : List WorkflowItem × List String :=
  ws.foldl
    (fun acc w =>
      if (acc.1.map (fun x => x.id)).contains w.id then
        (acc.1, acc.2 ++ ["存在重复 workflowId：" ++ intToDec w.id])
      else (acc.1 ++ [w], acc.2))
    ([], [])

/-- Numeric ascending comparison used by the (a, b) => a.id - b.id sorts. -/
def wfLe (a b : WorkflowItem) : Bool := a.id ≤ b.id

/-- buildBmadManifestV11 from the source. -/
def buildBmadManifestV11 (projectName : String) (workflows : List WorkflowItem)
    (createdAt : String) (version? : Option String) : ManifestResult :=
  let rawName := jsTrim projectName
  let name := if rawName ≠ "" then rawName else "Untitled"
  let nameWarnings := if rawName = "" then ["project.name 为空：已回退为 \"Untitled\""] else []
  if workflows.isEmpty then
    { manifest := none, warnings := nameWarnings
      errors := ["workflows 为空：无法生成 bmad.json（至少需要 1 个 workflow）"] }
  else
    let dd := dedupWorkflows workflows
    let dupErrors := dd.2
    let ordered := sortByLe wfLe dd.1
    if ordered.isEmpty then
      { manifest := none, warnings := nameWarnings
        errors := ["workflows 无有效条目：无法生成 bmad.json"] }
    else
      let normalizedIds := ordered.map (fun w => jsTrim (intToDec w.id))
      let invalidIds := normalizedIds.filter (fun id => id = "" || !idPatternTest id)
      let invalidErrors :=
        if invalidIds ≠ [] then ["存在不合法的 workflowId：" ++ joinSep ", " invalidIds] else []
      let createdAtT := jsTrim createdAt
      let createdAtErrors := if createdAtT = "" then ["createdAt 为空：无法生成 bmad.json"] else []
      let version := jsTrim (version?.getD "0.1.0")
      let versionErrors := if version = "" then ["version 为空：无法生成 bmad.json"] else []
      let errors := dupErrors ++ invalidErrors ++ createdAtErrors ++ versionErrors
      if errors ≠ [] then { manifest := none, warnings := nameWarnings, errors := errors }
      else
        let defaults := sortByLe wfLe (ordered.filter (fun w => w.isDefault = some true))
        let multiWarnings :=
          if defaults.length > 1 then
            ["检测到多个 default workflow（已选择最小 id）：" ++
              joinSep ", " (defaults.map (fun d => intToDec d.id))]
          else []
        let r : WorkflowItem × List String := match defaults.head? with
          | some w => (w, [])
          | none =>
              match ordered.head? with
              | some w => (w, ["未设置默认 workflow：已选择 workflowId=" ++ intToDec w.id ++ " 作为入口"])
              | none => ({ id := 0, name := "" }, ["未设置默认 workflow：已选择 workflowId=unknown 作为入口"])
        let entryWorkflow := r.1
        let fallbackWarnings := r.2
        let entryId := jsTrim (intToDec entryWorkflow.id)
        let entryPaths := buildWorkflowPaths entryId
        let workflowsIndex := ordered.map (fun wf =>
          let id := jsTrim (intToDec wf.id)
          let paths := buildWorkflowPaths id
          { id := id
            displayName := wf.name
            workflow := paths.1
            graph := paths.2
            tags := [] : ManifestWorkflow })
        { manifest := some
            { schemaVersion := "1.1"
              name := name
              version := version
              createdAt := createdAtT
              entry :=
                { workflow := entryPaths.1
                  graph := entryPaths.2
                  agents := "agents.json"
                  assetsDir := some "assets/" }
              workflows := workflowsIndex }
          warnings := nameWarnings ++ multiWarnings ++ fallbackWarnings
          errors := errors }

/-! ## Embedding of the frontmatter codec (parseYamlToObject) -/

/-- FrontmatterParseResult. -/
structure FMParseResult where
  data : Option (List (String × JVal))
  error : Option String

/-- parseYamlToObject from the source.  YAML.parse is the yparse oracle:
ok carries the parsed YAML document as a JVal, error carries the thrown
message (err.message, or the fixed fallback text when the thrown value is
not an Error, a distinction the oracle absorbs). -/
def parseYamlToObject (yparse : String → Except String JVal) (yamlText : String) : FMParseResult :=
  let trimmed := jsTrim yamlText
  if trimmed = "" then { data := some [], error := none }
  else
    match yparse trimmed with
    | .error message =>
        { data := none, error := some ("frontmatter YAML 解析失败：" ++ message) }
    | .ok parsed =>
        if !(jsTruthy parsed) then { data := some [], error := none }
        else
          match parsed with
          | .obj fields => { data := some fields, error := none }
          | _ => { data := none, error := some "frontmatter 必须是 YAML object（key/value map）" }

/-! ## Embedding of the export assembler (buildBmadExportFilesV11) -/

/-- Content of one bundle file: string or Uint8Array. -/
inductive FileContent where
  | text (s : String)
  | bytes (bs : List Nat)
deriving DecidableEq, Repr

/-- WorkflowDetailForExportV11. -/
structure WorkflowDetail where
  id : Int
  name : String
  workflowMd : String
  graphJson : String
  stepFilesJson : String
deriving DecidableEq, Repr

/-- BmadExportFilesV11BuildResult; filesByPath is a JS object modelled as
an insertion-ordered association list with last-write-wins values. -/
structure ExportFilesResult where
  filename : String
  filesByPath : Option (List (String × FileContent))
  errors : List String
  warnings : List String
deriving DecidableEq, Repr

/-- Object key update: value overwritten in place, first-insertion key
order kept, new keys appended. -/
def upsert (m : List (String × α)) (k : String) (v : α) : List (String × α) :=
  if (m.map Prod.fst).contains k then
    m.map (fun p => if p.1 = k then (k, v) else p)
  else m ++ [(k, v)]

/-- Association list lookup (first binding; keys are unique by
construction through upsert). -/
def lookupStr (m : List (String × α)) (k : String) : Option α :=
  (m.find? (fun p => p.1 = k)).map (·.2)

/-- Object.entries iteration order over possibly-duplicated parsed fields:
first-occurrence key order, last value wins.  Real JSON.parse already
produces unique keys, so this is the identity on oracle outputs. -/
def objEntries (fields : List (String × JVal)) : List (String × JVal) :=
  fields.foldl (fun acc p => upsert acc p.1 p.2) []

/-- Bool test that a string starts with the given prefix. -/
def startsWithS (s pre : String) : Bool :=
  pre.data.isPrefixOf s.data

/-- Strips one leading dot-slashes group (the anchored dot slash-run
replacement of normalizeZipPath). -/
def stripDotSlash : List Char → List Char
  | '.' :: '/' :: rest => rest.dropWhile (fun c => c = '/')
  | cs => cs

/-- normalizeZipPath from the source. -/
def normalizeZipPath (input : String) : String :=
  ⟨stripDotSlash ((jsTrim input).data.map (fun c => if c = '\\' then '/' else c))⟩

/-- isSafeZipPath from the source. -/
def isSafeZipPath (path : String) : Bool :=
  if path = "" then false
  else if path.data.head? = some '/' then false
  else if path.data.contains (Char.ofNat 0) then false
  else !((path.data.splitOn '/').any (fun part =>
    part = ['.', '.'] || part = ['.'] || part.isEmpty))

/-- Character class of the filename sanitizer. -/
def isFnBad (c : Char) : Bool :=
  c = '\\' || c = '/' || c = ':' || c = '*' || c = '?' || c = '"' || c = '<' || c = '>' || c = '|'

/-- sanitizeFilename from the source. -/
def sanitizeFilename (input : String) : String :=
  let raw := if jsTrim input ≠ "" then (jsTrim input).data else "Untitled".data
  let s1 := replaceRuns isFnBad '-' raw
  let s2 := replaceRuns jsWs ' ' s1
  let s3 := trimChars s2
  let s4 := (s3.reverse.dropWhile (fun c => c = '.')).reverse
  let base := if s4.isEmpty then "Untitled".data else s4
  if base.length > 120 then ⟨trimChars (base.take 120)⟩ else ⟨base⟩

/-- parseJsonObject from the assembler: returns the parsed object fields
or none, together with the errors it pushes. -/
def parseJsonObject (jparse : String → Option JVal) (raw label : String) :
    Option (List (String × JVal)) × List String :=
  let trimmed := jsTrim raw
  if trimmed = "" then (none, [label ++ " 为空"])
  else
    match jparse trimmed with
    | none => (none, [label ++ " 解析失败（非法 JSON）"])
    | some v =>
        match v with
        | .obj fields => (some fields, [])
        | _ => (none, [label ++ " 格式不正确（应为对象）"])

/-- parseStepFilesJson from the assembler. -/
def parseStepFilesJson (jparse : String → Option JVal) (raw workflowLabel : String) :
    Option (List (String × String)) × List String :=
  match parseJsonObject jparse raw (workflowLabel ++ ".stepFilesJson") with
  | (none, errs) => (none, errs)
  | (some fields, errs) =>
      let r := (objEntries fields).foldl
        (fun (acc : List (String × String) × List String) p =>
          match p.2 with
          | .str v => (upsert acc.1 p.1 v, acc.2)
          | _ => (acc.1, acc.2 ++ [workflowLabel ++ ".stepFilesJson 中存在非字符串内容：" ++ p.1]))
        ([], [])
      (some r.1, errs ++ r.2)

/-- Decode of the unchecked BuilderGraphNode cast: fields are read at the
types the TypeScript declaration gives them (string-typed fields that are
not strings behave as absent). -/
def decodeNode (v : JVal) : WGNode :=
  match v with
  | .obj f =>
      let dataFields := match jget f "data" with | some (.obj df) => df | _ => []
      { id := match jget f "id" with | some (.str s) => s | _ => ""
        type? := jget f "type"
        title? := jget dataFields "title"
        agentId? := jget dataFields "agentId"
        inputs? := jget dataFields "inputs"
        outputs? := jget dataFields "outputs" }
  | _ => { id := "" }

/-- Decode of the unchecked BuilderGraphEdge cast. -/
def decodeEdge (v : JVal) : WGEdge :=
  match v with
  | .obj f =>
      let dataFields := match jget f "data" with | some (.obj df) => df | _ => []
      { id? := match jget f "id" with | some (.str s) => some s | _ => none
        source := match jget f "source" with | some (.str s) => s | _ => ""
        target := match jget f "target" with | some (.str s) => s | _ => ""
        label? := jget f "label"
        isDefault? := jget dataFields "isDefault"
        conditionText? := jget dataFields "conditionText" }
  | _ => {}

/-- parseBuilderGraphJson from the assembler. -/
def parseBuilderGraphJson (jparse : String → Option JVal) (raw workflowLabel : String) :
    Option (List WGNode × List WGEdge) × List String :=
  match parseJsonObject jparse raw (workflowLabel ++ ".graphJson") with
  | (none, errs) => (none, errs)
  | (some fields, errs) =>
      let nodes := match jget fields "nodes" with | some (.arr xs) => xs.map decodeNode | _ => []
      let edges := match jget fields "edges" with | some (.arr xs) => xs.map decodeEdge | _ => []
      if nodes.isEmpty then (none, errs ++ [workflowLabel ++ ".graphJson.nodes 为空"])
      else (some (nodes, edges), errs)

/-- extractEntryPaths from the assembler. -/
def extractEntryPaths (bmadFields : List (String × JVal)) :
    Option (String × String × String) × List String :=
  match jget bmadFields "entry" with
  | some (.obj entryFields) =>
      let workflow := match jget entryFields "workflow" with | some (.str s) => jsTrim s | _ => ""
      let graph := match jget entryFields "graph" with | some (.str s) => jsTrim s | _ => ""
      let agents := match jget entryFields "agents" with | some (.str s) => jsTrim s | _ => ""
      if workflow = "" || graph = "" || agents = "" then
        (none, ["bmad.json.entry.workflow/graph/agents 缺失"])
      else (some (workflow, graph, agents), [])
  | _ => (none, ["bmad.json.entry 缺失或不合法"])

/-- The collected agent-id Set of the assembler: raw (untrimmed) string
ids from agents.json whose trim is non-empty, in first-occurrence order. -/
def collectAgentIds (agentsFields : List (String × JVal)) : List String :=
  match jget agentsFields "agents" with
  | some (.arr agents) =>
      agents.foldl
        (fun acc a =>
          match a with
          | .obj af =>
              match jget af "id" with
              | some (.str id) => if jsTrim id ≠ "" then sadd acc id else acc
              | _ => acc
          | _ => acc)
        []
  | _ => []

/-- Mutable state of the per-workflow loop of the assembler. -/
structure WfAcc where
  files : List (String × FileContent)
  filePaths : List String
  errors : List String
  warnings : List String
deriving DecidableEq, Repr

/-- One iteration of the per-workflow loop of buildBmadExportFilesV11;
continue statements are modelled by returning the accumulator with the
errors pushed so far. -/
def processWorkflow (jparse : String → Option JVal) (stringifyGraph : GraphOut → String)
    (agentIds : List String) (acc : WfAcc) (wf : WorkflowDetail) : WfAcc :=
  let workflowId := jsTrim (intToDec wf.id)
  let workflowLabel :=
    "workflow(" ++ (if wf.name ≠ "" then wf.name else workflowId) ++ ",ID:" ++ intToDec wf.id ++ ")"
  if workflowId = "" || !idPatternTest workflowId then
    { acc with errors := acc.errors ++ [workflowLabel ++ " 的 workflowId 不合法：" ++ workflowId] }
  else
    let workflowMd := jsTrim wf.workflowMd
    if workflowMd = "" then
      { acc with errors := acc.errors ++
          [workflowLabel ++ " 缺少 workflowMd：请在 Editor 保存以生成 v1.1 workflow.md"] }
    else
      let workflowMdPath := "workflows/" ++ workflowId ++ "/workflow.md"
      let acc :=
        { acc with
            files := upsert acc.files workflowMdPath (.text wf.workflowMd)
            filePaths := sadd acc.filePaths workflowMdPath }
      let sf := parseStepFilesJson jparse wf.stepFilesJson workflowLabel
      let gp := parseBuilderGraphJson jparse wf.graphJson workflowLabel
      let acc := { acc with errors := acc.errors ++ sf.2 ++ gp.2 }
      match sf.1, gp.1 with
      | some stepFiles, some graphPayload =>
          let sn := stepFiles.foldl
            (fun (st : List (String × String) × List String) p =>
              let key := normalizeZipPath p.1
              if !(startsWithS key "steps/") then
                (st.1, st.2 ++ [workflowLabel ++ " 的 stepFilesJson key 不合法（必须以 steps/ 开头）：" ++ key])
              else if !(isSafeZipPath key) then
                (st.1, st.2 ++ [workflowLabel ++ " 的 stepFilesJson key 不合法：" ++ key])
              else if jsTrim p.2 = "" then
                (st.1, st.2 ++ [workflowLabel ++ " 的 step 文件内容为空：" ++ key])
              else (upsert st.1 key p.2, st.2))
            ([], [])
          let stepFilesNormalized := sn.1
          let acc := { acc with errors := acc.errors ++ sn.2 }
          let sp := stepFilesNormalized.foldl
            (fun (st : WfAcc × List String) p =>
              let fullPath := "workflows/" ++ workflowId ++ "/" ++ p.1
              ({ st.1 with
                   files := upsert st.1.files fullPath (.text p.2)
                   filePaths := sadd st.1.filePaths fullPath },
               sadd st.2 fullPath))
            (acc, [])
          let acc := sp.1
          let stepFullPaths := sp.2
          let graphBuild := buildWorkflowGraphV11 graphPayload.1 graphPayload.2
          match graphBuild.graph with
          | none =>
              { acc with errors := acc.errors ++
                  [workflowLabel ++ " 无法生成 workflow.graph.json：" ++ joinSep "；" graphBuild.errors] }
          | some g =>
              let acc := { acc with warnings :=
                acc.warnings ++ graphBuild.warnings.map (fun w => workflowLabel ++ ": " ++ w) }
              let nr := g.nodes.foldl
                (fun (st : List OutNode × List String) node =>
                  let file := normalizeZipPath node.file
                  let fileErrors :=
                    if !(startsWithS file "steps/") then
                      [workflowLabel ++ " node.file 不合法（必须以 steps/ 开头）：" ++ node.id ++ ":" ++ file]
                    else if !(isSafeZipPath file) then
                      [workflowLabel ++ " node.file 不合法：" ++ node.id ++ ":" ++ file]
                    else if (lookupStr stepFilesNormalized file).getD "" = "" then
                      [workflowLabel ++ " 缺少 step 文件：" ++ file ++ "（nodeId=" ++ node.id ++ "）"]
                    else if !(stepFullPaths.contains ("workflows/" ++ workflowId ++ "/" ++ file)) then
                      [workflowLabel ++ " ZIP 中缺少 step 文件：workflows/" ++ workflowId ++ "/" ++ file]
                    else []
                  let agentId := jsTrim (node.agentId.getD "")
                  let agentErrors :=
                    if agentId ≠ "" && !(agentIds.contains agentId) then
                      [workflowLabel ++ " 引用了不存在的 agentId：" ++ agentId ++ "（nodeId=" ++ node.id ++ "）"]
                    else []
                  (st.1 ++ [{ node with file := "workflows/" ++ workflowId ++ "/" ++ file }],
                   st.2 ++ fileErrors ++ agentErrors))
                ([], [])
              let acc := { acc with errors := acc.errors ++ nr.2 }
              let exportedGraph : GraphOut := { g with nodes := nr.1 }
              let graphPath := "workflows/" ++ workflowId ++ "/workflow.graph.json"
              { acc with
                  files := upsert acc.files graphPath (.text (stringifyGraph exportedGraph))
                  filePaths := sadd acc.filePaths graphPath }
      | _, _ => acc

/-- buildBmadExportFilesV11 from the source.  JSON.parse is the jparse
oracle; JSON.stringify of the exported graph document is the
stringifyGraph oracle. -/
def buildBmadExportFilesV11 (jparse : String → Option JVal)
    (stringifyGraph : GraphOut → String)
    (projectName bmadJson agentsJson : String)
    (workflows : List WorkflowDetail)
    (assets : Option (List (String × FileContent))) : ExportFilesResult :=
  let projectNameT := jsTrim projectName
  let filename := sanitizeFilename projectNameT ++ ".bmad"
  let bmadR := parseJsonObject jparse bmadJson "bmad.json"
  let agentsR := parseJsonObject jparse agentsJson "agents.json"
  let errors0 := bmadR.2 ++ agentsR.2
  match bmadR.1, agentsR.1 with
  | some bmadFields, some agentsFields =>
      let ep := extractEntryPaths bmadFields
      (match ep.1 with
      | none =>
          { filename := filename, filesByPath := none, errors := errors0 ++ ep.2, warnings := [] }
      | some entryPaths =>
          let agentIds := collectAgentIds agentsFields
          if workflows.isEmpty then
            { filename := filename, filesByPath := none
              errors := ["没有可导出的 workflow（workflows 为空）"], warnings := [] }
          else
            let acc0 : WfAcc :=
              { files := [("bmad.json", .text bmadJson), ("agents.json", .text agentsJson)]
                filePaths := ["bmad.json", "agents.json"]
                errors := errors0 ++ ep.2
                warnings := [] }
            let acc1 := match assets with
              | none => acc0
              | some assetList =>
                  assetList.foldl
                    (fun acc p =>
                      let normalized := normalizeZipPath p.1
                      if !(startsWithS normalized "assets/") then
                        { acc with warnings := acc.warnings ++ ["跳过非 assets/ 路径：" ++ normalized] }
                      else if !(isSafeZipPath normalized) then
                        { acc with errors := acc.errors ++ ["assets 路径不合法：" ++ normalized] }
                      else
                        { acc with
                            files := upsert acc.files normalized p.2
                            filePaths := sadd acc.filePaths normalized })
                    acc0
            let acc2 := workflows.foldl (processWorkflow jparse stringifyGraph agentIds) acc1
            if acc2.errors ≠ [] then
              { filename := filename, filesByPath := none
                errors := acc2.errors, warnings := acc2.warnings }
            else
              let expected := [entryPaths.1, entryPaths.2.1, entryPaths.2.2].map normalizeZipPath
              let finalErrors := acc2.errors ++
                (expected.filter (fun p => !(acc2.filePaths.contains p))).map
                  (fun p => "ZIP 缺少 bmad.json.entry 指向的文件：" ++ p)
              if finalErrors ≠ [] then
                { filename := filename, filesByPath := none
                  errors := finalErrors, warnings := acc2.warnings }
              else
                { filename := filename, filesByPath := some acc2.files
                  errors := finalErrors, warnings := acc2.warnings })
  | _, _ =>
      { filename := filename, filesByPath := none, errors := errors0, warnings := [] }

/-- The workflowLabel of the per-workflow loop. -/
def wfLabel (wf : WorkflowDetail) : String :=
  "workflow(" ++ (if wf.name ≠ "" then wf.name else jsTrim (intToDec wf.id)) ++
    ",ID:" ++ intToDec wf.id ++ ")"

/-- The step-file normalization fold of the per-workflow loop. -/
def snFoldOf (wl : String) (stepFiles : List (String × String)) :
    List (String × String) × List String :=
  stepFiles.foldl
    (fun (st : List (String × String) × List String) p =>
      let key := normalizeZipPath p.1
      if !(startsWithS key "steps/") then
        (st.1, st.2 ++ [wl ++ " 的 stepFilesJson key 不合法（必须以 steps/ 开头）：" ++ key])
      else if !(isSafeZipPath key) then
        (st.1, st.2 ++ [wl ++ " 的 stepFilesJson key 不合法：" ++ key])
      else if jsTrim p.2 = "" then
        (st.1, st.2 ++ [wl ++ " 的 step 文件内容为空：" ++ key])
      else (upsert st.1 key p.2, st.2))
    ([], [])

/-- The step-file writing fold of the per-workflow loop. -/
def spFoldOf (wid : String) (sfn : List (String × String)) (acc : WfAcc) :
    WfAcc × List String :=
  sfn.foldl
    (fun (st : WfAcc × List String) p =>
      let fullPath := "workflows/" ++ wid ++ "/" ++ p.1
      ({ st.1 with
           files := upsert st.1.files fullPath (.text p.2)
           filePaths := sadd st.1.filePaths fullPath },
       sadd st.2 fullPath))
    (acc, [])

/-- The node-check fold of the per-workflow loop. -/
def nrFoldOf (wl wid : String) (sfn : List (String × String)) (sfp agentIds : List String)
    (ns : List OutNode) : List OutNode × List String :=
  ns.foldl
    (fun (st : List OutNode × List String) node =>
      let file := normalizeZipPath node.file
      let fileErrors :=
        if !(startsWithS file "steps/") then
          [wl ++ " node.file 不合法（必须以 steps/ 开头）：" ++ node.id ++ ":" ++ file]
        else if !(isSafeZipPath file) then
          [wl ++ " node.file 不合法：" ++ node.id ++ ":" ++ file]
        else if (lookupStr sfn file).getD "" = "" then
          [wl ++ " 缺少 step 文件：" ++ file ++ "（nodeId=" ++ node.id ++ "）"]
        else if !(sfp.contains ("workflows/" ++ wid ++ "/" ++ file)) then
          [wl ++ " ZIP 中缺少 step 文件：workflows/" ++ wid ++ "/" ++ file]
        else []
      let agentId := jsTrim (node.agentId.getD "")
      let agentErrors :=
        if agentId ≠ "" && !(agentIds.contains agentId) then
          [wl ++ " 引用了不存在的 agentId：" ++ agentId ++ "（nodeId=" ++ node.id ++ "）"]
        else []
      (st.1 ++ [{ node with file := "workflows/" ++ wid ++ "/" ++ file }],
       st.2 ++ fileErrors ++ agentErrors))
    ([], [])

/-- The continuation of the per-workflow loop after both JSON payloads
parsed. -/
def pwCore (stringifyGraph : GraphOut → String)
    (agentIds : List String) (acc : WfAcc) (wf : WorkflowDetail)
    (stepFiles : List (String × String)) (gnodes : List WGNode) (gedges : List WGEdge) :
    WfAcc :=
  let workflowId := jsTrim (intToDec wf.id)
  let workflowLabel := wfLabel wf
  let sn := snFoldOf workflowLabel stepFiles
  let acc1 := { acc with errors := acc.errors ++ sn.2 }
  let sp := spFoldOf workflowId sn.1 acc1
  let graphBuild := buildWorkflowGraphV11 gnodes gedges
  match graphBuild.graph with
  | none =>
      { sp.1 with errors := sp.1.errors ++
          [workflowLabel ++ " 无法生成 workflow.graph.json：" ++ joinSep "；" graphBuild.errors] }
  | some g =>
      let acc2 := { sp.1 with warnings :=
        sp.1.warnings ++ graphBuild.warnings.map (fun w => workflowLabel ++ ": " ++ w) }
      let nr := nrFoldOf workflowLabel workflowId sn.1 sp.2 agentIds g.nodes
      let acc3 := { acc2 with errors := acc2.errors ++ nr.2 }
      let graphPath := "workflows/" ++ workflowId ++ "/workflow.graph.json"
      { acc3 with
          files := upsert acc3.files graphPath
            (.text (stringifyGraph { g with nodes := nr.1 }))
          filePaths := sadd acc3.filePaths graphPath }

/-- processWorkflow re-stated through the named stage functions; equal to
processWorkflow by definitional unfolding (processWorkflow_eq). -/
def processWorkflowStaged (jparse : String → Option JVal)
    (stringifyGraph : GraphOut → String) (agentIds : List String)
    (acc : WfAcc) (wf : WorkflowDetail) : WfAcc :=
  let workflowId := jsTrim (intToDec wf.id)
  let workflowLabel := wfLabel wf
  if workflowId = "" || !idPatternTest workflowId then
    { acc with errors := acc.errors ++ [workflowLabel ++ " 的 workflowId 不合法：" ++ workflowId] }
  else if jsTrim wf.workflowMd = "" then
    { acc with errors := acc.errors ++
        [workflowLabel ++ " 缺少 workflowMd：请在 Editor 保存以生成 v1.1 workflow.md"] }
  else
    let workflowMdPath := "workflows/" ++ workflowId ++ "/workflow.md"
    let acc0 :=
      { acc with
          files := upsert acc.files workflowMdPath (.text wf.workflowMd)
          filePaths := sadd acc.filePaths workflowMdPath }
    let sf := parseStepFilesJson jparse wf.stepFilesJson workflowLabel
    let gp := parseBuilderGraphJson jparse wf.graphJson workflowLabel
    let acc1 := { acc0 with errors := acc0.errors ++ sf.2 ++ gp.2 }
    match sf.1, gp.1 with
    | some stepFiles, some graphPayload =>
        pwCore stringifyGraph agentIds acc1 wf stepFiles graphPayload.1 graphPayload.2
    | _, _ => acc1

def exJparse : String → Option JVal := fun s =>
  if s = "BM" then
    some (.obj [("entry", .obj [("workflow", .str "workflows/1/workflow.md"),
      ("graph", .str "workflows/1/workflow.graph.json"),
      ("agents", .str "agents.json")])])
  else if s = "AG" then some (.obj [("agents", .arr [.obj [("id", .str "a1")]])])
  else if s = "SF" then some (.obj [("steps/n1.md", .str "content")])
  else if s = "GJ" then
    some (.obj [("nodes", .arr [.obj [("id", .str "n1"),
      ("data", .obj [("agentId", .str "ghost")])]]), ("edges", .arr [])])
  else none

def exWfDetail : WorkflowDetail :=
  { id := 1, name := "wf", workflowMd := "md", graphJson := "GJ", stepFilesJson := "SF" }

def exGhostNode : OutNode :=
  { id := "n1", type := "step", file := "steps/n1.md", agentId := some "ghost" }

def exGhostGraph : GraphOut :=
  { schemaVersion := "1.1", entryNodeId := "n1", nodes := [exGhostNode], edges := [] }

/-- Digit-string decoder used to invert the decimal rendering. -/
def decValFrom (a : Nat) (cs : List Char) : Nat :=
  cs.foldl (fun x c => x * 10 + (c.toNat - 48)) a

/-! ## Cycle notions for the topology claims -/

/-- One directed step along the valid edges. -/
def EdgeRelOf (ve : List (WGEdge × Nat)) (a b : String) : Prop :=
  ∃ r ∈ ve, r.1.source = a ∧ r.1.target = b

/-- A directed cycle among the valid edges: a chain from some node back to
itself with at least one edge. -/
def HasCycle (ve : List (WGEdge × Nat)) : Prop :=
  ∃ (v : String) (l : List String), List.Chain (EdgeRelOf ve) v (l ++ [v])

/-- Ghost variant of the Kahn loop recording the visit order instead of
the visit count. -/
def kahnRunG (ve : List (WGEdge × Nat)) : Nat → List String → (String → Int) → List String
  | 0, _, _ => []
  | _ + 1, [], _ => []
  | fuel + 1, id :: rest, next =>
      if id = "" then []
      else
        let st := processOuts (outgoing ve id) rest next
        id :: kahnRunG ve fuel st.1 st.2

/-- Number of valid edges into t whose source lies in V. -/
def countFromIn (ve : List (WGEdge × Nat)) (V : List String) (t : String) : Nat :=
  ve.countP (fun r => decide (r.1.target = t ∧ r.1.source ∈ V))

/-! ## Example inputs used by concrete counterexamples and witnesses -/

/-- Minimal step node a. -/
def exNodeA : WGNode := { id := "a" }

/-- Minimal step node b. -/
def exNodeB : WGNode := { id := "b" }

/-- Decision node d of Scenario C. -/
def exNodeD : WGNode := { id := "d", type? := some (.str "decision") }

/-- Target node x of Scenario C. -/
def exNodeX : WGNode := { id := "x" }

/-- Target node y of Scenario C. -/
def exNodeY : WGNode := { id := "y" }

/-- Unlabeled edge e1 of Scenario C. -/
def exEdgeE1 : WGEdge := { id? := some "e1", source := "d", target := "x" }

/-- Unlabeled edge e2 of Scenario C. -/
def exEdgeE2 : WGEdge := { id? := some "e2", source := "d", target := "y" }

/-- Cyclic edge pair a to b to a (Scenario D). -/
def exCycEdges : List WGEdge :=
  [{ id? := some "e1", source := "a", target := "b" },
   { id? := some "e2", source := "b", target := "a" }]

/-- The graph compiled from nodes [b, a] with no edges. -/
def exGraphBA : GraphOut :=
  { schemaVersion := "1.1"
    entryNodeId := "a"
    nodes := [{ id := "a", type := "step", file := "steps/a.md" },
              { id := "b", type := "step", file := "steps/b.md" }]
    edges := [] }

/-- Single edge a to b with an id and no label (Scenario B). -/
def exEdgeAB : WGEdge := { id? := some "e", source := "a", target := "b" }

/-- Single edge a to b carrying the whitespace-padded label " done ". -/
def exEdgeLab : WGEdge :=
  { id? := some "e", source := "a", target := "b", label? := some (.str " done ") }

/-- The graph compiled from Scenario B (nodes a, b and the single edge). -/
def exGraphAB : GraphOut :=
  { schemaVersion := "1.1"
    entryNodeId := "a"
    nodes := [{ id := "a", type := "step", file := "steps/a.md" },
              { id := "b", type := "step", file := "steps/b.md" }]
    edges := [{ id := some "e", fromId := "a", toId := "b", label := "next" }] }

/-- The graph compiled from Scenario C (decision d with unlabeled edges
e1, e2 and no default flags). -/
def exGraphC : GraphOut :=
  { schemaVersion := "1.1"
    entryNodeId := "d"
    nodes := [{ id := "d", type := "decision", file := "steps/d.md" },
              { id := "x", type := "step", file := "steps/x.md" },
              { id := "y", type := "step", file := "steps/y.md" }]
    edges := [{ id := some "e1", fromId := "d", toId := "x", label := "branch-1", isDefault := some true },
              { id := some "e2", fromId := "d", toId := "y", label := "branch-2" }] }

/-! ## Order lemmas for the localeCompare model -/

theorem charsLt_irrefl : ∀ cs, charsLt cs cs = false
  | [] => rfl
  | c :: cs => by
      simp only [charsLt, lt_irrefl, if_false]
      exact charsLt_irrefl cs

theorem strLe_refl (a : String) : strLe a a = true := by
  simp [strLe, charsLt_irrefl]

theorem charsLt_asymm : ∀ as bs, charsLt as bs = true → charsLt bs as = false
  | [], [], h => by simp [charsLt] at h
  | [], _ :: _, _ => rfl
  | _ :: _, [], h => by simp [charsLt] at h
  | a :: as, b :: bs, h => by
      simp only [charsLt] at h ⊢
      rcases lt_trichotomy a b with hab | hab | hab
      · simp [hab, not_lt_of_gt hab]
      · subst hab
        simp only [lt_irrefl, if_false] at h ⊢
        exact charsLt_asymm as bs h
      · simp [hab, not_lt_of_gt hab] at h

theorem charsLt_eq_of_not : ∀ as bs, charsLt as bs = false → charsLt bs as = false → as = bs
  | [], [], _, _ => rfl
  | [], _ :: _, h, _ => by simp [charsLt] at h
  | _ :: _, [], _, h => by simp [charsLt] at h
  | a :: as, b :: bs, h1, h2 => by
      simp only [charsLt] at h1 h2
      rcases lt_trichotomy a b with hab | hab | hab
      · simp [hab] at h1
      · subst hab
        simp only [lt_irrefl, if_false] at h1 h2
        rw [charsLt_eq_of_not as bs h1 h2]
      · simp [hab] at h2

theorem charsLt_trans : ∀ as bs cs, charsLt as bs = true → charsLt bs cs = true →
    charsLt as cs = true
  | [], bs, [], _, h2 => by
      cases bs with
      | nil => simp [charsLt] at h2
      | cons b bs' => simp [charsLt] at h2
  | [], bs, c :: cs, _, _ => rfl
  | _ :: _, bs, [], h1, h2 => by
      cases bs with
      | nil => simp [charsLt] at h1
      | cons b bs => simp [charsLt] at h2
  | a :: as, bs, c :: cs, h1, h2 => by
      cases bs with
      | nil => simp [charsLt] at h1
      | cons b bs =>
          simp only [charsLt] at h1 h2 ⊢
          rcases lt_trichotomy a b with hab | hab | hab
          · rcases lt_trichotomy b c with hbc | hbc | hbc
            · have : a < c := lt_trans hab hbc
              simp [this]
            · subst hbc; simp [hab]
            · simp [hbc, not_lt_of_gt hbc] at h2
          · subst hab
            rcases lt_trichotomy a c with hbc | hbc | hbc
            · simp [hbc]
            · subst hbc
              simp only [lt_irrefl, if_false] at h1 h2 ⊢
              exact charsLt_trans as bs cs h1 h2
            · simp [hbc, not_lt_of_gt hbc] at h2
          · simp [hab, not_lt_of_gt hab] at h1

theorem strLe_total (a b : String) : (strLe a b || strLe b a) = true := by
  simp only [strLe, Bool.or_eq_true, Bool.not_eq_true']
  by_cases h : charsLt b.data a.data = true
  · right; exact charsLt_asymm _ _ h
  · left; simpa using h

theorem strLe_trans (a b c : String) (h1 : strLe a b = true) (h2 : strLe b c = true) :
    strLe a c = true := by
  simp only [strLe, Bool.not_eq_true'] at h1 h2 ⊢
  by_contra hca
  have hca : charsLt c.data a.data = true := by simpa using hca
  by_cases hbc : charsLt b.data c.data = true
  · have := charsLt_trans _ _ _ hbc hca
    simp [this] at h1
  · have hbceq : b.data = c.data := charsLt_eq_of_not _ _ (by simpa using hbc) h2
    rw [← hbceq] at hca
    simp [hca] at h1

/-- Insertion keeps the multiset of elements. -/
theorem insertLe_perm (le : α → α → Bool) (x : α) :
    ∀ l : List α, (insertLe le x l).Perm (x :: l)
  | [] => List.Perm.refl _
  | y :: ys => by
      unfold insertLe
      split
      · exact ((insertLe_perm le x ys).cons y).trans (List.Perm.swap x y ys)
      · exact List.Perm.refl _

/-- The stable sort keeps the multiset of elements. -/
theorem sortByLe_perm (le : α → α → Bool) (l : List α) : (sortByLe le l).Perm l := by
  suffices h : ∀ (l : List α) (acc : List α),
      (l.foldl (fun acc x => insertLe le x acc) acc).Perm (acc ++ l) by
    simpa using h l []
  intro l
  induction l with
  | nil => intro acc; simp
  | cons x xs ih =>
      intro acc
      simp only [List.foldl_cons]
      refine (ih (insertLe le x acc)).trans ?_
      have h1 : (insertLe le x acc ++ xs).Perm ((x :: acc) ++ xs) :=
        (insertLe_perm le x acc).append_right xs
      refine h1.trans ?_
      simp only [List.cons_append]
      exact (List.perm_middle).symm

/-- Insertion preserves sortedness. -/
theorem insertLe_pairwise (le : α → α → Bool)
    (htrans : ∀ a b c, le a b = true → le b c = true → le a c = true)
    (htot : ∀ a b, (le a b || le b a) = true) (x : α) :
    ∀ l : List α, List.Pairwise (fun a b => le a b = true) l →
      List.Pairwise (fun a b => le a b = true) (insertLe le x l)
  | [], _ => by simp [insertLe]
  | y :: ys, h => by
      have hp := List.pairwise_cons.mp h
      unfold insertLe
      split
      · next hyx =>
          refine List.pairwise_cons.mpr ⟨?_, insertLe_pairwise le htrans htot x ys hp.2⟩
          intro z hz
          rcases List.mem_cons.mp ((insertLe_perm le x ys).mem_iff.mp hz) with rfl | hzys
          · exact hyx
          · exact hp.1 z hzys
      · next hyx =>
          have hxy : le x y = true := by
            rcases Bool.or_eq_true_iff.mp (htot x y) with h' | h'
            · exact h'
            · exact absurd h' (by simpa using hyx)
          refine List.pairwise_cons.mpr ⟨?_, h⟩
          intro z hz
          rcases List.mem_cons.mp hz with rfl | hzys
          · exact hxy
          · exact htrans x y z hxy (hp.1 z hzys)

/-- The stable sort sorts. -/
theorem sortByLe_pairwise (le : α → α → Bool)
    (htrans : ∀ a b c, le a b = true → le b c = true → le a c = true)
    (htot : ∀ a b, (le a b || le b a) = true) (l : List α) :
    List.Pairwise (fun a b => le a b = true) (sortByLe le l) := by
  suffices h : ∀ (l acc : List α), List.Pairwise (fun a b => le a b = true) acc →
      List.Pairwise (fun a b => le a b = true) (l.foldl (fun acc x => insertLe le x acc) acc) by
    exact h l [] (by simp)
  intro l
  induction l with
  | nil => intro acc hacc; simpa using hacc
  | cons x xs ih =>
      intro acc hacc
      simp only [List.foldl_cons]
      exact ih _ (insertLe_pairwise le htrans htot x acc hacc)

/-- Sorted-by-strLe lists have their head as a minimum. -/
theorem sorted_strLe_head_min (l : List String) :
    ∀ x ∈ sortByLe strLe l, strLe ((sortByLe strLe l).headD "") x = true := by
  have hs := sortByLe_pairwise strLe strLe_trans strLe_total l
  intro x hx
  cases hms : sortByLe strLe l with
  | nil => rw [hms] at hx; simp at hx
  | cons h t =>
      rw [hms] at hx hs
      simp only [List.headD_cons]
      rcases List.mem_cons.mp hx with rfl | hxt
      · exact strLe_refl x
      · exact (List.pairwise_cons.mp hs).1 x hxt

/-! ## Structural lemmas for the graph compiler -/

theorem build_success {nodes : List WGNode} {edges : List WGEdge} {g : GraphOut}
    (h : (buildWorkflowGraphV11 nodes edges).graph = some g) :
    nodes.isEmpty = false ∧ graphErrorsOf nodes edges = [] ∧
    g = { schemaVersion := "1.1"
          entryNodeId := entryOf nodes edges
          nodes := (buildNodesOut (nodesById nodes) (idsOf nodes)).1
          edges := (buildEdgesOut (validEdgesOf nodes edges)).1 } := by
  unfold buildWorkflowGraphV11 at h
  split_ifs at h with h1 h2
  exact ⟨by simpa using h1, by simpa using h2, by simpa using h.symm⟩

theorem build_errors_eq {nodes : List WGNode} {edges : List WGEdge}
    (h1 : nodes.isEmpty = false) :
    (buildWorkflowGraphV11 nodes edges).errors = graphErrorsOf nodes edges := by
  unfold buildWorkflowGraphV11
  split_ifs with ha hb <;> simp_all

theorem build_warnings_mem {nodes : List WGNode} {edges : List WGEdge} {w : String}
    (h1 : nodes.isEmpty = false) (hw : w ∈ graphWarningsPre nodes edges) :
    w ∈ (buildWorkflowGraphV11 nodes edges).warnings := by
  unfold buildWorkflowGraphV11
  split_ifs with ha hb
  · rw [ha] at h1; cases h1
  · simpa using hw
  · simp [hw]

theorem build_graph_none {nodes : List WGNode} {edges : List WGEdge}
    (h : graphErrorsOf nodes edges ≠ []) :
    (buildWorkflowGraphV11 nodes edges).graph = none := by
  unfold buildWorkflowGraphV11
  split_ifs <;> simp_all

theorem entry_ne_of_no_errors {nodes : List WGNode} {edges : List WGEdge}
    (h : graphErrorsOf nodes edges = []) : entryOf nodes edges ≠ "" := by
  intro he
  have : entryErrorsOf nodes edges = [] := by
    have := h
    unfold graphErrorsOf at this
    exact (List.append_eq_nil.mp this).2
  unfold entryErrorsOf at this
  rw [if_pos he] at this
  cases this

theorem startNodes_ne_nil_of_no_errors {nodes : List WGNode} {edges : List WGEdge}
    (h : graphErrorsOf nodes edges = []) : startNodesOf nodes edges ≠ [] := by
  intro hs
  exact entry_ne_of_no_errors h (by simp [entryOf, hs])

/-- Members of the entry-candidate list have in-degree zero. -/
theorem mem_startNodes_indegree {nodes : List WGNode} {edges : List WGEdge} {x : String}
    (hx : x ∈ startNodesOf nodes edges) :
    indegree (validEdgesOf nodes edges) x = 0 := by
  unfold startNodesOf at hx
  have hm := (sortByLe_perm strLe _).mem_iff.mp hx
  simpa using (List.mem_filter.mp hm).2

/-- C4: for every successful compilation the emitted entryNodeId has
in-degree 0 with respect to the valid edges and is the smallest candidate
in the strLe order; several candidates produce the multi-start warning;
no candidate (with a non-empty node list) produces the fatal
entry-determination error and a null graph. -/
theorem claim_C4 (nodes : List WGNode) (edges : List WGEdge) :
    (∀ g, (buildWorkflowGraphV11 nodes edges).graph = some g →
        indegree (validEdgesOf nodes edges) g.entryNodeId = 0 ∧
        g.entryNodeId ∈ startNodesOf nodes edges ∧
        ∀ x ∈ startNodesOf nodes edges, strLe g.entryNodeId x = true) ∧
    ((startNodesOf nodes edges).length > 1 → nodes.isEmpty = false →
        ("检测到多起点：已选择 entryNodeId=" ++ (startNodesOf nodes edges).headD "")
          ∈ (buildWorkflowGraphV11 nodes edges).warnings) ∧
    (nodes.isEmpty = false → startNodesOf nodes edges = [] →
        "无法确定 entryNodeId：未找到入度为 0 的起点节点"
          ∈ (buildWorkflowGraphV11 nodes edges).errors ∧
        (buildWorkflowGraphV11 nodes edges).graph = none) := by
  refine ⟨?_, ?_, ?_⟩
  · intro g hg
    obtain ⟨hne, herr, hgeq⟩ := build_success hg
    have hsn : startNodesOf nodes edges ≠ [] := startNodes_ne_nil_of_no_errors herr
    have hentry : g.entryNodeId = (startNodesOf nodes edges).headD "" := by
      rw [hgeq]; rfl
    have hmem : g.entryNodeId ∈ startNodesOf nodes edges := by
      rw [hentry]
      cases hsn' : startNodesOf nodes edges with
      | nil => exact absurd hsn' hsn
      | cons a t => simp
    refine ⟨mem_startNodes_indegree hmem, hmem, ?_⟩
    intro x hx
    rw [hentry]
    unfold startNodesOf at hx ⊢
    exact sorted_strLe_head_min _ x hx
  · intro hlen hne
    apply build_warnings_mem hne
    unfold graphWarningsPre
    rw [if_pos hlen]
    simp
  · intro hne hsn
    have hentry : entryOf nodes edges = "" := by simp [entryOf, hsn]
    have hmem : "无法确定 entryNodeId：未找到入度为 0 的起点节点" ∈ graphErrorsOf nodes edges := by
      unfold graphErrorsOf entryErrorsOf
      rw [if_pos hentry]
      simp
    have herrne : graphErrorsOf nodes edges ≠ [] := by
      intro hnil; rw [hnil] at hmem; cases hmem
    refine ⟨?_, build_graph_none herrne⟩
    rw [build_errors_eq hne]
    exact hmem

/-- Witness for C4 at concrete inputs: two entry candidates b, a (sorted
to a) for the success and warning parts, and the a-b-a cycle for the
no-candidate part. -/
theorem claim_C4_witness :
    (indegree (validEdgesOf [exNodeB, exNodeA] []) exGraphBA.entryNodeId = 0 ∧
     exGraphBA.entryNodeId ∈ startNodesOf [exNodeB, exNodeA] [] ∧
     ∀ x ∈ startNodesOf [exNodeB, exNodeA] [], strLe exGraphBA.entryNodeId x = true) ∧
    ("检测到多起点：已选择 entryNodeId=" ++ (startNodesOf [exNodeB, exNodeA] []).headD "")
        ∈ (buildWorkflowGraphV11 [exNodeB, exNodeA] []).warnings ∧
    ("无法确定 entryNodeId：未找到入度为 0 的起点节点"
        ∈ (buildWorkflowGraphV11 [exNodeA, exNodeB] exCycEdges).errors ∧
     (buildWorkflowGraphV11 [exNodeA, exNodeB] exCycEdges).graph = none) :=
  ⟨(claim_C4 [exNodeB, exNodeA] []).1 exGraphBA (by decide),
   (claim_C4 [exNodeB, exNodeA] []).2.1 (by decide) (by decide),
   (claim_C4 [exNodeA, exNodeB] exCycEdges).2.2 (by decide) (by decide)⟩

/-! ## Characterization of the emission stages -/

theorem buildEdgesOut_eq (ve : List (WGEdge × Nat)) :
    buildEdgesOut ve =
      ((sortByLe strLe (sourcesOf ve)).flatMap (fun s => (emitGroup ve s).1),
       (sortByLe strLe (sourcesOf ve)).flatMap (fun s => (emitGroup ve s).2)) := by
  unfold buildEdgesOut
  suffices h : ∀ (l : List String) (acc : List OutEdge × List String),
      (l.foldl (fun acc s =>
        let r := emitGroup ve s
        (acc.1 ++ r.1, acc.2 ++ r.2)) acc) =
      (acc.1 ++ l.flatMap (fun s => (emitGroup ve s).1),
       acc.2 ++ l.flatMap (fun s => (emitGroup ve s).2)) by
    rw [h]
    simp
  intro l
  induction l with
  | nil => intro acc; simp
  | cons x xs ih =>
      intro acc
      simp only [List.foldl_cons, ih, List.flatMap_cons, List.append_assoc]

theorem buildNodesOut_eq (m : List (String × WGNode)) (ids : List String) :
    buildNodesOut m ids =
      ((sortByLe strLe ids).map (fun id => (mapNodeOut m id).1),
       (sortByLe strLe ids).flatMap (fun id => (mapNodeOut m id).2)) := by
  unfold buildNodesOut
  suffices h : ∀ (l : List String) (acc : List OutNode × List String),
      (l.foldl (fun acc id =>
        let r := mapNodeOut m id
        (acc.1 ++ [r.1], acc.2 ++ r.2)) acc) =
      (acc.1 ++ l.map (fun id => (mapNodeOut m id).1),
       acc.2 ++ l.flatMap (fun id => (mapNodeOut m id).2)) by
    rw [h]
    simp
  intro l
  induction l with
  | nil => intro acc; simp
  | cons x xs ih =>
      intro acc
      simp only [List.foldl_cons, ih, List.map_cons, List.flatMap_cons, List.append_assoc,
        List.singleton_append, List.cons_append, List.nil_append]

theorem sadd_mem {s : List String} {x y : String} : y ∈ sadd s x ↔ y ∈ s ∨ y = x := by
  unfold sadd
  split
  · next hc =>
      constructor
      · exact Or.inl
      · rintro (h | rfl)
        · exact h
        · simpa using hc
  · simp

theorem mem_sourcesOf {ve : List (WGEdge × Nat)} {s : String} :
    s ∈ sourcesOf ve ↔ ∃ r ∈ ve, r.1.source = s := by
  unfold sourcesOf
  suffices h : ∀ (l : List (WGEdge × Nat)) (acc : List String),
      s ∈ l.foldl (fun acc r => sadd acc r.1.source) acc ↔
        s ∈ acc ∨ ∃ r ∈ l, r.1.source = s by
    simpa using h ve []
  intro l
  induction l with
  | nil => intro acc; simp
  | cons x xs ih =>
      intro acc
      rw [List.foldl_cons, ih, sadd_mem]
      constructor
      · rintro ((h | h) | ⟨r, hr, hs⟩)
        · exact Or.inl h
        · exact Or.inr ⟨x, by simp, h.symm⟩
        · exact Or.inr ⟨r, by simp [hr], hs⟩
      · rintro (h | ⟨r, hr, hs⟩)
        · exact Or.inl (Or.inl h)
        · rcases List.mem_cons.mp hr with rfl | hr
          · exact Or.inl (Or.inr hs.symm)
          · exact Or.inr ⟨r, hr, hs⟩

/-- Validity test of one edge record against the node-id set. -/
def edgeOk (ids : List String) (e : WGEdge) : Bool :=
  !(e.source = "" || e.target = "") && ids.contains e.source && ids.contains e.target

theorem collectEdges_snd_eq (ids : List String) (edges : List WGEdge) :
    (collectEdges ids edges).2 =
      (edges.enum.filter (fun p => edgeOk ids p.2)).map (fun p => (p.2, p.1)) := by
  unfold collectEdges
  suffices h : ∀ (l : List (Nat × WGEdge)) (acc : List String × List (WGEdge × Nat)),
      (l.foldl (fun acc p =>
        let idx := p.1
        let e := p.2
        if e.source = "" || e.target = "" then
          (acc.1 ++ ["存在不完整的 edge（缺少 source/target）：index=" ++ natToDec idx], acc.2)
        else if !(ids.contains e.source) then
          (acc.1 ++ ["edge.source 不存在：" ++ e.source ++ "（index=" ++ natToDec idx ++ "）"], acc.2)
        else if !(ids.contains e.target) then
          (acc.1 ++ ["edge.target 不存在：" ++ e.target ++ "（index=" ++ natToDec idx ++ "）"], acc.2)
        else (acc.1, acc.2 ++ [(e, idx)])) acc).2 =
      acc.2 ++ (l.filter (fun p => edgeOk ids p.2)).map (fun p => (p.2, p.1)) by
    simpa using h edges.enum ([], [])
  intro l
  induction l with
  | nil => intro acc; simp
  | cons x xs ih =>
      intro acc
      rw [List.foldl_cons, List.filter_cons]
      by_cases h1 : (decide (x.2.source = "") || decide (x.2.target = "")) = true
      · have hok : ¬ (edgeOk ids x.2 = true) := by
          unfold edgeOk
          rw [h1]
          simp
        rw [if_pos h1, if_neg hok, ih]
      · by_cases h2 : x.2.source ∈ ids
        · by_cases h3 : x.2.target ∈ ids
          · have hok : edgeOk ids x.2 = true := by
              unfold edgeOk
              simp only [Bool.or_eq_true, decide_eq_true_eq] at h1
              push_neg at h1
              simp [h1.1, h1.2, h2, h3]
            rw [if_neg h1, if_neg (by simp [h2]), if_neg (by simp [h3]), if_pos hok, ih]
            simp [List.append_assoc]
          · have hok : ¬ (edgeOk ids x.2 = true) := by
              unfold edgeOk
              simp [h3]
            rw [if_neg h1, if_neg (by simp [h2]), if_pos (by simp [h3]), if_neg hok, ih]
        · have hok : ¬ (edgeOk ids x.2 = true) := by
            unfold edgeOk
            simp [h2]
          rw [if_neg h1, if_pos (by simp [h2]), if_neg hok, ih]

theorem validEdges_idx_nodup (nodes : List WGNode) (edges : List WGEdge) :
    ((validEdgesOf nodes edges).map (fun r => r.2)).Nodup := by
  unfold validEdgesOf
  rw [collectEdges_snd_eq]
  rw [List.map_map]
  have hsub : ((edges.enum.filter (fun p => edgeOk (idsOf nodes) p.2)).map Prod.fst).Sublist
      (edges.enum.map Prod.fst) :=
    List.Sublist.map Prod.fst (List.filter_sublist edges.enum)
  have hnd : (edges.enum.map Prod.fst).Nodup := by
    rw [List.enum_map_fst]
    exact List.nodup_range _
  exact (hnd.sublist hsub)

theorem mem_validEdges {nodes : List WGNode} {edges : List WGEdge} {r : WGEdge × Nat}
    (hr : r ∈ validEdgesOf nodes edges) :
    r.1.source ∈ idsOf nodes ∧ r.1.target ∈ idsOf nodes ∧
    r.1.source ≠ "" ∧ r.1.target ≠ "" := by
  unfold validEdgesOf at hr
  rw [collectEdges_snd_eq] at hr
  rcases List.mem_map.mp hr with ⟨p, hp, rfl⟩
  have hok := (List.mem_filter.mp hp).2
  unfold edgeOk at hok
  simp only [Bool.and_eq_true, Bool.not_eq_true', Bool.or_eq_false_iff,
    decide_eq_false_iff_not] at hok
  refine ⟨?_, ?_, hok.1.1.1, hok.1.1.2⟩
  · simpa using hok.1.2
  · simpa using hok.2

/-- Members of a source group are valid edges with that source. -/
theorem mem_groupOf {ve : List (WGEdge × Nat)} {s : String} {r : WGEdge × Nat} :
    r ∈ groupOf ve s ↔ r ∈ ve ∧ r.1.source = s := by
  unfold groupOf
  rw [(sortByLe_perm _ _).mem_iff, List.mem_filter]
  simp

/-- The original indices inside a source group are pairwise distinct. -/
theorem groupOf_idx_nodup (nodes : List WGNode) (edges : List WGEdge) (s : String) :
    ((groupOf (validEdgesOf nodes edges) s).map (fun r => r.2)).Nodup := by
  have hperm : ((groupOf (validEdgesOf nodes edges) s).map (fun r => r.2)).Perm
      (((validEdgesOf nodes edges).filter (fun r => r.1.source = s)).map (fun r => r.2)) :=
    (sortByLe_perm _ _).map _
  rw [hperm.nodup_iff]
  have hsub : (((validEdgesOf nodes edges).filter (fun r => r.1.source = s)).map
      (fun r => r.2)).Sublist ((validEdgesOf nodes edges).map (fun r => r.2)) :=
    List.Sublist.map _ (List.filter_sublist _)
  exact (validEdges_idx_nodup nodes edges).sublist hsub

/-- The emitted edge list of a successful compilation contains the block
of every non-empty source group. -/
theorem emitted_block {nodes : List WGNode} {edges : List WGEdge} {g : GraphOut}
    (h : (buildWorkflowGraphV11 nodes edges).graph = some g)
    {s : String} (hs : groupOf (validEdgesOf nodes edges) s ≠ []) :
    ∃ pre post, g.edges = pre ++ (emitGroup (validEdgesOf nodes edges) s).1 ++ post := by
  obtain ⟨-, -, hgeq⟩ := build_success h
  have hge : g.edges = (buildEdgesOut (validEdgesOf nodes edges)).1 := by rw [hgeq]
  rw [buildEdgesOut_eq] at hge
  have hmem : s ∈ sortByLe strLe (sourcesOf (validEdgesOf nodes edges)) := by
    rw [(sortByLe_perm _ _).mem_iff, mem_sourcesOf]
    cases hg : groupOf (validEdgesOf nodes edges) s with
    | nil => exact absurd hg hs
    | cons r t =>
        have : r ∈ groupOf (validEdgesOf nodes edges) s := by rw [hg]; simp
        have hr := mem_groupOf.mp this
        exact ⟨r, hr.1, hr.2⟩
  rcases List.mem_iff_append.mp hmem with ⟨l1, l2, hsplit⟩
  refine ⟨(l1.flatMap (fun s => (emitGroup (validEdgesOf nodes edges) s).1)),
          (l2.flatMap (fun s => (emitGroup (validEdgesOf nodes edges) s).1)), ?_⟩
  rw [hge, hsplit]
  simp [List.flatMap_append, List.flatMap_cons, List.append_assoc]

/-- Element k of an emitted group block. -/
theorem emitGroup_getElem (ve : List (WGEdge × Nat)) (s : String) (k : Nat)
    (hk : k < (groupOf ve s).length) :
    ∃ hlen : k < (emitGroup ve s).1.length,
      ((emitGroup ve s).1).get ⟨k, hlen⟩ =
        (let group := groupOf ve s
         let multi := group.length > 1
         let defaults := defaultsOf group
         let chosenDefault : Option (WGEdge × Nat) :=
           if multi then (defaults.head?).orElse (fun _ => group.head?) else none
         let r := group.get ⟨k, hk⟩
         let rawLabel := rawLabelOf r.1
         let label := if rawLabel ≠ "" then rawLabel
           else if multi then "branch-" ++ natToDec (k + 1) else "next"
         let conditionText := rawConditionTextOf r.1
         let idT := jsTrim (r.1.id?.getD "")
         let isDef := match chosenDefault with | some c => c.2 = r.2 | none => false
         { id := if idT ≠ "" then some idT else none
           fromId := r.1.source
           toId := r.1.target
           label := label
           isDefault := if multi && isDef then some true else none
           conditionText := if conditionText ≠ "" then some conditionText else none : OutEdge }) := by
  have hlen : k < (emitGroup ve s).1.length := by
    unfold emitGroup
    simpa using hk
  refine ⟨hlen, ?_⟩
  conv_lhs => unfold emitGroup
  simp only [List.get_eq_getElem, List.getElem_map, List.getElem_enum]

/-- C5 as amended: in every successful compilation, the edge emitted for
position k of the sorted outgoing group of a source keeps its trimmed
non-empty label, and an unlabeled (empty after trimming) edge is labeled
next for a singleton group and branch-(k+1) for a multi-edge group. -/
theorem claim_C5_thm (nodes : List WGNode) (edges : List WGEdge) (g : GraphOut)
    (h : (buildWorkflowGraphV11 nodes edges).graph = some g)
    (s : String) (k : Nat) (hk : k < (groupOf (validEdgesOf nodes edges) s).length) :
    ∃ e ∈ g.edges,
      e.fromId = s ∧
      e.toId = ((groupOf (validEdgesOf nodes edges) s).get ⟨k, hk⟩).1.target ∧
      e.label =
        (if rawLabelOf ((groupOf (validEdgesOf nodes edges) s).get ⟨k, hk⟩).1 ≠ "" then
          rawLabelOf ((groupOf (validEdgesOf nodes edges) s).get ⟨k, hk⟩).1
        else if (groupOf (validEdgesOf nodes edges) s).length > 1 then
          "branch-" ++ natToDec (k + 1)
        else "next") := by
  have hs : groupOf (validEdgesOf nodes edges) s ≠ [] := by
    intro hnil
    rw [hnil] at hk
    simp at hk
  obtain ⟨pre, post, hsplit⟩ := emitted_block h hs
  obtain ⟨hlen, hget⟩ := emitGroup_getElem (validEdgesOf nodes edges) s k hk
  refine ⟨((emitGroup (validEdgesOf nodes edges) s).1).get ⟨k, hlen⟩, ?_, ?_, ?_, ?_⟩
  · rw [hsplit]
    have : ((emitGroup (validEdgesOf nodes edges) s).1).get ⟨k, hlen⟩
        ∈ (emitGroup (validEdgesOf nodes edges) s).1 := List.get_mem _ _ _
    simp [this]
  · rw [hget]
    have hmem : (groupOf (validEdgesOf nodes edges) s).get ⟨k, hk⟩
        ∈ groupOf (validEdgesOf nodes edges) s := List.get_mem _ _ _
    exact (mem_groupOf.mp hmem).2
  · rw [hget]
  · rw [hget]

/-- C5 witness: Scenario B instance, the single unlabeled edge gets the
label next. -/
theorem claim_C5_witness :
    ∃ e ∈ exGraphAB.edges,
      e.fromId = "a" ∧
      e.toId = ((groupOf (validEdgesOf [exNodeA, exNodeB] [exEdgeAB]) "a").get
        ⟨0, by decide⟩).1.target ∧
      e.label =
        (if rawLabelOf ((groupOf (validEdgesOf [exNodeA, exNodeB] [exEdgeAB]) "a").get
            ⟨0, by decide⟩).1 ≠ "" then
          rawLabelOf ((groupOf (validEdgesOf [exNodeA, exNodeB] [exEdgeAB]) "a").get
            ⟨0, by decide⟩).1
        else if (groupOf (validEdgesOf [exNodeA, exNodeB] [exEdgeAB]) "a").length > 1 then
          "branch-" ++ natToDec 1
        else "next") :=
  claim_C5_thm [exNodeA, exNodeB] [exEdgeAB] exGraphAB (by decide) "a" 0 (by decide)

/-- C5 counterexample: an explicit non-empty label " done " is not kept
unchanged, the compiler emits its trimmed form "done". -/
theorem claim_C5_counterexample :
    [exEdgeLab].map (fun e => e.label?) = [some (.str " done ")] ∧
    (buildWorkflowGraphV11 [exNodeA, exNodeB] [exEdgeLab]).graph.map
        (fun g => g.edges.map (fun e => e.label)) = some ["done"] ∧
    " done " ≠ "done" :=
  ⟨rfl, by decide, by decide⟩

/-- C1 as amended: for a branching source with multiple outgoing edges and
no isDefault flag, the compiler materializes the implicit default: the
first edge in stable order is emitted with isDefault true and the others
without the field; a single outgoing edge is emitted without the field
(implicitly default). -/
theorem claim_C1_thm (nodes : List WGNode) (edges : List WGEdge) (g : GraphOut)
    (h : (buildWorkflowGraphV11 nodes edges).graph = some g) (s : String) :
    ((groupOf (validEdgesOf nodes edges) s).length > 1 →
      defaultsOf (groupOf (validEdgesOf nodes edges) s) = [] →
      (emitGroup (validEdgesOf nodes edges) s).1.map (fun e => e.isDefault) =
        some true :: List.replicate ((groupOf (validEdgesOf nodes edges) s).length - 1) none ∧
      ∃ pre post, g.edges = pre ++ (emitGroup (validEdgesOf nodes edges) s).1 ++ post) ∧
    ((groupOf (validEdgesOf nodes edges) s).length = 1 →
      (emitGroup (validEdgesOf nodes edges) s).1.map (fun e => e.isDefault) = [none] ∧
      ∃ pre post, g.edges = pre ++ (emitGroup (validEdgesOf nodes edges) s).1 ++ post) := by
  constructor
  · intro hmulti hdef
    have hne : groupOf (validEdgesOf nodes edges) s ≠ [] := by
      intro hnil; rw [hnil] at hmulti; simp at hmulti
    refine ⟨?_, emitted_block h hne⟩
    have hlen1 : ((emitGroup (validEdgesOf nodes edges) s).1.map (fun e => e.isDefault)).length =
        (groupOf (validEdgesOf nodes edges) s).length := by
      unfold emitGroup
      simp
    have h0 : 0 < (groupOf (validEdgesOf nodes edges) s).length := by omega
    have hhead : (groupOf (validEdgesOf nodes edges) s).head? =
        some ((groupOf (validEdgesOf nodes edges) s)[0]) := by
      rw [List.head?_eq_getElem?]
      exact List.getElem?_eq_getElem h0
    apply List.ext_getElem
    · rw [hlen1]
      simp only [List.length_cons, List.length_replicate]
      omega
    · intro n h1 h2
      have hn : n < (groupOf (validEdgesOf nodes edges) s).length := by
        rw [hlen1] at h1; exact h1
      obtain ⟨hlen, hget⟩ := emitGroup_getElem (validEdgesOf nodes edges) s n hn
      rw [List.getElem_map]
      have hgetE : (emitGroup (validEdgesOf nodes edges) s).1[n] =
          (emitGroup (validEdgesOf nodes edges) s).1.get ⟨n, hlen⟩ := by
        simp
      rw [hgetE, hget]
      simp only [hdef, List.head?_nil, if_pos hmulti]
      have horelse : (none : Option (WGEdge × Nat)).orElse
          (fun _ => (groupOf (validEdgesOf nodes edges) s).head?) =
          (groupOf (validEdgesOf nodes edges) s).head? := rfl
      rw [horelse, hhead]
      by_cases hn0 : n = 0
      · subst hn0
        have hgg : (groupOf (validEdgesOf nodes edges) s).get ⟨0, hn⟩ =
            (groupOf (validEdgesOf nodes edges) s)[0] := by simp
        simp [hgg, hmulti]
      · have hne0 : ¬ ((groupOf (validEdgesOf nodes edges) s)[0]).2 =
            ((groupOf (validEdgesOf nodes edges) s).get ⟨n, hn⟩).2 := by
          intro heq
          have hidx := groupOf_idx_nodup nodes edges s
          have hmap0 : (0 : Nat) < ((groupOf (validEdgesOf nodes edges) s).map
              (fun r => r.2)).length := by simpa using h0
          have hmapn : n < ((groupOf (validEdgesOf nodes edges) s).map
              (fun r => r.2)).length := by simpa using hn
          have heq2 : ((groupOf (validEdgesOf nodes edges) s).map (fun r => r.2))[0] =
              ((groupOf (validEdgesOf nodes edges) s).map (fun r => r.2))[n] := by
            rw [List.getElem_map, List.getElem_map]
            simpa using heq
          have := (List.Nodup.getElem_inj_iff hidx).mp heq2
          omega
        have hrepl : (some true :: List.replicate
            ((groupOf (validEdgesOf nodes edges) s).length - 1) (none : Option Bool))[n] = none := by
          cases n with
          | zero => omega
          | succ m =>
              rw [List.getElem_cons_succ]
              exact List.getElem_replicate _ _
        rw [hrepl]
        simp only [List.get_eq_getElem] at hne0
        simp [hne0]
  · intro hone
    have hne : groupOf (validEdgesOf nodes edges) s ≠ [] := by
      intro hnil; rw [hnil] at hone; simp at hone
    refine ⟨?_, emitted_block h hne⟩
    have hlen1 : ((emitGroup (validEdgesOf nodes edges) s).1.map (fun e => e.isDefault)).length = 1 := by
      unfold emitGroup
      simpa using hone
    have hnm : ¬ ((groupOf (validEdgesOf nodes edges) s).length > 1) := by omega
    apply List.ext_getElem
    · simpa using hlen1
    · intro n h1 h2
      have hn1 : n = 0 := by
        rw [hlen1] at h1
        omega
      subst hn1
      have hn : (0 : Nat) < (groupOf (validEdgesOf nodes edges) s).length := by omega
      obtain ⟨hlen, hget⟩ := emitGroup_getElem (validEdgesOf nodes edges) s 0 hn
      rw [List.getElem_map]
      have hgetE : (emitGroup (validEdgesOf nodes edges) s).1[0] =
          (emitGroup (validEdgesOf nodes edges) s).1.get ⟨0, hlen⟩ := by
        simp
      rw [hgetE, hget]
      simp [hnm]

/-- C1 counterexample: in Scenario C no input edge is flagged isDefault,
yet the emitted document carries isDefault true on edge e1 (the first in
stable order), so the claim that no emitted edge of such a source carries
isDefault true is false on the code. -/
theorem claim_C1_counterexample :
    (∀ e ∈ [exEdgeE1, exEdgeE2], isDefaultTrue e = false) ∧
    (buildWorkflowGraphV11 [exNodeD, exNodeX, exNodeY] [exEdgeE1, exEdgeE2]).graph.map
        (fun g => g.edges.map (fun e => (e.id, e.isDefault))) =
      some [(some "e1", some true), (some "e2", none)] := by
  constructor
  · intro e he
    rcases List.mem_cons.mp he with rfl | he
    · rfl
    · rcases List.mem_cons.mp he with rfl | he
      · rfl
      · cases he
  · decide

/-- C1 witness: Scenario C instance of the multi-edge zero-flag case and
Scenario B instance of the single-edge case. -/
theorem claim_C1_witness :
    ((emitGroup (validEdgesOf [exNodeD, exNodeX, exNodeY] [exEdgeE1, exEdgeE2]) "d").1.map
        (fun e => e.isDefault) =
      some true :: List.replicate
        ((groupOf (validEdgesOf [exNodeD, exNodeX, exNodeY] [exEdgeE1, exEdgeE2]) "d").length - 1) none ∧
     ∃ pre post, exGraphC.edges =
        pre ++ (emitGroup (validEdgesOf [exNodeD, exNodeX, exNodeY] [exEdgeE1, exEdgeE2]) "d").1 ++ post) ∧
    ((emitGroup (validEdgesOf [exNodeA, exNodeB] [exEdgeAB]) "a").1.map (fun e => e.isDefault) = [none] ∧
     ∃ pre post, exGraphAB.edges =
        pre ++ (emitGroup (validEdgesOf [exNodeA, exNodeB] [exEdgeAB]) "a").1 ++ post) :=
  ⟨(claim_C1_thm [exNodeD, exNodeX, exNodeY] [exEdgeE1, exEdgeE2] exGraphC (by decide) "d").1
      (by decide) (by rfl),
   (claim_C1_thm [exNodeA, exNodeB] [exEdgeAB] exGraphAB (by decide) "a").2 (by decide)⟩

/-! ## Lemmas for the nodesById map -/

theorem insertNode_keys_mem {m : List (String × WGNode)} {n : WGNode} {id : String} :
    id ∈ (insertNode m n).map Prod.fst ↔ id ∈ m.map Prod.fst ∨ id = n.id := by
  unfold insertNode
  split
  · next hc =>
      have hkeys : (m.map (fun p => if p.1 = n.id then (n.id, n) else p)).map Prod.fst =
          m.map Prod.fst := by
        rw [List.map_map]
        apply List.map_congr_left
        intro p _
        by_cases h : p.1 = n.id
        · simp [h]
        · simp [h]
      rw [hkeys]
      constructor
      · exact Or.inl
      · rintro (h | rfl)
        · exact h
        · simpa using hc
  · simp

theorem insertNode_keys_nodup {m : List (String × WGNode)} {n : WGNode}
    (h : (m.map Prod.fst).Nodup) : ((insertNode m n).map Prod.fst).Nodup := by
  unfold insertNode
  split
  · next hc =>
      have hkeys : (m.map (fun p => if p.1 = n.id then (n.id, n) else p)).map Prod.fst =
          m.map Prod.fst := by
        rw [List.map_map]
        apply List.map_congr_left
        intro p _
        by_cases hp : p.1 = n.id
        · simp [hp]
        · simp [hp]
      rw [hkeys]
      exact h
  · next hc =>
      rw [List.map_append]
      simp only [List.map_cons, List.map_nil]
      rw [List.nodup_append]
      refine ⟨h, by simp, ?_⟩
      intro a ha hb
      simp only [List.mem_cons, List.not_mem_nil, or_false] at hb
      subst hb
      have hni : n.id ∉ m.map Prod.fst := by simpa using hc
      exact hni ha

theorem nodesById_keys_nodup (nodes : List WGNode) : (idsOf nodes).Nodup := by
  unfold idsOf nodesById
  suffices h : ∀ (l : List WGNode) (m : List (String × WGNode)), (m.map Prod.fst).Nodup →
      ((l.foldl (fun m n => if n.id = "" then m else insertNode m n) m).map Prod.fst).Nodup by
    exact h nodes [] (by simp)
  intro l
  induction l with
  | nil => intro m h; simpa using h
  | cons n rest ih =>
      intro m h
      rw [List.foldl_cons]
      apply ih
      by_cases hid : n.id = ""
      · rw [if_pos hid]; exact h
      · rw [if_neg hid]; exact insertNode_keys_nodup h

theorem mem_idsOf {nodes : List WGNode} {id : String} :
    id ∈ idsOf nodes ↔ id ≠ "" ∧ ∃ n ∈ nodes, n.id = id := by
  unfold idsOf nodesById
  suffices h : ∀ (l : List WGNode) (m : List (String × WGNode)),
      (∀ k ∈ m.map Prod.fst, k ≠ "") →
      (id ∈ (l.foldl (fun m n => if n.id = "" then m else insertNode m n) m).map Prod.fst ↔
        id ∈ m.map Prod.fst ∨ (id ≠ "" ∧ ∃ n ∈ l, n.id = id)) by
    rw [h nodes [] (by simp)]
    simp
  intro l
  induction l with
  | nil => intro m hm; simp
  | cons n rest ih =>
      intro m hm
      rw [List.foldl_cons]
      by_cases hid : n.id = ""
      · rw [if_pos hid, ih m hm]
        constructor
        · rintro (h | ⟨hne, n', hn', hid'⟩)
          · exact Or.inl h
          · exact Or.inr ⟨hne, n', by simp [hn'], hid'⟩
        · rintro (h | ⟨hne, n', hn', hid'⟩)
          · exact Or.inl h
          · rcases List.mem_cons.mp hn' with rfl | hn'
            · rw [hid] at hid'; exact absurd hid'.symm hne
            · exact Or.inr ⟨hne, n', hn', hid'⟩
      · rw [if_neg hid]
        rw [ih (insertNode m n) ?hkeys]
        case hkeys =>
          intro k hk
          rcases insertNode_keys_mem.mp hk with h | rfl
          · exact hm k h
          · exact hid
        rw [insertNode_keys_mem]
        constructor
        · rintro ((h | rfl) | ⟨hne, n', hn', hid'⟩)
          · exact Or.inl h
          · exact Or.inr ⟨hid, n, by simp, rfl⟩
          · exact Or.inr ⟨hne, n', by simp [hn'], hid'⟩
        · rintro (h | ⟨hne, n', hn', hid'⟩)
          · exact Or.inl (Or.inl h)
          · rcases List.mem_cons.mp hn' with rfl | hn'
            · exact Or.inl (Or.inr hid'.symm)
            · exact Or.inr ⟨hne, n', hn', hid'⟩

theorem lookupNode_insert_self (m : List (String × WGNode)) (n : WGNode) :
    lookupNode (insertNode m n) n.id = some n := by
  unfold lookupNode insertNode
  split
  · next hc =>
      suffices hf : ∀ (l : List (String × WGNode)), n.id ∈ l.map Prod.fst →
          List.find? (fun p => p.1 = n.id) (l.map (fun p => if p.1 = n.id then (n.id, n) else p)) =
            some (n.id, n) by
        rw [hf m (by simpa using hc)]
        rfl
      intro l
      induction l with
      | nil => intro h; simp at h
      | cons p rest ih =>
          intro h
          simp only [List.map_cons, List.find?_cons]
          by_cases hp : p.1 = n.id
          · rw [if_pos hp]
            simp
          · rw [if_neg hp]
            have hd : (decide (p.1 = n.id)) = false := by simpa using hp
            rw [hd]
            apply ih
            simp only [List.map_cons, List.mem_cons] at h
            rcases h with h' | h'
            · exact absurd h'.symm hp
            · exact h'
  · next hc =>
      rw [List.find?_append]
      have h1 : List.find? (fun p => p.1 = n.id) m = none := by
        rw [List.find?_eq_none]
        intro p hp hpn
        apply hc
        have : p.1 ∈ m.map Prod.fst := List.mem_map_of_mem Prod.fst hp
        have hpn' : p.1 = n.id := by simpa using hpn
        rw [hpn'] at this
        simpa using this
      rw [h1, Option.none_or]
      simp

theorem lookupNode_insert_ne (m : List (String × WGNode)) (n : WGNode) (id : String)
    (h : id ≠ n.id) : lookupNode (insertNode m n) id = lookupNode m id := by
  unfold lookupNode insertNode
  split
  · next hc =>
      suffices hf : ∀ (l : List (String × WGNode)),
          List.find? (fun p => p.1 = id) (l.map (fun p => if p.1 = n.id then (n.id, n) else p)) =
            List.find? (fun p => p.1 = id) l by
        rw [hf m]
      intro l
      induction l with
      | nil => simp
      | cons p rest ih =>
          simp only [List.map_cons, List.find?_cons]
          by_cases hp : p.1 = n.id
          · rw [if_pos hp]
            have hd1 : (decide ((n.id, n).1 = id)) = false := by
              simp only [decide_eq_false_iff_not]
              exact fun he => h he.symm
            have hd2 : (decide (p.1 = id)) = false := by
              simp only [decide_eq_false_iff_not]
              intro he
              exact h (by rw [← he, hp])
            rw [hd1, hd2]
            exact ih
          · rw [if_neg hp]
            by_cases hq : p.1 = id
            · have hd : (decide (p.1 = id)) = true := by simpa using hq
              rw [hd]
            · have hd : (decide (p.1 = id)) = false := by simpa using hq
              rw [hd]
              exact ih
  · rw [List.find?_append]
    have h2 : List.find? (fun p => p.1 = id) [(n.id, n)] = none := by
      rw [List.find?_eq_none]
      intro p hp
      rcases List.mem_cons.mp hp with rfl | hp
      · simpa using fun he => h he.symm
      · cases hp
    rw [h2, Option.or_none]

/-- Looking up a non-empty id in the nodesById map returns the last input
node carrying that id. -/
theorem lookupNode_nodesById (nodes : List WGNode) (id : String) (hid : id ≠ "") :
    lookupNode (nodesById nodes) id = nodes.reverse.find? (fun n => n.id = id) := by
  unfold nodesById
  suffices h : ∀ (l : List WGNode) (m : List (String × WGNode)),
      lookupNode (l.foldl (fun m n => if n.id = "" then m else insertNode m n) m) id =
        (l.reverse.find? (fun n => n.id = id)).or (lookupNode m id) by
    rw [h nodes []]
    have : lookupNode ([] : List (String × WGNode)) id = none := rfl
    rw [this, Option.or_none]
  intro l
  induction l with
  | nil =>
      intro m
      simp
  | cons n rest ih =>
      intro m
      rw [List.foldl_cons, List.reverse_cons, List.find?_append, Option.or_assoc, ih]
      congr 1
      by_cases hid0 : n.id = ""
      · rw [if_pos hid0]
        have : List.find? (fun n => n.id = id) [n] = none := by
          rw [List.find?_eq_none]
          intro x hx
          rcases List.mem_cons.mp hx with rfl | hx
          · simp only [decide_eq_true_eq]
            intro he
            exact hid (by rw [← he, hid0])
          · cases hx
        rw [this, Option.none_or]
      · rw [if_neg hid0]
        by_cases heq : id = n.id
        · subst heq
          rw [lookupNode_insert_self]
          simp
        · rw [lookupNode_insert_ne m n id heq]
          have : List.find? (fun n => n.id = id) [n] = none := by
            rw [List.find?_eq_none]
            intro x hx
            rcases List.mem_cons.mp hx with rfl | hx
            · simpa using fun he => heq he.symm
            · cases hx
          rw [this, Option.none_or]

/-- The id of an emitted node record is the id it was built from. -/
theorem mapNodeOut_id (m : List (String × WGNode)) (id : String) :
    (mapNodeOut m id).1.id = id := rfl

/-- Every emitted edge of a successful compilation comes from a valid
input edge and keeps its endpoints. -/
theorem emitted_edge_endpoints {nodes : List WGNode} {edges : List WGEdge} {g : GraphOut}
    (h : (buildWorkflowGraphV11 nodes edges).graph = some g) {e : OutEdge}
    (he : e ∈ g.edges) :
    ∃ r ∈ validEdgesOf nodes edges, e.fromId = r.1.source ∧ e.toId = r.1.target := by
  obtain ⟨-, -, hgeq⟩ := build_success h
  have hge : g.edges = (buildEdgesOut (validEdgesOf nodes edges)).1 := by rw [hgeq]
  rw [hge, buildEdgesOut_eq] at he
  rcases List.mem_flatMap.mp he with ⟨s, -, hes⟩
  unfold emitGroup at hes
  simp only at hes
  rcases List.mem_map.mp hes with ⟨p, hp, rfl⟩
  refine ⟨p.2, ?_, rfl, rfl⟩
  have hmem : p.2 ∈ groupOf (validEdgesOf nodes edges) s := List.snd_mem_of_mem_enum hp
  exact (mem_groupOf.mp hmem).1

/-- C10 as amended: every successfully compiled graph is referentially
closed (edge endpoints name emitted nodes), and its node list carries
exactly one entry per distinct non-empty input node id, built from the
last input occurrence of that id (empty-string ids are dropped by the
compiler without an error). -/
theorem claim_C10_thm (nodes : List WGNode) (edges : List WGEdge) (g : GraphOut)
    (h : (buildWorkflowGraphV11 nodes edges).graph = some g) :
    (∀ e ∈ g.edges, e.fromId ∈ g.nodes.map (fun n => n.id) ∧
        e.toId ∈ g.nodes.map (fun n => n.id)) ∧
    (g.nodes.map (fun n => n.id)).Nodup ∧
    (∀ id, id ∈ g.nodes.map (fun n => n.id) ↔ id ≠ "" ∧ id ∈ nodes.map (fun n => n.id)) ∧
    (∀ id, id ≠ "" → lookupNode (nodesById nodes) id =
        nodes.reverse.find? (fun n => n.id = id)) ∧
    g.nodes = (sortByLe strLe (idsOf nodes)).map (fun id => (mapNodeOut (nodesById nodes) id).1) := by
  obtain ⟨hne, herr, hgeq⟩ := build_success h
  have hnodes : g.nodes =
      (sortByLe strLe (idsOf nodes)).map (fun id => (mapNodeOut (nodesById nodes) id).1) := by
    rw [hgeq]
    show (buildNodesOut (nodesById nodes) (idsOf nodes)).1 = _
    rw [buildNodesOut_eq]
  have hids : g.nodes.map (fun n => n.id) = sortByLe strLe (idsOf nodes) := by
    rw [hnodes, List.map_map]
    have : ((fun n : OutNode => n.id) ∘ fun id => (mapNodeOut (nodesById nodes) id).1) =
        fun id => id := by
      funext id
      exact mapNodeOut_id (nodesById nodes) id
    rw [this]
    simp
  have hmemids : ∀ x, x ∈ g.nodes.map (fun n => n.id) ↔ x ∈ idsOf nodes := by
    intro x
    rw [hids, (sortByLe_perm _ _).mem_iff]
  refine ⟨?_, ?_, ?_, ?_, hnodes⟩
  · intro e he
    obtain ⟨r, hr, hf, ht⟩ := emitted_edge_endpoints h he
    have hend := mem_validEdges hr
    constructor
    · rw [hmemids, hf]; exact hend.1
    · rw [hmemids, ht]; exact hend.2.1
  · rw [hids, (sortByLe_perm _ _).nodup_iff]
    exact nodesById_keys_nodup nodes
  · intro id
    rw [hmemids, mem_idsOf]
    constructor
    · rintro ⟨hne', n, hn, hid⟩
      exact ⟨hne', List.mem_map.mpr ⟨n, hn, hid⟩⟩
    · rintro ⟨hne', hmem⟩
      rcases List.mem_map.mp hmem with ⟨n, hn, hid⟩
      exact ⟨hne', n, hn, hid⟩
  · intro id hid
    exact lookupNode_nodesById nodes id hid

/-- C10 witness at the two-node example. -/
theorem claim_C10_witness :
    (∀ e ∈ exGraphBA.edges, e.fromId ∈ exGraphBA.nodes.map (fun n => n.id) ∧
        e.toId ∈ exGraphBA.nodes.map (fun n => n.id)) ∧
    (exGraphBA.nodes.map (fun n => n.id)).Nodup ∧
    (∀ id, id ∈ exGraphBA.nodes.map (fun n => n.id) ↔
        id ≠ "" ∧ id ∈ [exNodeB, exNodeA].map (fun n => n.id)) ∧
    (∀ id, id ≠ "" → lookupNode (nodesById [exNodeB, exNodeA]) id =
        [exNodeB, exNodeA].reverse.find? (fun n => n.id = id)) ∧
    exGraphBA.nodes = (sortByLe strLe (idsOf [exNodeB, exNodeA])).map
      (fun id => (mapNodeOut (nodesById [exNodeB, exNodeA]) id).1) :=
  claim_C10_thm [exNodeB, exNodeA] [] exGraphBA (by decide)

/-- C10 counterexample: a node whose id is the empty string is a distinct
input node id, yet the successfully emitted document has no entry for it. -/
theorem claim_C10_counterexample :
    (∃ n ∈ [({ id := "" } : WGNode), exNodeA], n.id = "") ∧
    (buildWorkflowGraphV11 [({ id := "" } : WGNode), exNodeA] []).graph.map
        (fun g => g.nodes.map (fun n => n.id)) = some ["a"] ∧
    ¬ ("" ∈ ["a"]) :=
  ⟨⟨{ id := "" }, List.mem_cons_self _ _, rfl⟩, by decide, by decide⟩

/-! ## Kahn traversal invariants for the cycle claim -/

theorem kahnRun_eq_g (ve : List (WGEdge × Nat)) :
    ∀ (fuel : Nat) (q : List String) (next : String → Int) (c : Nat),
      kahnRun ve fuel q next c = c + (kahnRunG ve fuel q next).length
  | 0, q, next, c => by simp [kahnRun, kahnRunG]
  | fuel + 1, [], next, c => by simp [kahnRun, kahnRunG]
  | fuel + 1, id :: rest, next, c => by
      unfold kahnRun kahnRunG
      by_cases hid : id = ""
      · simp [hid]
      · simp only [if_neg hid]
        rw [kahnRun_eq_g ve fuel]
        simp only [List.length_cons]
        omega

theorem countP_add_of_exclusive {l : List α} {p q : α → Bool}
    (h : ∀ a ∈ l, ¬(p a = true ∧ q a = true)) :
    l.countP (fun a => p a || q a) = l.countP p + l.countP q := by
  induction l with
  | nil => simp
  | cons x xs ih =>
      simp only [List.countP_cons]
      rw [ih (fun a ha => h a (List.mem_cons_of_mem x ha))]
      have hx := h x (List.mem_cons_self x xs)
      by_cases hp : p x = true
      · have hq : q x = false := by
          rcases Bool.eq_false_or_eq_true (q x) with h' | h'
          · exact absurd ⟨hp, h'⟩ hx
          · exact h'
        simp [hp, hq]
        omega
      · have hp' : p x = false := by simpa using hp
        by_cases hq : q x = true
        · simp [hp', hq]
          omega
        · have hq' : q x = false := by simpa using hq
          simp [hp', hq']

theorem countFromIn_nil (ve : List (WGEdge × Nat)) (t : String) :
    countFromIn ve [] t = 0 := by
  unfold countFromIn
  rw [List.countP_eq_zero]
  intro r _
  simp

theorem countFromIn_append_single (ve : List (WGEdge × Nat)) (V : List String)
    (u t : String) (hu : u ∉ V) :
    countFromIn ve (V ++ [u]) t =
      countFromIn ve V t + ve.countP (fun r => decide (r.1.target = t ∧ r.1.source = u)) := by
  unfold countFromIn
  have hcongr : ve.countP (fun r => decide (r.1.target = t ∧ r.1.source ∈ V ++ [u])) =
      ve.countP (fun r => decide (r.1.target = t ∧ r.1.source ∈ V) ||
        decide (r.1.target = t ∧ r.1.source = u)) := by
    apply List.countP_congr
    intro r _
    by_cases h1 : r.1.target = t
    · by_cases h2 : r.1.source ∈ V
      · simp [h1, h2]
      · by_cases h3 : r.1.source = u
        · simp [h1, h2, h3]
        · simp [h1, h2, h3]
    · simp [h1]
  rw [hcongr]
  apply countP_add_of_exclusive
  intro r _
  intro ⟨ha, hb⟩
  simp only [decide_eq_true_eq] at ha hb
  exact hu (hb.2 ▸ ha.2)

theorem count_outgoing (ve : List (WGEdge × Nat)) (u t : String) :
    (outgoing ve u).count t = ve.countP (fun r => decide (r.1.target = t ∧ r.1.source = u)) := by
  unfold outgoing
  rw [List.count_eq_countP, List.countP_map, List.countP_filter]
  apply List.countP_congr
  intro r _
  by_cases h1 : r.1.target = t
  · by_cases h2 : r.1.source = u
    · simp [h1, h2, Function.comp]
    · simp [h1, h2, Function.comp]
  · simp [h1, Function.comp]

theorem mem_outgoing {ve : List (WGEdge × Nat)} {u t : String} (h : t ∈ outgoing ve u) :
    ∃ r ∈ ve, r.1.source = u ∧ r.1.target = t := by
  unfold outgoing at h
  rcases List.mem_map.mp h with ⟨r, hr, rfl⟩
  have := List.mem_filter.mp hr
  exact ⟨r, this.1, by simpa using this.2, rfl⟩

theorem S_in_lt_indeg (ve : List (WGEdge × Nat)) (S : List String)
    (hS : ∀ x ∈ S, ∃ y ∈ S, EdgeRelOf ve y x)
    (W : List String) (hWS : ∀ x ∈ W, x ∉ S) (t : String) (ht : t ∈ S) :
    countFromIn ve W t < indegree ve t := by
  have hex : ∀ r ∈ ve, ¬((decide (r.1.target = t ∧ r.1.source ∈ S)) = true ∧
      (decide (r.1.target = t ∧ r.1.source ∉ S)) = true) := by
    intro r _ h
    rcases h with ⟨h1, h2⟩
    simp only [decide_eq_true_eq] at h1 h2
    exact h2.2 h1.2
  have hco : indegree ve t = ve.countP (fun r =>
      decide (r.1.target = t ∧ r.1.source ∈ S) || decide (r.1.target = t ∧ r.1.source ∉ S)) := by
    unfold indegree
    apply List.countP_congr
    intro r _
    by_cases h1 : r.1.target = t
    · by_cases h2 : r.1.source ∈ S
      · simp [h1, h2]
      · simp [h1, h2]
    · simp [h1]
  have hsplit : indegree ve t =
      ve.countP (fun r => decide (r.1.target = t ∧ r.1.source ∈ S)) +
      ve.countP (fun r => decide (r.1.target = t ∧ r.1.source ∉ S)) :=
    hco.trans (countP_add_of_exclusive hex)
  have hW : countFromIn ve W t ≤
      ve.countP (fun r => decide (r.1.target = t ∧ r.1.source ∉ S)) := by
    unfold countFromIn
    apply List.countP_mono_left
    intro r _ hr
    simp only [decide_eq_true_eq] at hr ⊢
    exact ⟨hr.1, hWS _ hr.2⟩
  have hpos : 0 < ve.countP (fun r => decide (r.1.target = t ∧ r.1.source ∈ S)) := by
    rcases hS t ht with ⟨y, hy, r, hr, hsrc, htgt⟩
    rw [List.countP_pos_iff]
    exact ⟨r, hr, by simp [htgt, hsrc ▸ hy]⟩
  omega

theorem processOuts_spec (ve : List (WGEdge × Nat)) (ids S : List String)
    (hS : ∀ x ∈ S, ∃ y ∈ S, EdgeRelOf ve y x)
    (hveT : ∀ r ∈ ve, r.1.target ∈ ids)
    (u : String) (V : List String) (next0 : String → Int)
    (hnext0 : ∀ t, next0 t = (indegree ve t : Int) - countFromIn ve V t)
    (huV : u ∉ V) :
    ∀ (outs P q' : List String) (next' : String → Int),
      P ++ outs = outgoing ve u →
      (∀ t, next' t = next0 t - P.count t) →
      ((V ++ [u]) ++ q').Nodup →
      (∀ x ∈ (V ++ [u]) ++ q', x ∈ ids) →
      (∀ x ∈ (V ++ [u]) ++ q', x ∉ S) →
      (∀ x ∈ (V ++ [u]) ++ q', next' x ≤ 0) →
      (∀ t, (processOuts outs q' next').2 t = next0 t - (outgoing ve u).count t) ∧
      ((V ++ [u]) ++ (processOuts outs q' next').1).Nodup ∧
      (∀ x ∈ (V ++ [u]) ++ (processOuts outs q' next').1, x ∈ ids) ∧
      (∀ x ∈ (V ++ [u]) ++ (processOuts outs q' next').1, x ∉ S) ∧
      (∀ x ∈ (V ++ [u]) ++ (processOuts outs q' next').1,
        (processOuts outs q' next').2 x ≤ 0) := by
  intro outs
  induction outs with
  | nil =>
      intro P q' next' hsplit hnext' hnd hids hnS hnp
      have hP : P = outgoing ve u := by simpa using hsplit
      have hproc : processOuts [] q' next' = (q', next') := rfl
      rw [hproc]
      refine ⟨?_, hnd, hids, hnS, hnp⟩
      intro t
      show next' t = _
      rw [hnext' t, hP]
  | cons t outs' ih =>
      intro P q' next' hsplit hnext' hnd hids hnS hnp
      have hstep : processOuts (t :: outs') q' next' =
          processOuts outs' (if next' t - 1 = 0 then q' ++ [t] else q')
            (fun x => if x = t then next' t - 1 else next' x) := by
        unfold processOuts
        rw [List.foldl_cons]
      rw [hstep]
      have hsplit' : (P ++ [t]) ++ outs' = outgoing ve u := by
        rw [List.append_assoc]
        simpa using hsplit
      have hnext'' : ∀ x, (fun x => if x = t then next' t - 1 else next' x) x =
          next0 x - ((P ++ [t]).count x : Int) := by
        intro x
        by_cases hx : x = t
        · subst hx
          simp only [if_pos rfl]
          rw [hnext' x, List.count_append]
          simp
          ring
        · simp only [if_neg hx]
          rw [hnext' x, List.count_append]
          have : List.count x [t] = 0 := by
            simp [List.count_singleton]
            exact fun h => hx h.symm
          rw [this]
          simp
      have htin : t ∈ outgoing ve u := by
        rw [← hsplit]
        simp
      have htids : t ∈ ids := by
        rcases mem_outgoing htin with ⟨r, hr, -, htgt⟩
        exact htgt ▸ hveT r hr
      by_cases hv : next' t - 1 = 0
      · rw [if_pos hv]
        have htnew : t ∉ (V ++ [u]) ++ q' := by
          intro hmem
          have := hnp t hmem
          omega
        have htS : t ∉ S := by
          intro htS
          have hWS : ∀ x ∈ V ++ [u], x ∉ S := by
            intro x hx
            exact hnS x (List.mem_append_left q' hx)
          have hlt := S_in_lt_indeg ve S hS (V ++ [u]) hWS t htS
          rw [countFromIn_append_single ve V u t huV] at hlt
          have hcle : ((P ++ [t]).count t) ≤ (outgoing ve u).count t := by
            have hsub : (P ++ [t]).Sublist (outgoing ve u) := by
              rw [← hsplit']
              exact List.sublist_append_left _ _
            exact hsub.count_le t
          rw [count_outgoing] at hcle
          have hPt : (P ++ [t]).count t = P.count t + 1 := by
            rw [List.count_append]
            simp
          have hvv := hnext' t
          rw [hnext0 t] at hvv
          omega
        have hnd' : ((V ++ [u]) ++ (q' ++ [t])).Nodup := by
          rw [← List.append_assoc]
          rw [List.nodup_append]
          refine ⟨hnd, by simp, ?_⟩
          intro a ha hb
          simp only [List.mem_singleton] at hb
          subst hb
          exact htnew ha
        have hids' : ∀ x ∈ (V ++ [u]) ++ (q' ++ [t]), x ∈ ids := by
          intro x hx
          rw [← List.append_assoc] at hx
          rcases List.mem_append.mp hx with hx | hx
          · exact hids x hx
          · simp only [List.mem_singleton] at hx
            subst hx
            exact htids
        have hnS' : ∀ x ∈ (V ++ [u]) ++ (q' ++ [t]), x ∉ S := by
          intro x hx
          rw [← List.append_assoc] at hx
          rcases List.mem_append.mp hx with hx | hx
          · exact hnS x hx
          · simp only [List.mem_singleton] at hx
            subst hx
            exact htS
        have hnp' : ∀ x ∈ (V ++ [u]) ++ (q' ++ [t]),
            (fun x => if x = t then next' t - 1 else next' x) x ≤ 0 := by
          intro x hx
          dsimp only
          by_cases hxt : x = t
          · subst hxt
            simp only [if_pos rfl]
            exact le_of_eq hv
          · simp only [if_neg hxt]
            rw [← List.append_assoc] at hx
            rcases List.mem_append.mp hx with hx | hx
            · exact hnp x hx
            · simp only [List.mem_singleton] at hx
              exact absurd hx hxt
        exact ih (P ++ [t]) (q' ++ [t]) _ hsplit' hnext'' hnd' hids' hnS' hnp'
      · rw [if_neg hv]
        have hnp' : ∀ x ∈ (V ++ [u]) ++ q',
            (fun x => if x = t then next' t - 1 else next' x) x ≤ 0 := by
          intro x hx
          dsimp only
          by_cases hxt : x = t
          · subst hxt
            simp only [if_pos rfl]
            have := hnp x hx
            omega
          · simp only [if_neg hxt]
            exact hnp x hx
        exact ih (P ++ [t]) q' _ hsplit' hnext'' hnd hids hnS hnp'

theorem kahnRunG_spec (ve : List (WGEdge × Nat)) (ids S : List String)
    (hS : ∀ x ∈ S, ∃ y ∈ S, EdgeRelOf ve y x)
    (hveT : ∀ r ∈ ve, r.1.target ∈ ids) :
    ∀ (fuel : Nat) (V q : List String) (next : String → Int),
      (∀ t, next t = (indegree ve t : Int) - countFromIn ve V t) →
      (V ++ q).Nodup →
      (∀ x ∈ V ++ q, x ∈ ids) →
      (∀ x ∈ V ++ q, x ∉ S) →
      (∀ x ∈ V ++ q, next x ≤ 0) →
      (V ++ kahnRunG ve fuel q next).Nodup ∧
      (∀ x ∈ kahnRunG ve fuel q next, x ∈ ids) ∧
      (∀ x ∈ kahnRunG ve fuel q next, x ∉ S) := by
  intro fuel
  induction fuel with
  | zero =>
      intro V q next _ hnd _ _ _
      refine ⟨?_, ?_, ?_⟩
      · show (V ++ ([] : List String)).Nodup
        rw [List.append_nil]
        exact (List.sublist_append_left V q).nodup hnd
      · intro x hx
        cases hx
      · intro x hx
        cases hx
  | succ fuel ih =>
      intro V q next hnext hnd hids hnS hnp
      cases q with
      | nil =>
          refine ⟨?_, ?_, ?_⟩
          · show (V ++ ([] : List String)).Nodup
            rw [List.append_nil]
            simpa using hnd
          · intro x hx
            cases hx
          · intro x hx
            cases hx
      | cons id rest =>
          by_cases hid : id = ""
          · have hstep : kahnRunG ve (fuel + 1) (id :: rest) next = [] := by
              show (if id = "" then _ else _) = _
              rw [if_pos hid]
            rw [hstep]
            refine ⟨?_, ?_, ?_⟩
            · rw [List.append_nil]
              exact (List.sublist_append_left V (id :: rest)).nodup hnd
            · intro x hx
              cases hx
            · intro x hx
              cases hx
          · have hstep : kahnRunG ve (fuel + 1) (id :: rest) next =
                id :: kahnRunG ve fuel (processOuts (outgoing ve id) rest next).1
                  (processOuts (outgoing ve id) rest next).2 := by
              show (if id = "" then _ else _) = _
              rw [if_neg hid]
            have huV : id ∉ V := by
              intro hmem
              have hdisj := (List.nodup_append.mp hnd).2.2
              exact hdisj hmem (List.mem_cons_self id rest)
            have hnd' : ((V ++ [id]) ++ rest).Nodup := by
              rw [List.append_assoc]
              exact hnd
            have hids' : ∀ x ∈ (V ++ [id]) ++ rest, x ∈ ids := by
              intro x hx
              rw [List.append_assoc] at hx
              exact hids x hx
            have hnS' : ∀ x ∈ (V ++ [id]) ++ rest, x ∉ S := by
              intro x hx
              rw [List.append_assoc] at hx
              exact hnS x hx
            have hnp' : ∀ x ∈ (V ++ [id]) ++ rest, next x ≤ 0 := by
              intro x hx
              rw [List.append_assoc] at hx
              exact hnp x hx
            have hps := processOuts_spec ve ids S hS hveT id V next hnext huV
              (outgoing ve id) [] rest next (by simp) (by intro t; simp)
              hnd' hids' hnS' hnp'
            have hnextV : ∀ t, (processOuts (outgoing ve id) rest next).2 t =
                (indegree ve t : Int) - countFromIn ve (V ++ [id]) t := by
              intro t
              rw [hps.1 t, hnext t, countFromIn_append_single ve V id t huV,
                ← count_outgoing]
              push_cast
              ring
            have hrec := ih (V ++ [id]) (processOuts (outgoing ve id) rest next).1
              (processOuts (outgoing ve id) rest next).2 hnextV hps.2.1 hps.2.2.1
              hps.2.2.2.1 hps.2.2.2.2
            rw [hstep]
            refine ⟨?_, ?_, ?_⟩
            · have := hrec.1
              rw [List.append_assoc] at this
              exact this
            · intro x hx
              rcases List.mem_cons.mp hx with rfl | hx'
              · exact hids x (by simp)
              · exact hrec.2.1 x hx'
            · intro x hx
              rcases List.mem_cons.mp hx with rfl | hx'
              · exact hnS x (by simp)
              · exact hrec.2.2 x hx'

theorem chain_pred {α : Type} {R : α → α → Prop} :
    ∀ (l : List α) (a : α), List.Chain R a l → ∀ x ∈ l, ∃ y ∈ a :: l, R y x := by
  intro l
  induction l with
  | nil =>
      intro a _ x hx
      cases hx
  | cons b l' ih =>
      intro a hch x hx
      rcases List.chain_cons.mp hch with ⟨hab, hch'⟩
      rcases List.mem_cons.mp hx with rfl | hx'
      · exact ⟨a, List.mem_cons_self a _, hab⟩
      · rcases ih b hch' x hx' with ⟨y, hy, hR⟩
        exact ⟨y, List.mem_cons_of_mem a hy, hR⟩

theorem chain_closed {ve : List (WGEdge × Nat)} {v : String} {l : List String}
    (h : List.Chain (EdgeRelOf ve) v (l ++ [v])) :
    ∀ x ∈ v :: l, ∃ y ∈ v :: l, EdgeRelOf ve y x := by
  intro x hx
  have hx' : x ∈ l ++ [v] := by
    rcases List.mem_cons.mp hx with rfl | hx'
    · simp
    · exact List.mem_append_left _ hx'
  rcases chain_pred (l ++ [v]) v h x hx' with ⟨y, hy, hR⟩
  have hy' : y ∈ v :: l := by
    rcases List.mem_cons.mp hy with rfl | hy'
    · exact List.mem_cons_self _ _
    · rcases List.mem_append.mp hy' with h1 | h1
      · exact List.mem_cons_of_mem _ h1
      · simp only [List.mem_singleton] at h1
        subst h1
        exact List.mem_cons_self _ _
  exact ⟨y, hy', hR⟩

theorem kahn_misses_cycle (ve : List (WGEdge × Nat)) (ids : List String)
    (hidnd : ids.Nodup)
    (hveT : ∀ r ∈ ve, r.1.target ∈ ids)
    (hcyc : HasCycle ve) :
    kahnVisited ids ve < ids.length := by
  rcases hcyc with ⟨v, l, hch⟩
  have hS := chain_closed hch
  have h0 : kahnVisited ids ve = kahnRun ve (ids.length + 1)
      (ids.filter (fun id => indegree ve id = 0))
      (fun x => (indegree ve x : Int)) 0 := rfl
  rw [h0, kahnRun_eq_g]
  have hnext : ∀ t, (fun x => (indegree ve x : Int)) t =
      (indegree ve t : Int) - countFromIn ve [] t := by
    intro t
    rw [countFromIn_nil]
    simp
  have hnd : (([] : List String) ++ ids.filter (fun id => indegree ve id = 0)).Nodup := by
    simpa using hidnd.filter _
  have hmemq : ∀ x ∈ ([] : List String) ++ ids.filter (fun id => indegree ve id = 0),
      x ∈ ids ∧ indegree ve x = 0 := by
    intro x hx
    rw [List.nil_append, List.mem_filter] at hx
    exact ⟨hx.1, by simpa using hx.2⟩
  have hids : ∀ x ∈ ([] : List String) ++ ids.filter (fun id => indegree ve id = 0),
      x ∈ ids := fun x hx => (hmemq x hx).1
  have hnS : ∀ x ∈ ([] : List String) ++ ids.filter (fun id => indegree ve id = 0),
      x ∉ v :: l := by
    intro x hx hxS
    have hlt := S_in_lt_indeg ve (v :: l) hS [] (by intro a ha; cases ha) x hxS
    rw [countFromIn_nil] at hlt
    have := (hmemq x hx).2
    omega
  have hnp : ∀ x ∈ ([] : List String) ++ ids.filter (fun id => indegree ve id = 0),
      (fun x => (indegree ve x : Int)) x ≤ 0 := by
    intro x hx
    have := (hmemq x hx).2
    simp [this]
  have hspec := kahnRunG_spec ve ids (v :: l) hS hveT (ids.length + 1) []
    (ids.filter (fun id => indegree ve id = 0)) (fun x => (indegree ve x : Int))
    hnext hnd hids hnS hnp
  rcases hS v (List.mem_cons_self _ _) with ⟨y, hy, r, hr, hsrc, htgt⟩
  have hvids : v ∈ ids := htgt ▸ hveT r hr
  have hvW : v ∉ kahnRunG ve (ids.length + 1)
      (ids.filter (fun id => indegree ve id = 0)) (fun x => (indegree ve x : Int)) :=
    fun h => hspec.2.2 v h (List.mem_cons_self _ _)
  have hndW : (v :: kahnRunG ve (ids.length + 1)
      (ids.filter (fun id => indegree ve id = 0))
      (fun x => (indegree ve x : Int))).Nodup :=
    List.nodup_cons.mpr ⟨hvW, by simpa using hspec.1⟩
  have hsub : (v :: kahnRunG ve (ids.length + 1)
      (ids.filter (fun id => indegree ve id = 0))
      (fun x => (indegree ve x : Int))) ⊆ ids := by
    intro x hx
    rcases List.mem_cons.mp hx with rfl | hx'
    · exact hvids
    · exact hspec.2.1 x hx'
  have hle := (hndW.subperm hsub).length_le
  rw [List.length_cons] at hle
  omega

/-- C2: whenever the valid (endpoint-resolving) edges contain a directed
cycle, buildWorkflowGraphV11 returns graph = none and pushes the fatal
cycle error (the Kahn traversal visits fewer nodes than the node count);
consequently every successfully compiled graph is acyclic. -/
theorem claim_C2 (nodes : List WGNode) (edges : List WGEdge) :
    (HasCycle (validEdgesOf nodes edges) →
      (buildWorkflowGraphV11 nodes edges).graph = none ∧
      "检测到循环依赖：请移除环形连线后再生成 workflow.graph.json" ∈
        (buildWorkflowGraphV11 nodes edges).errors) ∧
    (∀ g, (buildWorkflowGraphV11 nodes edges).graph = some g →
      ¬ HasCycle (validEdgesOf nodes edges)) := by
  have key : HasCycle (validEdgesOf nodes edges) →
      cycleErrorsOf nodes edges =
        ["检测到循环依赖：请移除环形连线后再生成 workflow.graph.json"] ∧
      nodes.isEmpty = false := by
    intro hcyc
    obtain ⟨v, l, hch⟩ := hcyc
    have hS := chain_closed hch
    rcases hS v (List.mem_cons_self _ _) with ⟨y, hy, r, hr, hsrc, htgt⟩
    have hvids : v ∈ idsOf nodes := htgt ▸ (mem_validEdges hr).2.1
    have hveT : ∀ s ∈ validEdgesOf nodes edges, s.1.target ∈ idsOf nodes :=
      fun s hs => (mem_validEdges hs).2.1
    have hlt := kahn_misses_cycle (validEdgesOf nodes edges) (idsOf nodes)
      (nodesById_keys_nodup nodes) hveT ⟨v, l, hch⟩
    have hne : (validEdgesOf nodes edges).isEmpty = false := by
      cases hv : validEdgesOf nodes edges with
      | nil =>
          rw [hv] at hr
          exact absurd hr (List.not_mem_nil r)
      | cons a t => rfl
    have hnodes : nodes.isEmpty = false := by
      cases hno : nodes with
      | nil =>
          rw [hno] at hvids
          exact absurd hvids (List.not_mem_nil v)
      | cons n rest => rfl
    refine ⟨?_, hnodes⟩
    unfold cycleErrorsOf
    have h2 : kahnVisited (idsOf nodes) (validEdgesOf nodes edges) ≠
        (idsOf nodes).length := Nat.ne_of_lt hlt
    simp [hne, h2]
  constructor
  · intro hcyc
    obtain ⟨hcerr, hnodes⟩ := key hcyc
    have hmem : "检测到循环依赖：请移除环形连线后再生成 workflow.graph.json" ∈
        graphErrorsOf nodes edges := by
      unfold graphErrorsOf
      rw [hcerr]
      simp
    refine ⟨build_graph_none (List.ne_nil_of_mem hmem), ?_⟩
    rw [build_errors_eq hnodes]
    exact hmem
  · intro g hg hcyc
    obtain ⟨hcerr, _⟩ := key hcyc
    have hgerr := (build_success hg).2.1
    have hmem : "检测到循环依赖：请移除环形连线后再生成 workflow.graph.json" ∈
        graphErrorsOf nodes edges := by
      unfold graphErrorsOf
      rw [hcerr]
      simp
    rw [hgerr] at hmem
    exact List.not_mem_nil _ hmem

/-- Witness for C2 on Scenario D: the concrete cyclic input a -> b -> a
satisfies HasCycle and the compiler returns graph = none with the cycle
error. -/
theorem claim_C2_witness :
    HasCycle (validEdgesOf [exNodeA, exNodeB] exCycEdges) ∧
    (buildWorkflowGraphV11 [exNodeA, exNodeB] exCycEdges).graph = none ∧
    "检测到循环依赖：请移除环形连线后再生成 workflow.graph.json" ∈
      (buildWorkflowGraphV11 [exNodeA, exNodeB] exCycEdges).errors := by
  have hve : validEdgesOf [exNodeA, exNodeB] exCycEdges =
      [({ id? := some "e1", source := "a", target := "b" }, 0),
       ({ id? := some "e2", source := "b", target := "a" }, 1)] := rfl
  have hcyc : HasCycle (validEdgesOf [exNodeA, exNodeB] exCycEdges) := by
    refine ⟨"a", ["b"], ?_⟩
    show List.Chain _ "a" ["b", "a"]
    rw [List.chain_cons]
    refine ⟨⟨({ id? := some "e1", source := "a", target := "b" }, 0),
      by rw [hve]; exact List.mem_cons_self _ _, rfl, rfl⟩, ?_⟩
    rw [List.chain_cons]
    exact ⟨⟨({ id? := some "e2", source := "b", target := "a" }, 1),
      by rw [hve]; exact List.mem_cons_of_mem _ (List.mem_cons_self _ _), rfl, rfl⟩,
      List.Chain.nil⟩
  exact ⟨hcyc, (claim_C2 [exNodeA, exNodeB] exCycEdges).1 hcyc⟩

theorem dedup_err_len (ws : List WorkflowItem) :
    ∀ acc : List WorkflowItem × List String,
      acc.2.length ≤ (ws.foldl
        (fun acc w =>
          if (acc.1.map (fun x => x.id)).contains w.id then
            (acc.1, acc.2 ++ ["存在重复 workflowId：" ++ intToDec w.id])
          else (acc.1 ++ [w], acc.2)) acc).2.length := by
  induction ws with
  | nil => intro acc; simp
  | cons w ws ih =>
      intro acc
      rw [List.foldl_cons]
      refine le_trans ?_ (ih _)
      by_cases hc : ((acc.1.map (fun x => x.id)).contains w.id) = true
      · rw [if_pos hc]
        simp
      · rw [if_neg hc]

theorem dedup_no_dup {ws : List WorkflowItem}
    (h : (dedupWorkflows ws).2 = []) : (dedupWorkflows ws).1 = ws := by
  unfold dedupWorkflows at h ⊢
  suffices hs : ∀ (l : List WorkflowItem) (acc : List WorkflowItem × List String),
      (l.foldl
        (fun acc w =>
          if (acc.1.map (fun x => x.id)).contains w.id then
            (acc.1, acc.2 ++ ["存在重复 workflowId：" ++ intToDec w.id])
          else (acc.1 ++ [w], acc.2)) acc).2.length = acc.2.length →
      (l.foldl
        (fun acc w =>
          if (acc.1.map (fun x => x.id)).contains w.id then
            (acc.1, acc.2 ++ ["存在重复 workflowId：" ++ intToDec w.id])
          else (acc.1 ++ [w], acc.2)) acc).1 = acc.1 ++ l by
    have := hs ws ([], []) (by rw [h])
    simpa using this
  intro l
  induction l with
  | nil => intro acc _; simp
  | cons w ws ih =>
      intro acc hlen
      rw [List.foldl_cons] at hlen ⊢
      by_cases hc : ((acc.1.map (fun x => x.id)).contains w.id) = true
      · exfalso
        rw [if_pos hc] at hlen
        have := dedup_err_len ws (acc.1, acc.2 ++ ["存在重复 workflowId：" ++ intToDec w.id])
        rw [hlen] at this
        simp at this
      · rw [if_neg hc] at hlen ⊢
        rw [ih _ hlen]
        simp

theorem manifest_success_shape {pn : String} {ws : List WorkflowItem} {ca : String}
    {v? : Option String} {mf : BmadManifest}
    (hm : (buildBmadManifestV11 pn ws ca v?).manifest = some mf) :
    (dedupWorkflows ws).1 = ws ∧ sortByLe wfLe ws ≠ [] ∧
    ∃ w : WorkflowItem,
      mf.entry = { workflow := (buildWorkflowPaths (jsTrim (intToDec w.id))).1
                   graph := (buildWorkflowPaths (jsTrim (intToDec w.id))).2
                   agents := "agents.json"
                   assetsDir := some "assets/" } ∧
      (((sortByLe wfLe ((sortByLe wfLe ws).filter (fun x => x.isDefault = some true))).head? =
          some w ∧
        (buildBmadManifestV11 pn ws ca v?).warnings =
          (if jsTrim pn = "" then ["project.name 为空：已回退为 \"Untitled\""] else []) ++
          (if (sortByLe wfLe ((sortByLe wfLe ws).filter
              (fun x => x.isDefault = some true))).length > 1 then
            ["检测到多个 default workflow（已选择最小 id）：" ++
              joinSep ", " ((sortByLe wfLe ((sortByLe wfLe ws).filter
                (fun x => x.isDefault = some true))).map (fun d => intToDec d.id))]
          else []))
       ∨
       ((sortByLe wfLe ws).filter (fun x => x.isDefault = some true) = [] ∧
        (sortByLe wfLe ws).head? = some w ∧
        (buildBmadManifestV11 pn ws ca v?).warnings =
          (if jsTrim pn = "" then ["project.name 为空：已回退为 \"Untitled\""] else []) ++
          ["未设置默认 workflow：已选择 workflowId=" ++ intToDec w.id ++ " 作为入口"])) := by
  have hunfold : buildBmadManifestV11 pn ws ca v? = buildBmadManifestV11 pn ws ca v? := rfl
  conv_rhs at hunfold => simp only [buildBmadManifestV11]
  rw [hunfold] at hm
  split at hm
  next hE => exact absurd hm (by simp)
  next hE =>
  split at hm
  next hO => exact absurd hm (by simp)
  next hO =>
  split at hm
  next hinv => exact absurd hm (by simp)
  next hinv =>
  split at hm
  next hca => exact absurd hm (by simp)
  next hca =>
  split at hm
  next hver => exact absurd hm (by simp)
  next hver =>
  split at hm
  next hG => exact absurd hm (by simp)
  next hG =>
  push_neg at hG
  have hdup : (dedupWorkflows ws).2 = [] := by simpa using hG
  have hdd1 : (dedupWorkflows ws).1 = ws := dedup_no_dup hdup
  rw [hdd1] at hm hO hinv
  have hne : sortByLe wfLe ws ≠ [] := by
    intro hnil
    rw [hnil] at hO
    exact hO rfl
  refine ⟨hdd1, hne, ?_⟩
  have hwarn : (buildBmadManifestV11 pn ws ca v?).warnings =
      (if jsTrim pn = "" then ["project.name 为空：已回退为 \"Untitled\""] else []) ++
      (if (sortByLe wfLe ((sortByLe wfLe ws).filter
          (fun x => x.isDefault = some true))).length > 1 then
        ["检测到多个 default workflow（已选择最小 id）：" ++
          joinSep ", " ((sortByLe wfLe ((sortByLe wfLe ws).filter
            (fun x => x.isDefault = some true))).map (fun d => intToDec d.id))]
      else []) ++
      (match (sortByLe wfLe ((sortByLe wfLe ws).filter
          (fun x => x.isDefault = some true))).head? with
        | some w => (w, ([] : List String))
        | none =>
            match (sortByLe wfLe ws).head? with
            | some w =>
                (w, ["未设置默认 workflow：已选择 workflowId=" ++ intToDec w.id ++ " 作为入口"])
            | none =>
                (({ id := 0, name := "" } : WorkflowItem),
                  ["未设置默认 workflow：已选择 workflowId=unknown 作为入口"])).2 := by
    have hG2 : ¬((dedupWorkflows ws).2 ++ [] ++ [] ++ [] ≠ []) := by
      rw [hdup]
      simp
    rw [hunfold]
    rw [hdd1]
    rw [if_neg hE, if_neg hO, if_neg hinv, if_neg hca, if_neg hver, if_neg hG2]
  cases hd : (sortByLe wfLe ((sortByLe wfLe ws).filter
      (fun x => x.isDefault = some true))).head? with
  | some w =>
      rw [hd] at hm
      injection hm with hmf
      refine ⟨w, ?_, Or.inl ⟨rfl, ?_⟩⟩
      · rw [← hmf]
      · rw [hwarn, hd]
        exact List.append_nil _
  | none =>
      rw [hd] at hm
      cases hd2 : (sortByLe wfLe ws).head? with
      | none =>
          exact absurd (List.head?_eq_none_iff.mp hd2) hne
      | some w =>
          rw [hd2] at hm
          injection hm with hmf
          have hsnil : sortByLe wfLe ((sortByLe wfLe ws).filter
              (fun x => x.isDefault = some true)) = [] := List.head?_eq_none_iff.mp hd
          have hfilnil : (sortByLe wfLe ws).filter (fun x => x.isDefault = some true) = [] := by
            have hp := sortByLe_perm wfLe ((sortByLe wfLe ws).filter
              (fun x => x.isDefault = some true))
            rw [hsnil] at hp
            exact (hp.symm).eq_nil
          refine ⟨w, ?_, Or.inr ⟨hfilnil, rfl, ?_⟩⟩
          · rw [← hmf]
          · rw [hwarn, hd, hd2, hsnil]
            simp

theorem wfLe_trans : ∀ a b c : WorkflowItem,
    wfLe a b = true → wfLe b c = true → wfLe a c = true := by
  intro a b c h1 h2
  simp only [wfLe, decide_eq_true_eq] at *
  omega

theorem wfLe_total : ∀ a b : WorkflowItem, (wfLe a b || wfLe b a) = true := by
  intro a b
  simp only [wfLe, Bool.or_eq_true, decide_eq_true_eq]
  omega

theorem sorted_head_le (le : α → α → Bool)
    (htrans : ∀ a b c, le a b = true → le b c = true → le a c = true)
    (htot : ∀ a b, (le a b || le b a) = true)
    (l : List α) {h : α} (hh : (sortByLe le l).head? = some h) :
    ∀ x ∈ sortByLe le l, le h x = true := by
  have hp := sortByLe_pairwise le htrans htot l
  intro x hx
  cases hsl : sortByLe le l with
  | nil =>
      rw [hsl] at hh
      cases hh
  | cons a t =>
      rw [hsl] at hh hx hp
      injection hh with hh
      subst hh
      rcases List.mem_cons.mp hx with rfl | hx'
      · have hxx := htot x x
        rw [Bool.or_self] at hxx
        exact hxx
      · exact (List.pairwise_cons.mp hp).1 x hx'

/-- C7: package manifest entry selection in buildBmadManifestV11 --
exactly one workflow flagged isDefault becomes the entry with no warning
(beyond none: with a nonempty project name the warning list is empty);
multiple flagged produce the lowest-id flagged entry plus a warning; none
flagged produce the lowest-id workflow overall plus a warning. -/
theorem claim_C7 (projectName : String) (workflows : List WorkflowItem)
    (createdAt : String) (version? : Option String) (mf : BmadManifest)
    (hm : (buildBmadManifestV11 projectName workflows createdAt version?).manifest = some mf) :
    (∀ w, workflows.filter (fun x => x.isDefault = some true) = [w] →
      mf.entry = { workflow := (buildWorkflowPaths (jsTrim (intToDec w.id))).1
                   graph := (buildWorkflowPaths (jsTrim (intToDec w.id))).2
                   agents := "agents.json"
                   assetsDir := some "assets/" } ∧
      (jsTrim projectName ≠ "" →
        (buildBmadManifestV11 projectName workflows createdAt version?).warnings = [])) ∧
    (1 < (workflows.filter (fun x => x.isDefault = some true)).length →
      ∃ w ∈ workflows.filter (fun x => x.isDefault = some true),
        (∀ w' ∈ workflows.filter (fun x => x.isDefault = some true), w.id ≤ w'.id) ∧
        mf.entry = { workflow := (buildWorkflowPaths (jsTrim (intToDec w.id))).1
                     graph := (buildWorkflowPaths (jsTrim (intToDec w.id))).2
                     agents := "agents.json"
                     assetsDir := some "assets/" } ∧
        ("检测到多个 default workflow（已选择最小 id）：" ++
          joinSep ", " ((sortByLe wfLe ((sortByLe wfLe workflows).filter
            (fun x => x.isDefault = some true))).map (fun d => intToDec d.id))) ∈
          (buildBmadManifestV11 projectName workflows createdAt version?).warnings) ∧
    (workflows.filter (fun x => x.isDefault = some true) = [] →
      ∃ w ∈ workflows,
        (∀ w' ∈ workflows, w.id ≤ w'.id) ∧
        mf.entry = { workflow := (buildWorkflowPaths (jsTrim (intToDec w.id))).1
                     graph := (buildWorkflowPaths (jsTrim (intToDec w.id))).2
                     agents := "agents.json"
                     assetsDir := some "assets/" } ∧
        ("未设置默认 workflow：已选择 workflowId=" ++ intToDec w.id ++ " 作为入口") ∈
          (buildBmadManifestV11 projectName workflows createdAt version?).warnings) := by
  obtain ⟨hdd1, hne, w0, hent, hcase⟩ := manifest_success_shape hm
  have hpermS : (sortByLe wfLe workflows).Perm workflows := sortByLe_perm wfLe workflows
  have hpermF : ((sortByLe wfLe workflows).filter (fun x => x.isDefault = some true)).Perm
      (workflows.filter (fun x => x.isDefault = some true)) := hpermS.filter _
  have hpermD : (sortByLe wfLe ((sortByLe wfLe workflows).filter
      (fun x => x.isDefault = some true))).Perm
      (workflows.filter (fun x => x.isDefault = some true)) :=
    (sortByLe_perm wfLe _).trans hpermF
  refine ⟨?_, ?_, ?_⟩
  · intro w hw
    have hSF : (sortByLe wfLe workflows).filter (fun x => x.isDefault = some true) = [w] := by
      rw [hw] at hpermF
      exact List.perm_singleton.mp hpermF
    have hD : sortByLe wfLe ((sortByLe wfLe workflows).filter
        (fun x => x.isDefault = some true)) = [w] := by
      rw [hSF]
      rfl
    rcases hcase with ⟨hh, hwarn⟩ | ⟨hfn, _, _⟩
    · rw [hD] at hh
      injection hh with hh
      subst hh
      refine ⟨hent, ?_⟩
      intro hpn
      rw [hwarn, if_neg hpn, hD]
      simp
    · rw [hSF] at hfn
      cases hfn
  · intro hlen
    have hlenD : (sortByLe wfLe ((sortByLe wfLe workflows).filter
        (fun x => x.isDefault = some true))).length =
        (workflows.filter (fun x => x.isDefault = some true)).length := hpermD.length_eq
    rcases hcase with ⟨hh, hwarn⟩ | ⟨hfn, _, _⟩
    · have hw0D : w0 ∈ sortByLe wfLe ((sortByLe wfLe workflows).filter
          (fun x => x.isDefault = some true)) := by
        cases hDl : sortByLe wfLe ((sortByLe wfLe workflows).filter
            (fun x => x.isDefault = some true)) with
        | nil => rw [hDl] at hh; cases hh
        | cons a t =>
            rw [hDl] at hh
            injection hh with hh
            subst hh
            exact List.mem_cons_self _ _
      refine ⟨w0, hpermD.mem_iff.mp hw0D, ?_, hent, ?_⟩
      · intro w' hw'
        have hle := sorted_head_le wfLe wfLe_trans wfLe_total _ hh w' (hpermD.mem_iff.mpr hw')
        simpa [wfLe] using hle
      · rw [hwarn]
        have hgt : (sortByLe wfLe ((sortByLe wfLe workflows).filter
            (fun x => x.isDefault = some true))).length > 1 := by omega
        rw [if_pos hgt]
        simp
    · have : (workflows.filter (fun x => x.isDefault = some true)).length = 0 := by
        rw [← hpermF.length_eq, hfn]
        rfl
      omega
  · intro hFnil
    have hSFnil : (sortByLe wfLe workflows).filter (fun x => x.isDefault = some true) = [] := by
      rw [hFnil] at hpermF
      exact hpermF.eq_nil
    rcases hcase with ⟨hh, _⟩ | ⟨_, hh2, hwarn⟩
    · rw [hSFnil] at hh
      have hcon : (none : Option WorkflowItem) = some w0 := hh
      cases hcon
    · have hw0S : w0 ∈ sortByLe wfLe workflows := by
        cases hSl : sortByLe wfLe workflows with
        | nil => rw [hSl] at hh2; cases hh2
        | cons a t =>
            rw [hSl] at hh2
            injection hh2 with hh2
            subst hh2
            exact List.mem_cons_self _ _
      refine ⟨w0, hpermS.mem_iff.mp hw0S, ?_, hent, ?_⟩
      · intro w' hw'
        have hle := sorted_head_le wfLe wfLe_trans wfLe_total _ hh2 w' (hpermS.mem_iff.mpr hw')
        simpa [wfLe] using hle
      · rw [hwarn]
        simp

/-- Witness for C7: a concrete two-workflow input with exactly one
default; the entry is that workflow and no warnings are emitted. -/
theorem claim_C7_witness :
    ((buildBmadManifestV11 "P"
        [{ id := 2, name := "b", isDefault := some true }, { id := 1, name := "a" }]
        "2024-01-01" none).manifest.map (fun mf => mf.entry)) =
      some { workflow := "workflows/2/workflow.md", graph := "workflows/2/workflow.graph.json"
             agents := "agents.json", assetsDir := some "assets/" } ∧
    (buildBmadManifestV11 "P"
        [{ id := 2, name := "b", isDefault := some true }, { id := 1, name := "a" }]
        "2024-01-01" none).warnings = [] ∧
    [{ id := 2, name := "b", isDefault := some true },
      ({ id := 1, name := "a" } : WorkflowItem)].filter
        (fun x => x.isDefault = some true) = [{ id := 2, name := "b", isDefault := some true }] := by
  cases hmm : (buildBmadManifestV11 "P"
      [{ id := 2, name := "b", isDefault := some true }, { id := 1, name := "a" }]
      "2024-01-01" none).manifest with
  | none => exact absurd hmm (by decide)
  | some mfX =>
      have h := (claim_C7 "P"
        [{ id := 2, name := "b", isDefault := some true }, { id := 1, name := "a" }]
        "2024-01-01" none mfX hmm).1 { id := 2, name := "b", isDefault := some true } rfl
      refine ⟨?_, h.2 (by decide), rfl⟩
      rw [Option.map_some', h.1]
      rfl

/-- C8 (amended): full case analysis of parseYamlToObject over the
YAML.parse oracle -- empty or whitespace-only input yields data {} with no
error; a parser throw yields data null with the prefixed parse error; a
FALSY parse root (false, null, 0, empty string) yields data {} with no
error; a truthy mapping root yields its fields; a truthy non-mapping root
yields data null with the not-an-object error. -/
theorem claim_C8_thm (yparse : String → Except String JVal) (text : String) :
    (jsTrim text = "" →
      parseYamlToObject yparse text = { data := some [], error := none }) ∧
    (∀ msg, jsTrim text ≠ "" → yparse (jsTrim text) = .error msg →
      parseYamlToObject yparse text =
        { data := none, error := some ("frontmatter YAML 解析失败：" ++ msg) }) ∧
    (∀ v, jsTrim text ≠ "" → yparse (jsTrim text) = .ok v → jsTruthy v = false →
      parseYamlToObject yparse text = { data := some [], error := none }) ∧
    (∀ fields, jsTrim text ≠ "" → yparse (jsTrim text) = .ok (.obj fields) →
      parseYamlToObject yparse text = { data := some fields, error := none }) ∧
    (∀ v, jsTrim text ≠ "" → yparse (jsTrim text) = .ok v → jsTruthy v = true →
      (∀ fields, v ≠ .obj fields) →
      parseYamlToObject yparse text =
        { data := none, error := some "frontmatter 必须是 YAML object（key/value map）" }) := by
  refine ⟨?_, ?_, ?_, ?_, ?_⟩
  · intro h
    simp only [parseYamlToObject]
    rw [if_pos h]
  · intro msg hne hp
    simp only [parseYamlToObject]
    rw [if_neg hne, hp]
  · intro v hne hp hf
    simp only [parseYamlToObject]
    rw [if_neg hne, hp]
    simp [hf]
  · intro fields hne hp
    simp only [parseYamlToObject]
    rw [if_neg hne, hp]
    rfl
  · intro v hne hp ht hno
    simp only [parseYamlToObject]
    rw [if_neg hne, hp]
    cases v with
    | obj fields => exact absurd rfl (hno fields)
    | null => simp [jsTruthy] at ht
    | bool b => simp [ht]
    | num n => simp [ht]
    | str s => simp [ht]
    | arr l => simp [ht]

/-- Counterexample to C8 as stated: the input "false" has a non-mapping
YAML root, yet the result is data {} with error null, not the
FRONTMATTER_NOT_OBJECT error. -/
theorem claim_C8_counterexample :
    (∀ fields, JVal.bool false ≠ JVal.obj fields) ∧
    jsTrim "false" ≠ "" ∧
    parseYamlToObject (fun _ => Except.ok (JVal.bool false)) "false" =
      { data := some [], error := none } := by
  refine ⟨?_, by decide, rfl⟩
  intro fields h
  cases h

/-- Witness for C8: the whitespace-only case and the truthy non-mapping
case evaluated at a concrete oracle. -/
theorem claim_C8_witness :
    jsTrim "   " = "" ∧
    parseYamlToObject (fun _ => Except.ok (JVal.str "s")) "   " =
      { data := some [], error := none } ∧
    jsTrim "k" ≠ "" ∧
    jsTruthy (JVal.str "s") = true ∧
    parseYamlToObject (fun _ => Except.ok (JVal.str "s")) "k" =
      { data := none, error := some "frontmatter 必须是 YAML object（key/value map）" } :=
  ⟨rfl, (claim_C8_thm (fun _ => Except.ok (JVal.str "s")) "   ").1 rfl, by decide, rfl,
   (claim_C8_thm (fun _ => Except.ok (JVal.str "s")) "k").2.2.2.2 (JVal.str "s") (by decide)
     rfl rfl (fun fields h => by cases h)⟩

theorem processWorkflow_eq (jparse : String → Option JVal)
    (stringifyGraph : GraphOut → String) (agentIds : List String)
    (acc : WfAcc) (wf : WorkflowDetail) :
    processWorkflow jparse stringifyGraph agentIds acc wf =
      processWorkflowStaged jparse stringifyGraph agentIds acc wf := rfl

theorem foldl_snd_mono {β γ : Type}
    (f : List γ × List String → β → List γ × List String)
    (hmono : ∀ (st : List γ × List String) (b : β), ∀ x ∈ st.2, x ∈ (f st b).2) :
    ∀ (l : List β) (st : List γ × List String), ∀ x ∈ st.2, x ∈ (l.foldl f st).2 := by
  intro l
  induction l with
  | nil => intro st x hx; simpa using hx
  | cons c cs ih =>
      intro st x hx
      rw [List.foldl_cons]
      exact ih (f st c) x (hmono st c x hx)

theorem foldl_snd_mem {β γ : Type} (g : β → List String)
    (f : List γ × List String → β → List γ × List String)
    (hmono : ∀ (st : List γ × List String) (b : β), ∀ x ∈ st.2, x ∈ (f st b).2)
    (hf : ∀ (st : List γ × List String) (b : β), ∀ x ∈ g b, x ∈ (f st b).2) :
    ∀ (l : List β) (st : List γ × List String) (b : β), b ∈ l →
      ∀ x ∈ g b, x ∈ (l.foldl f st).2 := by
  intro l
  induction l with
  | nil => intro st b hb; cases hb
  | cons c cs ih =>
      intro st b hb x hx
      rw [List.foldl_cons]
      rcases List.mem_cons.mp hb with rfl | hb'
      · exact foldl_snd_mono f hmono cs (f st b) x (hf st b x hx)
      · exact ih (f st c) b hb' x hx

theorem spFoldOf_errors (wid : String) (sfn : List (String × String)) :
    ∀ acc : WfAcc, ((spFoldOf wid sfn acc).1).errors = acc.errors := by
  unfold spFoldOf
  suffices h : ∀ (l : List (String × String)) (st : WfAcc × List String),
      ((l.foldl (fun (st : WfAcc × List String) p =>
          ({ st.1 with
               files := upsert st.1.files ("workflows/" ++ wid ++ "/" ++ p.1) (.text p.2)
               filePaths := sadd st.1.filePaths ("workflows/" ++ wid ++ "/" ++ p.1) },
           sadd st.2 ("workflows/" ++ wid ++ "/" ++ p.1))) st).1).errors = st.1.errors by
    intro acc
    exact h sfn (acc, [])
  intro l
  induction l with
  | nil => intro st; rfl
  | cons c cs ih =>
      intro st
      rw [List.foldl_cons, ih]

theorem nrFoldOf_agent_mem (wl wid : String) (sfn : List (String × String))
    (sfp agentIds : List String) (ns : List OutNode) (node : OutNode)
    (hnode : node ∈ ns) (aid : String)
    (haid : jsTrim (node.agentId.getD "") = aid) (hane : aid ≠ "")
    (hmiss : agentIds.contains aid = false) :
    (wl ++ " 引用了不存在的 agentId：" ++ aid ++ "（nodeId=" ++ node.id ++ "）") ∈
      (nrFoldOf wl wid sfn sfp agentIds ns).2 := by
  unfold nrFoldOf
  refine foldl_snd_mem
    (fun node =>
      if jsTrim (node.agentId.getD "") ≠ "" &&
          !(agentIds.contains (jsTrim (node.agentId.getD ""))) then
        [wl ++ " 引用了不存在的 agentId：" ++ jsTrim (node.agentId.getD "") ++
          "（nodeId=" ++ node.id ++ "）"]
      else []) _ ?_ ?_ ns ([], []) node hnode _ ?_
  · intro st b x hx
    exact List.mem_append_left _ (List.mem_append_left _ hx)
  · intro st b x hx
    exact List.mem_append_right _ hx
  · dsimp only
    have hnm : aid ∉ agentIds := by simpa using hmiss
    rw [haid, if_pos (by simp [hane, hnm])]
    exact List.mem_singleton.mpr rfl

theorem pwCore_errors_mem (stringifyGraph : GraphOut → String) (agentIds : List String)
    (acc : WfAcc) (wf : WorkflowDetail) (stepFiles : List (String × String))
    (gnodes : List WGNode) (gedges : List WGEdge) {x : String} (hx : x ∈ acc.errors) :
    x ∈ (pwCore stringifyGraph agentIds acc wf stepFiles gnodes gedges).errors := by
  simp only [pwCore]
  split
  · rw [spFoldOf_errors]
    exact List.mem_append_left _ (List.mem_append_left _ hx)
  · rw [spFoldOf_errors]
    exact List.mem_append_left _ (List.mem_append_left _ hx)

theorem pwCore_agent_error (stringifyGraph : GraphOut → String) (agentIds : List String)
    (acc : WfAcc) (wf : WorkflowDetail) (stepFiles : List (String × String))
    (gnodes : List WGNode) (gedges : List WGEdge) (g : GraphOut) (node : OutNode)
    (aid : String)
    (hgb : (buildWorkflowGraphV11 gnodes gedges).graph = some g)
    (hnode : node ∈ g.nodes)
    (haid : jsTrim (node.agentId.getD "") = aid) (hane : aid ≠ "")
    (hmiss : agentIds.contains aid = false) :
    (wfLabel wf ++ " 引用了不存在的 agentId：" ++ aid ++ "（nodeId=" ++ node.id ++ "）") ∈
      (pwCore stringifyGraph agentIds acc wf stepFiles gnodes gedges).errors := by
  simp only [pwCore]
  simp only [hgb]
  exact List.mem_append_right _
    (nrFoldOf_agent_mem _ _ _ _ _ _ node hnode aid haid hane hmiss)

theorem processWorkflowStaged_errors_mem (jparse : String → Option JVal)
    (stringifyGraph : GraphOut → String) (agentIds : List String)
    (acc : WfAcc) (wf : WorkflowDetail) {x : String} (hx : x ∈ acc.errors) :
    x ∈ (processWorkflowStaged jparse stringifyGraph agentIds acc wf).errors := by
  simp only [processWorkflowStaged]
  split
  · exact List.mem_append_left _ hx
  · split
    · exact List.mem_append_left _ hx
    · split
      · exact pwCore_errors_mem _ _ _ _ _ _ _
          (List.mem_append_left _ (List.mem_append_left _ hx))
      · exact List.mem_append_left _ (List.mem_append_left _ hx)

theorem processWorkflowStaged_agent_error (jparse : String → Option JVal)
    (stringifyGraph : GraphOut → String) (agentIds : List String)
    (acc : WfAcc) (wf : WorkflowDetail) (stepFiles : List (String × String))
    (gnodes : List WGNode) (gedges : List WGEdge) (g : GraphOut) (node : OutNode)
    (aid : String)
    (hid : ¬(jsTrim (intToDec wf.id) = "" || !idPatternTest (jsTrim (intToDec wf.id))))
    (hmd : jsTrim wf.workflowMd ≠ "")
    (hsf : (parseStepFilesJson jparse wf.stepFilesJson (wfLabel wf)).1 = some stepFiles)
    (hgp : (parseBuilderGraphJson jparse wf.graphJson (wfLabel wf)).1 = some (gnodes, gedges))
    (hgb : (buildWorkflowGraphV11 gnodes gedges).graph = some g)
    (hnode : node ∈ g.nodes)
    (haid : jsTrim (node.agentId.getD "") = aid) (hane : aid ≠ "")
    (hmiss : agentIds.contains aid = false) :
    (wfLabel wf ++ " 引用了不存在的 agentId：" ++ aid ++ "（nodeId=" ++ node.id ++ "）") ∈
      (processWorkflowStaged jparse stringifyGraph agentIds acc wf).errors := by
  simp only [processWorkflowStaged]
  rw [if_neg hid, if_neg hmd]
  simp only [hsf, hgp]
  exact pwCore_agent_error _ _ _ _ _ _ _ _ node aid hgb hnode haid hane hmiss

theorem foldl_pw_errors_mem (jparse : String → Option JVal)
    (stringifyGraph : GraphOut → String) (agentIds : List String) :
    ∀ (l : List WorkflowDetail) (acc : WfAcc) (x : String), x ∈ acc.errors →
      x ∈ (l.foldl (processWorkflow jparse stringifyGraph agentIds) acc).errors := by
  intro l
  induction l with
  | nil => intro acc x hx; simpa using hx
  | cons c cs ih =>
      intro acc x hx
      rw [List.foldl_cons]
      refine ih _ x ?_
      rw [processWorkflow_eq]
      exact processWorkflowStaged_errors_mem _ _ _ _ _ hx

theorem foldl_pw_target (jparse : String → Option JVal)
    (stringifyGraph : GraphOut → String) (agentIds : List String)
    (l1 l2 : List WorkflowDetail) (wf : WorkflowDetail)
    (stepFiles : List (String × String)) (gnodes : List WGNode) (gedges : List WGEdge)
    (g : GraphOut) (node : OutNode) (aid : String)
    (hid : ¬(jsTrim (intToDec wf.id) = "" || !idPatternTest (jsTrim (intToDec wf.id))))
    (hmd : jsTrim wf.workflowMd ≠ "")
    (hsf : (parseStepFilesJson jparse wf.stepFilesJson (wfLabel wf)).1 = some stepFiles)
    (hgp : (parseBuilderGraphJson jparse wf.graphJson (wfLabel wf)).1 = some (gnodes, gedges))
    (hgb : (buildWorkflowGraphV11 gnodes gedges).graph = some g)
    (hnode : node ∈ g.nodes)
    (haid : jsTrim (node.agentId.getD "") = aid) (hane : aid ≠ "")
    (hmiss : agentIds.contains aid = false) :
    ∀ acc : WfAcc,
      (wfLabel wf ++ " 引用了不存在的 agentId：" ++ aid ++ "（nodeId=" ++ node.id ++ "）") ∈
        ((l1 ++ wf :: l2).foldl (processWorkflow jparse stringifyGraph agentIds) acc).errors := by
  intro acc
  rw [List.foldl_append, List.foldl_cons]
  refine foldl_pw_errors_mem _ _ _ l2 _ _ ?_
  rw [processWorkflow_eq]
  exact processWorkflowStaged_agent_error _ _ _ _ _ stepFiles _ _ _ node aid
    hid hmd hsf hgp hgb hnode haid hane hmiss

/-- C6: in the export assembler, a compiled node whose trimmed agentId is
non-empty and absent from the agent-id set collected from agents.json
produces the fatal error naming the agentId and node id, and the overall
result has filesByPath = none. -/
theorem claim_C6 (jparse : String → Option JVal) (stringifyGraph : GraphOut → String)
    (projectName bmadJson agentsJson : String) (workflows : List WorkflowDetail)
    (assets : Option (List (String × FileContent)))
    (bmadFields agentsFields : List (String × JVal))
    (entryPaths : String × String × String) (wf : WorkflowDetail)
    (stepFiles : List (String × String)) (gnodes : List WGNode) (gedges : List WGEdge)
    (g : GraphOut) (node : OutNode) (aid : String)
    (hbm : (parseJsonObject jparse bmadJson "bmad.json").1 = some bmadFields)
    (hag : (parseJsonObject jparse agentsJson "agents.json").1 = some agentsFields)
    (hep : (extractEntryPaths bmadFields).1 = some entryPaths)
    (hwf : wf ∈ workflows)
    (hid : ¬(jsTrim (intToDec wf.id) = "" || !idPatternTest (jsTrim (intToDec wf.id))))
    (hmd : jsTrim wf.workflowMd ≠ "")
    (hsf : (parseStepFilesJson jparse wf.stepFilesJson (wfLabel wf)).1 = some stepFiles)
    (hgp : (parseBuilderGraphJson jparse wf.graphJson (wfLabel wf)).1 = some (gnodes, gedges))
    (hgb : (buildWorkflowGraphV11 gnodes gedges).graph = some g)
    (hnode : node ∈ g.nodes)
    (haid : jsTrim (node.agentId.getD "") = aid) (hane : aid ≠ "")
    (hmiss : aid ∉ collectAgentIds agentsFields) :
    (wfLabel wf ++ " 引用了不存在的 agentId：" ++ aid ++ "（nodeId=" ++ node.id ++ "）") ∈
      (buildBmadExportFilesV11 jparse stringifyGraph projectName bmadJson agentsJson
        workflows assets).errors ∧
    (buildBmadExportFilesV11 jparse stringifyGraph projectName bmadJson agentsJson
        workflows assets).filesByPath = none := by
  have hwsne : workflows.isEmpty = false := by
    cases hws : workflows with
    | nil => rw [hws] at hwf; cases hwf
    | cons a t => rfl
  have hmiss' : (collectAgentIds agentsFields).contains aid = false := by
    simpa using hmiss
  obtain ⟨l1, l2, rfl⟩ := List.append_of_mem hwf
  simp only [buildBmadExportFilesV11]
  simp only [hbm, hag, hep]
  rw [if_neg (by simp [hwsne])]
  split
  next hcond =>
    exact ⟨foldl_pw_target jparse stringifyGraph _ l1 l2 wf stepFiles gnodes gedges g
      node aid hid hmd hsf hgp hgb hnode haid hane hmiss' _, rfl⟩
  next hcond =>
    exfalso
    apply hcond
    exact List.ne_nil_of_mem (foldl_pw_target jparse stringifyGraph _ l1 l2 wf stepFiles
      gnodes gedges g node aid hid hmd hsf hgp hgb hnode haid hane hmiss' _)

/-- Witness for C6 on Scenario E: a bundle whose graph references
agentId ghost absent from agents.json fails with the error naming ghost
and the node id, and filesByPath is none. -/
theorem claim_C6_witness :
    "ghost" ∉ collectAgentIds [("agents", .arr [.obj [("id", .str "a1")]])] ∧
    "workflow(wf,ID:1) 引用了不存在的 agentId：ghost（nodeId=n1）" ∈
      (buildBmadExportFilesV11 exJparse (fun _ => "G") "proj" "BM" "AG"
        [exWfDetail] none).errors ∧
    (buildBmadExportFilesV11 exJparse (fun _ => "G") "proj" "BM" "AG"
        [exWfDetail] none).filesByPath = none := by
  have h := claim_C6 exJparse (fun _ => "G") "proj" "BM" "AG" [exWfDetail] none
    [("entry", .obj [("workflow", .str "workflows/1/workflow.md"),
      ("graph", .str "workflows/1/workflow.graph.json"),
      ("agents", .str "agents.json")])]
    [("agents", .arr [.obj [("id", .str "a1")]])]
    ("workflows/1/workflow.md", "workflows/1/workflow.graph.json", "agents.json")
    exWfDetail [("steps/n1.md", "content")]
    [{ id := "n1", agentId? := some (.str "ghost") }] []
    exGhostGraph exGhostNode "ghost"
    rfl rfl rfl (List.mem_singleton.mpr rfl) (by decide) (by decide)
    rfl rfl rfl (List.mem_singleton.mpr rfl) rfl (by decide) (by decide)
  exact ⟨by decide, h.1, h.2⟩

theorem parseJsonObject_none_iff (jparse : String → Option JVal) (raw label : String) :
    (parseJsonObject jparse raw label).1 = none ↔ (parseJsonObject jparse raw label).2 ≠ [] := by
  simp only [parseJsonObject]
  split
  · simp
  · split
    · simp
    · split
      · simp
      · simp

theorem extractEntryPaths_none_iff (bmadFields : List (String × JVal)) :
    (extractEntryPaths bmadFields).1 = none ↔ (extractEntryPaths bmadFields).2 ≠ [] := by
  simp only [extractEntryPaths]
  split
  · split
    · simp
    · simp
  · simp

theorem allOrNothing_agents (ajv : AgentsManifestOut → Bool × List String)
    (jparse : String → Option JVal) (now : Nat) (raw : String)
    (hajv : ∀ m, (ajv m).1 = false → (ajv m).2 ≠ []) :
    (buildAgentsManifestV11 ajv jparse now raw).manifest = none ↔
      (buildAgentsManifestV11 ajv jparse now raw).errors ≠ [] := by
  simp only [buildAgentsManifestV11]
  split
  · exact iff_of_true rfl (by simp)
  · split
    · exact iff_of_true rfl (by simp)
    · split
      next hemp =>
        split
        next hg => exact iff_of_true rfl hg
        next hg =>
          have h2 := (List.append_eq_nil.mp (not_not.mp hg)).2
          simp at h2
      next hemp =>
        split
        next hg => exact iff_of_true rfl hg
        next hg =>
          split
          next hv =>
            rw [Bool.not_eq_true'] at hv
            exact iff_of_true rfl (hajv _ hv)
          next hv =>
            exact iff_of_false (by simp) hg

theorem allOrNothing_graph (nodes : List WGNode) (edges : List WGEdge) :
    (buildWorkflowGraphV11 nodes edges).graph = none ↔
      (buildWorkflowGraphV11 nodes edges).errors ≠ [] := by
  unfold buildWorkflowGraphV11
  split_ifs with h1 h2
  · exact iff_of_true rfl (by simp)
  · exact iff_of_true rfl h2
  · exact iff_of_false (by simp) (not_not.mpr (not_not.mp h2))

theorem allOrNothing_manifest (pn : String) (ws : List WorkflowItem) (ca : String)
    (v? : Option String) :
    (buildBmadManifestV11 pn ws ca v?).manifest = none ↔
      (buildBmadManifestV11 pn ws ca v?).errors ≠ [] := by
  simp only [buildBmadManifestV11]
  split
  · exact iff_of_true rfl (by simp)
  · split
    · exact iff_of_true rfl (by simp)
    · split <;> split <;> split <;> split <;>
        first
        | exact iff_of_true rfl (by assumption)
        | exact iff_of_false (by simp) (by assumption)

theorem allOrNothing_export (jparse : String → Option JVal) (sg : GraphOut → String)
    (pn bm ag : String) (ws : List WorkflowDetail)
    (assets : Option (List (String × FileContent))) :
    (buildBmadExportFilesV11 jparse sg pn bm ag ws assets).filesByPath = none ↔
      (buildBmadExportFilesV11 jparse sg pn bm ag ws assets).errors ≠ [] := by
  simp only [buildBmadExportFilesV11]
  split
  next bf af heq1 heq2 =>
    split
    next heq3 =>
      refine iff_of_true rfl ?_
      have h3 := (extractEntryPaths_none_iff bf).mp heq3
      intro hnil
      exact h3 (List.append_eq_nil.mp hnil).2
    next ep heq3 =>
      split
      next hws => exact iff_of_true rfl (by simp)
      next hws =>
        split
        next hg => exact iff_of_true rfl hg
        next hg =>
          split
          next hf => exact iff_of_true rfl hf
          next hf => exact iff_of_false (by simp) hf
  next v1 v2 hno =>
    refine iff_of_true rfl ?_
    intro hnil
    obtain ⟨ha, hb⟩ := List.append_eq_nil.mp hnil
    cases hopt1 : (parseJsonObject jparse bm "bmad.json").1 with
    | none => exact ((parseJsonObject_none_iff jparse bm "bmad.json").mp hopt1) ha
    | some f1 =>
        cases hopt2 : (parseJsonObject jparse ag "agents.json").1 with
        | none => exact ((parseJsonObject_none_iff jparse ag "agents.json").mp hopt2) hb
        | some f2 => exact hno f1 f2 hopt1 hopt2

/-- C3: all-or-nothing for the four builders -- the result field is null
exactly when the errors list is non-empty (for the agents builder under
the Ajv oracle contract that a failed validation reports at least one
formatted error). -/
theorem claim_C3 :
    (∀ (nodes : List WGNode) (edges : List WGEdge),
      (buildWorkflowGraphV11 nodes edges).graph = none ↔
        (buildWorkflowGraphV11 nodes edges).errors ≠ []) ∧
    (∀ (ajv : AgentsManifestOut → Bool × List String) (jparse : String → Option JVal)
        (now : Nat) (raw : String),
      (∀ m, (ajv m).1 = false → (ajv m).2 ≠ []) →
      ((buildAgentsManifestV11 ajv jparse now raw).manifest = none ↔
        (buildAgentsManifestV11 ajv jparse now raw).errors ≠ [])) ∧
    (∀ (pn : String) (ws : List WorkflowItem) (ca : String) (v? : Option String),
      (buildBmadManifestV11 pn ws ca v?).manifest = none ↔
        (buildBmadManifestV11 pn ws ca v?).errors ≠ []) ∧
    (∀ (jparse : String → Option JVal) (sg : GraphOut → String)
        (pn bm ag : String) (ws : List WorkflowDetail)
        (assets : Option (List (String × FileContent))),
      (buildBmadExportFilesV11 jparse sg pn bm ag ws assets).filesByPath = none ↔
        (buildBmadExportFilesV11 jparse sg pn bm ag ws assets).errors ≠ []) := by
  refine ⟨allOrNothing_graph, ?_, allOrNothing_manifest, allOrNothing_export⟩
  intro ajv jparse now raw hajv
  exact allOrNothing_agents ajv jparse now raw hajv

/-- Witness for C3 at concrete inputs: the single-node graph build and an
unparsable agents input, with a total Ajv oracle discharging the
validation contract. -/
theorem claim_C3_witness :
    ((buildWorkflowGraphV11 [exNodeA] []).graph = none ↔
      (buildWorkflowGraphV11 [exNodeA] []).errors ≠ []) ∧
    ((buildAgentsManifestV11 (fun _ => (true, [])) (fun _ => none) 0 "x").manifest = none ↔
      (buildAgentsManifestV11 (fun _ => (true, [])) (fun _ => none) 0 "x").errors ≠ []) := by
  refine ⟨claim_C3.1 [exNodeA] [], ?_⟩
  refine claim_C3.2.1 (fun _ => (true, [])) (fun _ => none) 0 "x" ?_
  intro m hm
  simp at hm

theorem decChar_toNat {d : Nat} (h : d < 10) : (decChar d).toNat - 48 = d := by
  interval_cases d <;> rfl

theorem decDigitsSpec_ne_nil (n : Nat) : decDigitsSpec n ≠ [] := by
  unfold decDigitsSpec
  split
  · simp
  · simp

theorem decValFrom_append (a : Nat) (l1 l2 : List Char) :
    decValFrom a (l1 ++ l2) = decValFrom (decValFrom a l1) l2 := by
  unfold decValFrom
  rw [List.foldl_append]

theorem decValFrom_decDigitsSpec (n : Nat) :
    ∀ a, decValFrom a (decDigitsSpec n) = a * 10 ^ (decDigitsSpec n).length + n := by
  induction n using Nat.strong_induction_on with
  | _ n ih =>
      intro a
      unfold decDigitsSpec
      split
      next h =>
        simp only [decValFrom, List.foldl_cons, List.foldl_nil, List.length_cons,
          List.length_nil]
        rw [decChar_toNat h]
        ring
      next h =>
        push_neg at h
        have hd : n / 10 < n := Nat.div_lt_self (by omega) (by omega)
        rw [decValFrom_append, ih (n / 10) hd a]
        simp only [decValFrom, List.foldl_cons, List.foldl_nil, List.length_append,
          List.length_cons, List.length_nil]
        rw [decChar_toNat (Nat.mod_lt n (by omega))]
        have : 10 * (n / 10) + n % 10 = n := Nat.div_add_mod n 10
        ring_nf
        omega

theorem natToDecCore_eq : ∀ (fuel n : Nat) (acc : List Char), n < fuel →
    natToDecCore fuel n acc = decDigitsSpec n ++ acc := by
  intro fuel
  induction fuel with
  | zero => intro n acc h; omega
  | succ fuel ih =>
      intro n acc h
      unfold natToDecCore
      by_cases hq : n / 10 = 0
      · rw [if_pos hq]
        have hn : n < 10 := by omega
        rw [show decDigitsSpec n = [decChar n] from by unfold decDigitsSpec; rw [if_pos hn]]
        have : n % 10 = n := Nat.mod_eq_of_lt hn
        rw [this]
        rfl
      · rw [if_neg hq]
        have hnge : ¬(n < 10) := by
          intro hc
          exact hq (Nat.div_eq_of_lt hc)
        have hlt : n / 10 < fuel := by
          have := Nat.div_lt_self (n := n) (by omega) (by omega : 1 < 10)
          omega
        rw [ih (n / 10) (decChar (n % 10) :: acc) hlt]
        rw [show decDigitsSpec n = decDigitsSpec (n / 10) ++ [decChar (n % 10)] from by
          conv_lhs => unfold decDigitsSpec
          rw [if_neg hnge]]
        simp

theorem natToDecChars_eq (n : Nat) : natToDecChars n = decDigitsSpec n := by
  unfold natToDecChars
  rw [natToDecCore_eq (n + 1) n [] (by omega)]
  simp

theorem natToDec_inj {m n : Nat} (h : natToDec m = natToDec n) : m = n := by
  unfold natToDec at h
  have hdata : natToDecChars m = natToDecChars n := congrArg String.data h
  rw [natToDecChars_eq, natToDecChars_eq] at hdata
  have h1 := decValFrom_decDigitsSpec m 0
  have h2 := decValFrom_decDigitsSpec n 0
  rw [hdata] at h1
  rw [h1] at h2
  omega

theorem natToDecChars_ne_nil (n : Nat) : natToDecChars n ≠ [] := by
  rw [natToDecChars_eq]
  exact decDigitsSpec_ne_nil n

theorem sufId_inj {base : String} {i j : Nat}
    (h : base ++ "-" ++ natToDec i = base ++ "-" ++ natToDec j) : i = j := by
  apply natToDec_inj
  have hdata := congrArg String.data h
  simp only [String.data_append, List.append_assoc] at hdata
  have := List.append_cancel_left hdata
  have := List.append_cancel_left this
  exact String.ext this

theorem base_ne_sufId (base : String) (i : Nat) :
    base ≠ base ++ "-" ++ natToDec i := by
  intro h
  have hdata := congrArg (fun s : String => s.data.length) h
  simp only [String.data_append, List.length_append] at hdata
  have hne := natToDecChars_ne_nil i
  have : (natToDec i).data.length ≠ 0 := by
    intro h0
    exact hne (List.eq_nil_of_length_eq_zero h0)
  have hdash : ("-" : String).data.length = 1 := rfl
  omega

theorem uint32_le_iff (a b : UInt32) : a ≤ b ↔ a.toNat ≤ b.toNat := by
  rw [UInt32.le_def, BitVec.le_def]
  rfl

theorem lower_isAlpha {c : Char} (h : (97 ≤ c.toNat && c.toNat ≤ 122) = true) :
    c.isAlpha = true := by
  simp only [Bool.and_eq_true, decide_eq_true_eq] at h
  simp only [Char.isAlpha, Char.isLower, Char.isUpper, Bool.or_eq_true, Bool.and_eq_true,
    decide_eq_true_eq]
  right
  exact ⟨(uint32_le_iff 97 c.val).mpr h.1, (uint32_le_iff c.val 122).mpr h.2⟩

theorem slugStart_idStart {c : Char} (h : isSlugStartChar c = true) :
    isIdStartChar c = true := by
  unfold isSlugStartChar at h
  unfold isIdStartChar
  rcases Bool.or_eq_true _ _ |>.mp h with h1 | h1
  · exact Bool.or_eq_true _ _ |>.mpr (Or.inl (lower_isAlpha h1))
  · exact Bool.or_eq_true _ _ |>.mpr (Or.inr h1)

theorem slugChar_idChar {c : Char} (h : isSlugChar c = true) : isIdChar c = true := by
  unfold isSlugChar at h
  unfold isIdChar
  rcases Bool.or_eq_true _ _ |>.mp h with h1 | h1
  · rcases Bool.or_eq_true _ _ |>.mp h1 with h2 | h2
    · rcases Bool.or_eq_true _ _ |>.mp h2 with h3 | h3
      · rcases Bool.or_eq_true _ _ |>.mp h3 with h4 | h4
        · rcases Bool.or_eq_true _ _ |>.mp h4 with h5 | h5
          · simp [lower_isAlpha h5]
          · simp [h5]
        · simp [h4]
      · simp [h3]
    · simp [h2]
  · simp [h1]

theorem decChar_isDigit (d : Nat) : (decChar d).isDigit = true := by
  unfold decChar
  split <;> decide

theorem decDigitsSpec_digits (n : Nat) : ∀ c ∈ decDigitsSpec n, c.isDigit = true := by
  induction n using Nat.strong_induction_on with
  | _ n ih =>
      intro c hc
      unfold decDigitsSpec at hc
      split at hc
      · simp only [List.mem_singleton] at hc
        subst hc
        exact decChar_isDigit n
      next h =>
        rcases List.mem_append.mp hc with h1 | h1
        · exact ih (n / 10) (Nat.div_lt_self (by omega) (by omega)) c h1
        · simp only [List.mem_singleton] at h1
          subst h1
          exact decChar_isDigit (n % 10)

theorem digit_idChar {c : Char} (h : c.isDigit = true) : isIdChar c = true := by
  unfold isIdChar
  simp [h]

theorem replaceRunsGo_mem (bad : Char → Bool) (rep : Char) :
    ∀ (b : Bool) (cs : List Char), ∀ c ∈ replaceRunsGo bad rep b cs,
      c = rep ∨ (bad c = false ∧ c ∈ cs) := by
  intro b cs
  induction cs generalizing b with
  | nil => intro c hc; cases hc
  | cons c0 rest ih =>
      intro c hc
      unfold replaceRunsGo at hc
      by_cases hb : bad c0 = true
      · rw [if_pos hb] at hc
        by_cases hin : b = true
        · rw [if_pos hin] at hc
          rcases ih true c hc with h1 | h1
          · exact Or.inl h1
          · exact Or.inr ⟨h1.1, List.mem_cons_of_mem _ h1.2⟩
        · rw [if_neg hin] at hc
          rcases List.mem_cons.mp hc with rfl | hc'
          · exact Or.inl rfl
          · rcases ih true c hc' with h1 | h1
            · exact Or.inl h1
            · exact Or.inr ⟨h1.1, List.mem_cons_of_mem _ h1.2⟩
      · rw [if_neg hb] at hc
        rcases List.mem_cons.mp hc with rfl | hc'
        · exact Or.inr ⟨by simpa using hb, List.mem_cons_self _ _⟩
        · rcases ih false c hc' with h1 | h1
          · exact Or.inl h1
          · exact Or.inr ⟨h1.1, List.mem_cons_of_mem _ h1.2⟩

theorem stripDashes_mem {cs : List Char} {c : Char} (h : c ∈ stripDashes cs) : c ∈ cs := by
  unfold stripDashes at h
  rw [List.mem_reverse] at h
  have h1 := (List.dropWhile_sublist _).mem h
  rw [List.mem_reverse] at h1
  exact (List.dropWhile_sublist _).mem h1

theorem cleaned_chars (l : List Char) :
    ∀ c ∈ stripDashes (collapseDashes (replaceRuns (fun c => !isSlugChar c) '-' l)),
      isIdChar c = true := by
  intro c hc
  have h1 := stripDashes_mem hc
  unfold collapseDashes replaceRuns at h1
  rcases replaceRunsGo_mem _ '-' false _ c h1 with h2 | h2
  · subst h2
    decide
  · rcases replaceRunsGo_mem _ '-' false _ c h2.2 with h3 | h3
    · subst h3
      decide
    · have h4 : isSlugChar c = true := by
        have h5 := h3.1
        simp only at h5
        rwa [Bool.not_eq_false'] at h5
      exact slugChar_idChar h4

theorem slug_valid (x : String) : isValidAgentId (slugifyAgentId x) = true := by
  unfold isValidAgentId
  simp only [slugifyAgentId]
  cases hcl : stripDashes (collapseDashes (replaceRuns (fun c => !isSlugChar c) '-'
      (jsToLower (jsTrim x)).data)) with
  | nil => decide
  | cons c cs =>
      rw [if_neg (by simp)]
      by_cases hs : isSlugStartChar c = true
      · rw [if_pos (show (match c :: cs with | c :: _ => isSlugStartChar c | [] => false) =
            true from hs)]
        unfold idPatternTest
        show (isIdStartChar c && cs.all isIdChar) = true
        rw [Bool.and_eq_true]
        refine ⟨slugStart_idStart hs, ?_⟩
        rw [List.all_eq_true]
        intro c' hc'
        exact cleaned_chars _ c' (by rw [hcl]; exact List.mem_cons_of_mem _ hc')
      · rw [if_neg (show ¬((match c :: cs with | c :: _ => isSlugStartChar c | [] => false) =
            true) from hs)]
        unfold idPatternTest
        show (isIdStartChar 'a' && (['g', 'e', 'n', 't', '-'] ++ c :: cs).all isIdChar) = true
        rw [Bool.and_eq_true]
        refine ⟨by decide, ?_⟩
        rw [List.all_eq_true]
        intro c' hc'
        rcases List.mem_append.mp hc' with h1 | h1
        · simp only [List.mem_cons, List.not_mem_nil, or_false] at h1
          rcases h1 with rfl | rfl | rfl | rfl | rfl <;> decide
        · exact cleaned_chars _ c' (by rw [hcl]; exact h1)

theorem valid_append_suffix {s : String} (h : isValidAgentId s = true) (k : Nat) :
    isValidAgentId (s ++ "-" ++ natToDec k) = true := by
  unfold isValidAgentId idPatternTest at h ⊢
  cases hd : s.data with
  | nil =>
      rw [hd] at h
      simp at h
  | cons c cs =>
      rw [hd] at h
      have h' : (isIdStartChar c && cs.all isIdChar) = true := h
      have hdata : (s ++ "-" ++ natToDec k).data = c :: (cs ++ '-' :: natToDecChars k) := by
        simp only [String.data_append, hd]
        simp [natToDec]
      rw [hdata]
      show (isIdStartChar c && (cs ++ '-' :: natToDecChars k).all isIdChar) = true
      rw [Bool.and_eq_true] at h' ⊢
      refine ⟨h'.1, ?_⟩
      rw [List.all_eq_true]
      intro c' hc'
      rcases List.mem_append.mp hc' with h1 | h1
      · exact (List.all_eq_true.mp h'.2) c' h1
      · rcases List.mem_cons.mp h1 with rfl | h2
        · decide
        · refine digit_idChar ?_
          rw [natToDecChars_eq] at h2
          exact decDigitsSpec_digits k c' h2

theorem uniqueAgentId_valid (now : Nat) (b : String) (S : List String) :
    isValidAgentId (uniqueAgentId now b S) = true := by
  simp only [uniqueAgentId]
  split
  · exact slug_valid b
  · split
    next i heq => exact valid_append_suffix (slug_valid b) i
    next heq => exact valid_append_suffix (slug_valid b) now

theorem uniqueAgentId_not_mem (now : Nat) (b : String) (S : List String)
    (hlen : S.length < 999) : uniqueAgentId now b S ∉ S := by
  simp only [uniqueAgentId]
  split
  next h =>
    intro hmem
    simp [hmem] at h
  next h =>
    split
    next i heq =>
      intro hmem
      have hp := List.find?_some heq
      simp [hmem] at hp
    next heq =>
      exfalso
      rw [List.find?_eq_none] at heq
      have hbase : slugifyAgentId b ∈ S := by simpa using h
      have hsub : ∀ i ∈ List.range' 2 998, slugifyAgentId b ++ "-" ++ natToDec i ∈ S := by
        intro i hi
        have h2 := heq _ hi
        simpa using h2
      have hnd : (slugifyAgentId b :: (List.range' 2 998).map
          (fun i => slugifyAgentId b ++ "-" ++ natToDec i)).Nodup := by
        rw [List.nodup_cons]
        constructor
        · intro hmem
          rcases List.mem_map.mp hmem with ⟨i, _, hi⟩
          exact base_ne_sufId _ i hi.symm
        · refine List.Nodup.map_on ?_ (List.nodup_range' _ _)
          intro i _ j _ hij
          exact sufId_inj hij
      have hsubset : (slugifyAgentId b :: (List.range' 2 998).map
          (fun i => slugifyAgentId b ++ "-" ++ natToDec i)) ⊆ S := by
        intro y hy
        rcases List.mem_cons.mp hy with rfl | hy'
        · exact hbase
        · rcases List.mem_map.mp hy' with ⟨i, hi, rfl⟩
          exact hsub i hi
      have hle := (hnd.subperm hsubset).length_le
      simp at hle
      omega

theorem sadd_eq_append {S : List String} {x : String} (h : x ∉ S) : sadd S x = S ++ [x] := by
  unfold sadd
  rw [if_neg (by simpa using h)]

theorem legacy_fold_inv (now : Nat) :
    ∀ (l : List JVal) (A : List AgentOut) (S : List String),
      (A.map (fun a => a.id)).Nodup → (∀ a ∈ A, a.id ∈ S) →
      S.length + l.length ≤ 999 →
      (((l.foldl (legacyStep now) (A, S)).1).map (fun a => a.id)).Nodup ∧
      (∀ a ∈ (l.foldl (legacyStep now) (A, S)).1,
        a.id ∈ (l.foldl (legacyStep now) (A, S)).2) := by
  intro l
  induction l with
  | nil =>
      intro A S h1 h2 _
      exact ⟨h1, h2⟩
  | cons it rest ih =>
      intro A S h1 h2 h3
      rw [List.foldl_cons]
      have h3' : S.length + rest.length ≤ 999 := by
        simp only [List.length_cons] at h3
        omega
      cases it with
      | obj fields =>
          simp only [legacyStep]
          split
          next hn => exact ih A S h1 h2 h3'
          next hn =>
            have hlen : S.length < 999 := by
              simp only [List.length_cons] at h3
              omega
            have hnot := uniqueAgentId_not_mem now
              (normalizeString (jget fields "name")) S hlen
            refine ih _ _ ?_ ?_ ?_
            · rw [List.map_append]
              rw [List.nodup_append]
              refine ⟨h1, by simp, ?_⟩
              intro x hx hy
              simp only [List.map_cons, List.map_nil, List.mem_singleton] at hy
              rcases List.mem_map.mp hx with ⟨a, ha, rfl⟩
              have hy' : a.id = uniqueAgentId now (normalizeString (jget fields "name")) S := hy
              exact hnot (hy' ▸ h2 a ha)
            · intro a ha
              rw [sadd_eq_append hnot]
              rcases List.mem_append.mp ha with h4 | h4
              · exact List.mem_append_left _ (h2 a h4)
              · simp only [List.mem_singleton] at h4
                subst h4
                simp [legacyAgentFor]
            · rw [sadd_eq_append hnot]
              simp only [List.length_append, List.length_cons, List.length_nil]
              simp only [List.length_cons] at h3
              omega
      | null => simp only [legacyStep]; exact ih A S h1 h2 h3'
      | bool b => simp only [legacyStep]; exact ih A S h1 h2 h3'
      | num n => simp only [legacyStep]; exact ih A S h1 h2 h3'
      | str s => simp only [legacyStep]; exact ih A S h1 h2 h3'
      | arr xs => simp only [legacyStep]; exact ih A S h1 h2 h3'

theorem decDigitsSpec_shape (n : Nat) : ∀ c ∈ decDigitsSpec n, ∃ d, c = decChar d := by
  induction n using Nat.strong_induction_on with
  | _ n ih =>
      intro c hc
      unfold decDigitsSpec at hc
      split at hc
      · simp only [List.mem_singleton] at hc
        exact ⟨n, hc⟩
      · rcases List.mem_append.mp hc with h1 | h1
        · exact ih (n / 10) (Nat.div_lt_self (by omega) (by omega)) c h1
        · simp only [List.mem_singleton] at h1
          exact ⟨n % 10, h1⟩

theorem jsWs_decChar (d : Nat) : jsWs (decChar d) = false := by
  unfold decChar
  split <;> decide

theorem toLower_decChar (d : Nat) : (decChar d).toLower = decChar d := by
  unfold decChar
  split <;> decide

theorem isSlugChar_decChar (d : Nat) : isSlugChar (decChar d) = true := by
  unfold decChar
  split <;> decide

theorem decChar_ne_dash (d : Nat) : (decChar d == '-') = false := by
  unfold decChar
  split <;> decide

theorem dropWhile_cons_of_neg {p : Char → Bool} {c : Char} {cs : List Char}
    (h : p c = false) : (c :: cs).dropWhile p = c :: cs := by
  rw [List.dropWhile_cons, h]
  simp

theorem replaceRunsGo_id (bad : Char → Bool) (rep : Char) :
    ∀ (cs : List Char), (∀ c ∈ cs, bad c = false) → ∀ b, replaceRunsGo bad rep b cs = cs := by
  intro cs
  induction cs with
  | nil => intro _ b; rfl
  | cons c rest ih =>
      intro h b
      unfold replaceRunsGo
      rw [h c (List.mem_cons_self _ _)]
      simp only [Bool.false_eq_true, if_false]
      rw [ih (fun c hc => h c (List.mem_cons_of_mem _ hc)) false]

theorem dropWhile_all_neg {p : Char → Bool} :
    ∀ {l : List Char}, (∀ c ∈ l, p c = false) → l.dropWhile p = l := by
  intro l h
  cases l with
  | nil => rfl
  | cons c cs => exact dropWhile_cons_of_neg (h c (List.mem_cons_self _ _))

theorem trimChars_id {l : List Char} (h : ∀ c ∈ l, jsWs c = false) : trimChars l = l := by
  unfold trimChars
  rw [dropWhile_all_neg h,
    dropWhile_all_neg (fun c hc => h c (List.mem_reverse.mp hc)), List.reverse_reverse]

theorem family_data (i : Nat) :
    ("a" ++ "-" ++ natToDec i).data = 'a' :: '-' :: natToDecChars i := by
  simp [String.data_append, natToDec]

theorem family_chars (i : Nat) :
    ∀ c ∈ ('a' :: '-' :: natToDecChars i),
      jsWs c = false ∧ c.toLower = c ∧ isSlugChar c = true ∧ (decide (c = '-') = true → c = '-') := by
  intro c hc
  rcases List.mem_cons.mp hc with rfl | hc'
  · refine ⟨by decide, by decide, by decide, fun h => absurd h (by decide)⟩
  · rcases List.mem_cons.mp hc' with rfl | hc''
    · exact ⟨by decide, by decide, by decide, fun _ => rfl⟩
    · rw [natToDecChars_eq] at hc''
      rcases decDigitsSpec_shape i c hc'' with ⟨d, rfl⟩
      exact ⟨jsWs_decChar d, toLower_decChar d, isSlugChar_decChar d,
        fun h => by simpa using h⟩

theorem decChar_ne_dash' (d : Nat) : (decide (decChar d = '-')) = false := by
  unfold decChar
  split <;> decide

theorem family_trim (i : Nat) :
    jsTrim ("a" ++ "-" ++ natToDec i) = "a" ++ "-" ++ natToDec i := by
  unfold jsTrim
  rw [family_data i, trimChars_id (fun c hc => (family_chars i c hc).1)]
  exact String.ext (family_data i).symm

theorem family_lower (i : Nat) :
    jsToLower ("a" ++ "-" ++ natToDec i) = "a" ++ "-" ++ natToDec i := by
  unfold jsToLower
  rw [family_data i]
  rw [List.map_congr_left (fun c hc => (family_chars i c hc).2.1)]
  rw [List.map_id']
  exact String.ext (family_data i).symm

theorem family_ds_ne_dash (i : Nat) :
    ∀ c ∈ natToDecChars i, (decide (c = '-')) = false := by
  intro c hc
  rw [natToDecChars_eq] at hc
  rcases decDigitsSpec_shape i c hc with ⟨d, rfl⟩
  exact decChar_ne_dash' d

theorem family_collapse (i : Nat) :
    collapseDashes ('a' :: '-' :: natToDecChars i) = 'a' :: '-' :: natToDecChars i := by
  unfold collapseDashes replaceRuns
  simp only [replaceRunsGo]
  norm_num
  rw [replaceRunsGo_id _ _ _ (family_ds_ne_dash i) true]
  rw [if_neg (by decide : ¬('a' = '-'))]

theorem family_strip (i : Nat) :
    stripDashes ('a' :: '-' :: natToDecChars i) = 'a' :: '-' :: natToDecChars i := by
  unfold stripDashes
  rw [dropWhile_cons_of_neg (by decide)]
  have hne := natToDecChars_ne_nil i
  cases hdr : (natToDecChars i).reverse with
  | nil =>
      exfalso
      apply hne
      have := congrArg List.reverse hdr
      simpa using this
  | cons c0 cr =>
      have hc0 : c0 ∈ natToDecChars i := by
        rw [← List.mem_reverse, hdr]
        exact List.mem_cons_self _ _
      have hrev : ('a' :: '-' :: natToDecChars i).reverse = c0 :: (cr ++ ['-', 'a']) := by
        simp [hdr]
      rw [hrev, dropWhile_cons_of_neg (family_ds_ne_dash i c0 hc0), ← hrev,
        List.reverse_reverse]

theorem family_slug (i : Nat) :
    slugifyAgentId ("a" ++ "-" ++ natToDec i) = "a" ++ "-" ++ natToDec i := by
  simp only [slugifyAgentId]
  rw [family_trim, family_lower, family_data]
  have hrep : replaceRuns (fun c => !isSlugChar c) '-' ('a' :: '-' :: natToDecChars i) =
      'a' :: '-' :: natToDecChars i :=
    replaceRunsGo_id _ _ _
      (fun c hc => by
        rw [(family_chars i c hc).2.2.1]
        rfl) false
  rw [hrep, family_collapse, family_strip]
  rw [if_neg (by simp)]
  rw [if_pos (show (match 'a' :: '-' :: natToDecChars i with
    | c :: _ => isSlugStartChar c | [] => false) = true from rfl)]
  exact String.ext (family_data i).symm

theorem legacy_fold_direct (now : Nat) :
    ∀ (ns : List String) (A : List AgentOut) (S : List String),
      (∀ n ∈ ns, jsTrim n = n) →
      (∀ n ∈ ns, slugifyAgentId n = n) →
      (∀ n ∈ ns, n ≠ "") →
      (∀ n ∈ ns, n ∉ S) →
      ns.Nodup →
      (ns.map (fun s => JVal.obj [("name", JVal.str s)])).foldl (legacyStep now) (A, S) =
        (A ++ ns.map (fun n => legacyAgentFor n "" n), S ++ ns) := by
  intro ns
  induction ns with
  | nil =>
      intro A S _ _ _ _ _
      simp
  | cons n rest ih =>
      intro A S htrim hslug hne hnotin hnd
      simp only [List.map_cons, List.foldl_cons]
      have hstep : legacyStep now (A, S) (JVal.obj [("name", JVal.str n)]) =
          (A ++ [legacyAgentFor n "" n], S ++ [n]) := by
        simp only [legacyStep]
        have hname : normalizeString (jget [("name", JVal.str n)] "name") = n := by
          show jsTrim n = n
          exact htrim n (List.mem_cons_self _ _)
        rw [hname]
        rw [if_neg (hne n (List.mem_cons_self _ _))]
        have hid : uniqueAgentId now n S = n := by
          simp only [uniqueAgentId]
          rw [hslug n (List.mem_cons_self _ _)]
          have hc : S.contains n = false := by
            simpa using hnotin n (List.mem_cons_self _ _)
          rw [hc]
          rfl
        rw [hid]
        rw [sadd_eq_append (hnotin n (List.mem_cons_self _ _))]
        rfl
      rw [hstep]
      rw [ih (A ++ [legacyAgentFor n "" n]) (S ++ [n])
        (fun m hm => htrim m (List.mem_cons_of_mem _ hm))
        (fun m hm => hslug m (List.mem_cons_of_mem _ hm))
        (fun m hm => hne m (List.mem_cons_of_mem _ hm))
        (fun m hm => by
          rw [List.mem_append]
          rintro (h1 | h1)
          · exact hnotin m (List.mem_cons_of_mem _ hm) h1
          · simp only [List.mem_singleton] at h1
            subst h1
            exact (List.nodup_cons.mp hnd).1 hm)
        (List.nodup_cons.mp hnd).2]
      simp

theorem family_ne_empty (i : Nat) : ("a" ++ "-" ++ natToDec i) ≠ "" := by
  intro h
  have h2 := congrArg String.data h
  rw [family_data] at h2
  cases h2

theorem probe_nodup :
    ("a" :: (List.range' 2 998).map (fun i => "a" ++ "-" ++ natToDec i)).Nodup := by
  rw [List.nodup_cons]
  constructor
  · intro hmem
    rcases List.mem_map.mp hmem with ⟨i, _, hi⟩
    exact base_ne_sufId "a" i hi.symm
  · refine List.Nodup.map_on ?_ (List.nodup_range' _ _)
    intro i _ j _ hij
    exact sufId_inj hij

theorem uniqueAgentId_exhausted (now : Nat) (S : List String)
    (hbase : "a" ∈ S)
    (hall : ∀ i ∈ List.range' 2 998, ("a" ++ "-" ++ natToDec i) ∈ S) :
    uniqueAgentId now "a" S = "a" ++ "-" ++ natToDec now := by
  simp only [uniqueAgentId]
  rw [show slugifyAgentId "a" = "a" from by decide]
  have hc : S.contains "a" = true := by simpa using hbase
  rw [hc]
  rw [if_neg (by decide)]
  have hnone : (List.range' 2 998).find?
      (fun i => !(S.contains ("a" ++ "-" ++ natToDec i))) = none := by
    rw [List.find?_eq_none]
    intro i hi
    simp only [Bool.not_eq_true']
    intro hfalse
    have htrue : S.contains ("a" ++ "-" ++ natToDec i) = true :=
      List.elem_iff.mpr (hall i hi)
    rw [htrue] at hfalse
    cases hfalse
  rw [hnone]

theorem legacyStep_dup (now : Nat) (A : List AgentOut) (S : List String)
    (hbase : "a" ∈ S)
    (hall : ∀ i ∈ List.range' 2 998, ("a" ++ "-" ++ natToDec i) ∈ S) :
    legacyStep now (A, S) (JVal.obj [("name", JVal.str "a")]) =
      (A ++ [legacyAgentFor "a" "" ("a" ++ "-" ++ natToDec now)],
       sadd S ("a" ++ "-" ++ natToDec now)) := by
  simp only [legacyStep]
  rw [show normalizeString (jget [("name", JVal.str "a")] "name") = "a" from rfl]
  rw [if_neg (by decide : ¬("a" = ""))]
  rw [uniqueAgentId_exhausted now S hbase hall]
  rfl

/-- Counterexample to C9 as stated: 1001 legacy items (999 occupying the
probe ids a, a-2 .. a-999 and two more named a) exhaust the -2..-999
probe of uniqueAgentId, so both remaining agents receive the unchecked
Date.now() fallback id a-0 and the produced ids are not pairwise
distinct. -/
theorem claim_C9_counterexample :
    (("a" :: (List.range' 2 998).map (fun i => "a" ++ "-" ++ natToDec i)).map
        (fun s => JVal.obj [("name", JVal.str s)]) ++
      [JVal.obj [("name", JVal.str "a")], JVal.obj [("name", JVal.str "a")]]).length = 1001 ∧
    ¬(((legacyAgents 0 (("a" :: (List.range' 2 998).map
          (fun i => "a" ++ "-" ++ natToDec i)).map
            (fun s => JVal.obj [("name", JVal.str s)]) ++
        [JVal.obj [("name", JVal.str "a")], JVal.obj [("name", JVal.str "a")]])).1).map
        (fun a => a.id)).Nodup := by
  have htrim : ∀ n ∈ ("a" :: (List.range' 2 998).map (fun i => "a" ++ "-" ++ natToDec i)),
      jsTrim n = n := by
    intro n hn
    rcases List.mem_cons.mp hn with rfl | hn'
    · rfl
    · rcases List.mem_map.mp hn' with ⟨i, _, rfl⟩
      exact family_trim i
  have hslug : ∀ n ∈ ("a" :: (List.range' 2 998).map (fun i => "a" ++ "-" ++ natToDec i)),
      slugifyAgentId n = n := by
    intro n hn
    rcases List.mem_cons.mp hn with rfl | hn'
    · decide
    · rcases List.mem_map.mp hn' with ⟨i, _, rfl⟩
      exact family_slug i
  have hne : ∀ n ∈ ("a" :: (List.range' 2 998).map (fun i => "a" ++ "-" ++ natToDec i)),
      n ≠ "" := by
    intro n hn
    rcases List.mem_cons.mp hn with rfl | hn'
    · decide
    · rcases List.mem_map.mp hn' with ⟨i, _, rfl⟩
      exact family_ne_empty i
  have hbase : "a" ∈ ("a" :: (List.range' 2 998).map (fun i => "a" ++ "-" ++ natToDec i)) :=
    List.mem_cons_self _ _
  have hall : ∀ i ∈ List.range' 2 998, ("a" ++ "-" ++ natToDec i) ∈
      ("a" :: (List.range' 2 998).map (fun i => "a" ++ "-" ++ natToDec i)) := by
    intro i hi
    exact List.mem_cons_of_mem _ (List.mem_map.mpr ⟨i, hi, rfl⟩)
  have hs0 : ("a" ++ "-" ++ natToDec 0) ∉
      ("a" :: (List.range' 2 998).map (fun i => "a" ++ "-" ++ natToDec i)) := by
    intro hmem
    rcases List.mem_cons.mp hmem with h1 | h1
    · exact base_ne_sufId "a" 0 h1.symm
    · rcases List.mem_map.mp h1 with ⟨i, hi, hij⟩
      have : i = 0 := sufId_inj hij
      subst this
      have := (List.mem_range'_1.mp hi).1
      omega
  constructor
  · simp
  · intro hnodup
    unfold legacyAgents at hnodup
    rw [List.foldl_append] at hnodup
    rw [legacy_fold_direct 0 _ [] [] htrim hslug hne (fun n _ => List.not_mem_nil n)
      probe_nodup] at hnodup
    simp only [List.nil_append] at hnodup
    simp only [List.foldl_cons, List.foldl_nil] at hnodup
    rw [legacyStep_dup 0 _ _ hbase hall] at hnodup
    rw [sadd_eq_append hs0] at hnodup
    rw [legacyStep_dup 0 _ _ (List.mem_append_left _ hbase)
      (fun i hi => List.mem_append_left _ (hall i hi))] at hnodup
    rw [List.map_append, List.map_append] at hnodup
    simp only [List.map_cons, List.map_nil] at hnodup
    have hid : (legacyAgentFor "a" "" ("a" ++ "-" ++ natToDec 0)).id =
        "a" ++ "-" ++ natToDec 0 := rfl
    rw [hid] at hnodup
    have hd := (List.nodup_append.mp hnodup).2.2
    exact hd (List.mem_append_right _ (List.mem_singleton.mpr rfl))
      (List.mem_singleton.mpr rfl)

theorem legacy_fold_valid (now : Nat) :
    ∀ (l : List JVal) (st : List AgentOut × List String),
      (∀ a ∈ st.1, isValidAgentId a.id = true) →
      ∀ a ∈ (l.foldl (legacyStep now) st).1, isValidAgentId a.id = true := by
  intro l
  induction l with
  | nil => intro st h a ha; exact h a ha
  | cons it rest ih =>
      intro st h a ha
      rw [List.foldl_cons] at ha
      cases it with
      | obj fields =>
          refine ih _ ?_ a ha
          simp only [legacyStep]
          split
          · exact h
          · intro a' ha'
            rcases List.mem_append.mp ha' with h1 | h1
            · exact h a' h1
            · simp only [List.mem_singleton] at h1
              subst h1
              exact uniqueAgentId_valid now _ _
      | null => exact ih _ h a ha
      | bool b => exact ih _ h a ha
      | num n => exact ih _ h a ha
      | str s => exact ih _ h a ha
      | arr xs => exact ih _ h a ha

/-- C9 (amended): in the legacy array path, every assigned agent id
matches the shared id pattern; and when the legacy array has at most 999
items the assigned ids are pairwise distinct (with more items the
unchecked Date.now() fallback of uniqueAgentId can collide). -/
theorem claim_C9_thm (now : Nat) (items : List JVal) :
    (∀ a ∈ (legacyAgents now items).1, isValidAgentId a.id = true) ∧
    (items.length ≤ 999 →
      (((legacyAgents now items).1).map (fun a => a.id)).Nodup) := by
  constructor
  · intro a ha
    unfold legacyAgents at ha
    exact legacy_fold_valid now items ([], []) (by intro a h; cases h) a ha
  · intro hlen
    unfold legacyAgents
    exact (legacy_fold_inv now items [] [] (by simp) (by intro a h; cases h)
      (by simpa using hlen)).1

/-- Witness for C9 at a small concrete legacy input: two agents named A
produce the pattern-valid distinct ids a and a-2. -/
theorem claim_C9_witness :
    ([JVal.obj [("name", JVal.str "A")], JVal.obj [("name", JVal.str "A")]].length ≤ 999) ∧
    (((legacyAgents 5 [JVal.obj [("name", JVal.str "A")],
        JVal.obj [("name", JVal.str "A")]]).1).map (fun a => a.id)).Nodup ∧
    (∀ a ∈ (legacyAgents 5 [JVal.obj [("name", JVal.str "A")],
        JVal.obj [("name", JVal.str "A")]]).1, isValidAgentId a.id = true) ∧
    ((legacyAgents 5 [JVal.obj [("name", JVal.str "A")],
        JVal.obj [("name", JVal.str "A")]]).1).map (fun a => a.id) = ["a", "a-2"] := by
  refine ⟨by decide, (claim_C9_thm 5 _).2 (by decide), (claim_C9_thm 5 _).1, ?_⟩
  decide
